import Mathlib

/-!
# Best-Fit-Circles: a shallow embedding of `Best_Fitting_Circle`

The fitter of `src/Toggle Points Method/Best_Fitting_Circle.cpp` is embedded
with explicit state passing.  So are the class of `Grid_Points.cpp` and the
index computations of the two `main.cpp` files: the hit test of
`mouse_activity` in the toggle tool, and `get_start_indx`, `get_end_indx` and
the loops of `get_best_fit_distances` in the radius-drag tool.

Reading of the machine types:

* `cv::Point` has `int` coordinates; they are read as `ℤ`.  Signed overflow is
  undefined in C++, so the embedding covers the executions in which the `int`
  products and differences of the coordinates do not overflow.
* `double` is read as `ℝ`: every operation is exact.  A division whose divisor
  is zero produces an infinity or a NaN in the program; the embedding stops
  there with a `Fault` that names the division.  Two quotients of `converge`
  are consumed on the spot by a test and never stored; their IEEE outcome is
  determinate and is modelled as such (see `line_search_continues` and
  `relative_change_small`).
* Passing a `double` to a `const int` parameter truncates it toward zero
  (`double_to_int`).  Outside the range of `int` that conversion is undefined;
  the embedding truncates all the same.
* The unqualified `abs` applied to a `double` is read as the absolute value of
  that `double`.
* `unsigned int` has 32 bits: a value converted to it is reduced modulo 2^32
  (`to_unsigned`), and an operation with one `unsigned int` operand is made in
  `unsigned int`; the conversion back to `int` is the two's complement one
  (`to_int`).

Because `Real.sqrt` has no executable counterpart the definitions live in a
`noncomputable section`; concrete runs are evaluated by rewriting.
-/

noncomputable section

namespace BestFit

/-! ## Data model -/

/-- The `cv::Point` of OpenCV: a pair of `int` coordinates. -/
@[ext]
structure Point where
  x : ℤ
  y : ℤ
  deriving DecidableEq

/-- The `struct Gradient` of `Best_Fitting_Circle.h`. -/
@[ext]
structure Gradient where
  x : ℝ
  y : ℝ

/-- The `struct Circle_Center` of `Best_Fitting_Circle.h`. -/
@[ext]
structure Circle_Center where
  x : ℝ
  y : ℝ

/-- The divisions of the fitter whose divisor can be zero, and the one loop
bound that can wrap around.  Reaching one of them ends the exact reading of the
run: the program goes on with a value that is not a finite number. -/
inductive Fault where
  /-- `2 * delta == 0` in `calculate_circumcenter`. -/
  | circumcenter_divisor
  /-- `points.size() - 2` wraps around in `initial_estimate` (fewer than two
  points): the `int` loop counters run up to signed overflow. -/
  | loop_bound_wraps
  /-- `q == 0` in `circle_center_est.x /= q` of `initial_estimate`. -/
  | triplet_count
  /-- `points.size() == 0` in `radius_estimate /= points.size()`. -/
  | point_count
  /-- `dxdy == 0` in `compute_lambda`: a point lies on the centre estimate. -/
  | lambda_distance
  /-- The divisor of `lambda /= ...` in `compute_lambda` is zero. -/
  | lambda_denominator
  /-- The divisor of `beta /= ...` in `converge` is zero. -/
  | beta_denominator
  deriving DecidableEq, Repr

/-- The private fields of `class Best_Fitting_Circle` (the field `delta` is
never read or written by any method and is left out). -/
@[ext]
structure Best_Fitting_Circle where
  radius_estimate : ℝ
  circle_center_est : Circle_Center
  cost : ℝ
  selected_points : List Point

/-- Division of two doubles, stopping with the fault `f` on a zero divisor. -/
def fdiv (f : Fault) (a b : ℝ) : Except Fault ℝ :=
  if b = 0 then Except.error f else Except.ok (a / b)

/-- Conversion of a `double` to `int`: truncation toward zero. -/
def double_to_int (x : ℝ) : ℤ :=
  if 0 ≤ x then ⌊x⌋ else ⌈x⌉

namespace Best_Fitting_Circle

/-- The constructor `Best_Fitting_Circle(std::vector<cv::Point>)`.  It sets the
centre and the radius to zero and leaves `cost` uninitialised: `cost0` is
whatever value the field happens to hold. -/
def construct (selected_points : List Point) (cost0 : ℝ) : Best_Fitting_Circle :=
  { radius_estimate := 0
    circle_center_est := ⟨0, 0⟩
    cost := cost0
    selected_points := selected_points }

/-- The method `calculate_circumcenter` (it reads no field). -/
def calculate_circumcenter (point_i point_j point_k : Point) (delta : ℝ) :
    Except Fault Circle_Center :=
  let dIJ : Point := ⟨point_j.x - point_i.x, point_j.y - point_i.y⟩
  let dJK : Point := ⟨point_k.x - point_j.x, point_k.y - point_j.y⟩
  let dKI : Point := ⟨point_i.x - point_k.x, point_i.y - point_k.y⟩
  let sqI : ℝ := ((point_i.x * point_i.x + point_i.y * point_i.y : ℤ) : ℝ)
  let sqJ : ℝ := ((point_j.x * point_j.x + point_j.y * point_j.y : ℤ) : ℝ)
  let sqK : ℝ := ((point_k.x * point_k.x + point_k.y * point_k.y : ℤ) : ℝ)
  match fdiv Fault.circumcenter_divisor (sqI * dJK.y + sqJ * dKI.y + sqK * dIJ.y) (2 * delta),
        fdiv Fault.circumcenter_divisor (-1 * (sqI * dJK.x + sqJ * dKI.x + sqK * dIJ.x)) (2 * delta) with
  | Except.ok cx, Except.ok cy => Except.ok ⟨cx, cy⟩
  | Except.error e, _ => Except.error e
  | _, Except.error e => Except.error e

/-- The index triples visited by the three nested `for` loops of
`initial_estimate` over `n` points, in the order of the visits:
`i` in `0 .. n-3`, `j` in `i+1 .. n-2`, `k` in `j+1 .. n-1`. -/
def triplet_indices (n : ℕ) : List (ℕ × ℕ × ℕ) :=
  (List.range (n - 2)).flatMap fun i =>
    (List.range' (i + 1) (n - 1 - (i + 1))).flatMap fun j =>
      (List.range' (j + 1) (n - (j + 1))).map fun k => (i, j, k)

/-- The value `delta` of `initial_estimate` for the points `pi`, `pj`, `pk`:
`(jk.x * ij.y) - (ij.x * jk.y)`, computed on `int` and stored in a `double`. -/
def triplet_delta (pi pj pk : Point) : ℝ :=
  (((pk.x - pj.x) * (pj.y - pi.y) - (pj.x - pi.x) * (pk.y - pj.y) : ℤ) : ℝ)

/-- The point with index `i` of a point list, as `points[i]` reads it. -/
def point_at (points : List Point) (i : ℕ) : Point :=
  points.getD i ⟨0, 0⟩

/-- How the loop nest of `initial_estimate` ends: by the `return` inside the
degenerate branch, or by running to its end with the count `q`. -/
inductive Triplet_Exit where
  | returned (center : Circle_Center)
  | finished (center : Circle_Center) (q : ℕ)

/-- The body of the loop nest of `initial_estimate`, run over the index triples
`ts` from the accumulated centre `c` and the count `q`. -/
def triplet_loop (points : List Point) :
    List (ℕ × ℕ × ℕ) → Circle_Center → ℕ → Except Fault Triplet_Exit
  | [], c, q => Except.ok (Triplet_Exit.finished c q)
  | (i, j, k) :: ts, c, q =>
    let pi := point_at points i
    let pj := point_at points j
    let pk := point_at points k
    let delta := triplet_delta pi pj pk
    if |delta| < 1.0e-10 then
      -- `center_increment` is set to (-1, -1) here; `circle_center_est` is returned
      Except.ok (Triplet_Exit.returned c)
    else
      match calculate_circumcenter pi pj pk delta with
      | Except.error e => Except.error e
      | Except.ok center_increment =>
        triplet_loop points ts ⟨c.x + center_increment.x, c.y + center_increment.y⟩ (q + 1)

/-- The method `initial_estimate`: it returns the centre and the fitter with
`circle_center_est` updated. -/
def initial_estimate (s : Best_Fitting_Circle) (points : List Point) :
    Except Fault (Circle_Center × Best_Fitting_Circle) :=
  if points.length < 2 then Except.error Fault.loop_bound_wraps
  else
    match triplet_loop points (triplet_indices points.length) s.circle_center_est 0 with
    | Except.error e => Except.error e
    | Except.ok (Triplet_Exit.returned c) =>
      Except.ok (c, { s with circle_center_est := c })
    | Except.ok (Triplet_Exit.finished c q) =>
      match fdiv Fault.triplet_count c.x q, fdiv Fault.triplet_count c.y q with
      | Except.ok cx, Except.ok cy =>
        Except.ok (⟨cx, cy⟩, { s with circle_center_est := ⟨cx, cy⟩ })
      | Except.error e, _ => Except.error e
      | _, Except.error e => Except.error e

/-- The method `get_distance`; its four parameters are `const int`. -/
def get_distance (x1 x2 y1 y2 : ℤ) : ℝ :=
  Real.sqrt ((((y2 - y1 : ℤ) : ℝ)) ^ 2 + (((x2 - x1 : ℤ) : ℝ)) ^ 2)

/-- The call `get_distance(point.x, circle_center_est.x, point.y,
circle_center_est.y)` that three methods make: the two `double` coordinates
of the centre are converted to `int` on the way in. -/
def distance_to_center (s : Best_Fitting_Circle) (point : Point) : ℝ :=
  get_distance point.x (double_to_int s.circle_center_est.x)
    point.y (double_to_int s.circle_center_est.y)

/-- The method `compute_radius_estimate`: it returns the radius and the fitter
with `radius_estimate` updated. -/
def compute_radius_estimate (s : Best_Fitting_Circle) (points : List Point) :
    Except Fault (ℝ × Best_Fitting_Circle) :=
  let summed := points.foldl (fun r point => r + distance_to_center s point) s.radius_estimate
  match fdiv Fault.point_count summed points.length with
  | Except.error e => Except.error e
  | Except.ok r => Except.ok (r, { s with radius_estimate := r })

/-- The method `cost_function`. -/
def cost_function (s : Best_Fitting_Circle) (points : List Point) : ℝ :=
  points.foldl (fun cost point => cost + (distance_to_center s point - s.radius_estimate) ^ 2) 0

/-- The method `get_gradient_for_conjugate_gradient`. -/
def get_gradient_for_conjugate_gradient (s : Best_Fitting_Circle) (points : List Point) :
    Gradient :=
  let summed : Gradient := points.foldl
    (fun g point =>
      ⟨g.x + (s.circle_center_est.x - point.x) * (distance_to_center s point - s.radius_estimate),
       g.y + (s.circle_center_est.y - point.y) * (distance_to_center s point - s.radius_estimate)⟩)
    ⟨0, 0⟩
  ⟨summed.x * 2, summed.y * 2⟩

/-- The four running sums of `compute_lambda`. -/
structure Lambda_Sums where
  sum1 : ℝ
  sum2 : ℝ
  sum_fac : ℝ
  sum_fac_dr : ℝ

/-- The loop of `compute_lambda` over the points. -/
def lambda_loop (s : Best_Fitting_Circle) (u : Gradient) :
    List Point → Lambda_Sums → Except Fault Lambda_Sums
  | [], acc => Except.ok acc
  | point :: rest, acc =>
    let dx : ℝ := s.circle_center_est.x - point.x
    let dy : ℝ := s.circle_center_est.y - point.y
    let dxdy : ℝ := Real.sqrt (dx ^ 2 + dy ^ 2)
    if dxdy = 0 then Except.error Fault.lambda_distance
    else
      let c1 := (dx * u.x + dy * u.y) / dxdy
      let c2 := dxdy - s.radius_estimate
      lambda_loop s u rest
        ⟨acc.sum1 + c1 * c2, acc.sum2 + c2 / dxdy, acc.sum_fac + c1, acc.sum_fac_dr + c1 * c1 / dxdy⟩

/-- The method `compute_lambda`. -/
def compute_lambda (s : Best_Fitting_Circle) (points : List Point) (u : Gradient) :
    Except Fault ℝ :=
  match lambda_loop s u points ⟨0, 0, 0, 0⟩ with
  | Except.error e => Except.error e
  | Except.ok sums =>
    if points.length = 0 then Except.error Fault.lambda_denominator
    else
      fdiv Fault.lambda_denominator (-1 * sums.sum1)
        ((u.x ^ 2 + u.y ^ 2) * sums.sum2 - sums.sum_fac * sums.sum_fac / points.length
          + s.radius_estimate * sums.sum_fac_dr)

/-- The state after the body of the `do` loop of `converge` has run once with
the search direction `u`: a Newton step along `u`, then the radius and the
cost are recomputed. -/
def line_search_step (s : Best_Fitting_Circle) (u : Gradient) :
    Except Fault Best_Fitting_Circle :=
  match compute_lambda s s.selected_points u with
  | Except.error e => Except.error e
  | Except.ok lambda =>
    let s1 : Best_Fitting_Circle :=
      { s with circle_center_est :=
          ⟨s.circle_center_est.x + lambda * u.x, s.circle_center_est.y + lambda * u.y⟩ }
    match compute_radius_estimate s1 s1.selected_points with
    | Except.error e => Except.error e
    | Except.ok (_, s2) =>
      Except.ok { s2 with cost := cost_function s2 s2.selected_points }

/-- The second operand of the `while` condition of `converge`,
`(abs(cost - previous_cost)) / (cost > 0.1)`, converted to `bool`.  The divisor
is the comparison itself, that is `1` or `0`.  Divided by `1` the quotient is
non-zero exactly when the two costs differ; divided by `0` it is an infinity
or a NaN, and both convert to `true`. -/
def line_search_continues (cost previous_cost : ℝ) : Prop :=
  if cost > 0.1 then |cost - previous_cost| ≠ 0 else True

instance (cost previous_cost : ℝ) : Decidable (line_search_continues cost previous_cost) := by
  unfold line_search_continues; infer_instance

/-- The test `(abs(cost - previous_cost)) / cost < 1.0e-12` of `converge`.
With `cost == 0` the quotient is an infinity or a NaN and the comparison is
false. -/
def relative_change_small (cost previous_cost : ℝ) : Prop :=
  if cost = 0 then False else |cost - previous_cost| / cost < 1.0e-12

instance (cost previous_cost : ℝ) : Decidable (relative_change_small cost previous_cost) := by
  unfold relative_change_small; infer_instance

/-- The `do ... while (++i < 10 && ...)` loop of `converge`, entered with the
counter `i`.  It returns the fitter, the local `previous_cost` and the counter
at the exit of the loop. -/
def line_search (s : Best_Fitting_Circle) (u : Gradient) (i : ℕ) :
    Except Fault (Best_Fitting_Circle × ℝ × ℕ) :=
  match line_search_step s u with
  | Except.error e => Except.error e
  | Except.ok s1 =>
    if i + 1 < 10 ∧ line_search_continues s1.cost s.cost then
      line_search s1 u (i + 1)
    else
      Except.ok (s1, s.cost, i + 1)
termination_by 10 - i
decreasing_by omega

/-- The counter only grows in `line_search`. -/
theorem line_search_counter (s : Best_Fitting_Circle) (u : Gradient) (i : ℕ)
    (r : Best_Fitting_Circle × ℝ × ℕ) (h : line_search s u i = Except.ok r) : i < r.2.2 := by
  induction s, u, i using line_search.induct with
  | case1 s u i e he =>
    rw [line_search, he] at h
    cases h
  | case2 s u i s1 hs hc ih =>
    rw [line_search, hs] at h
    simp only [hc, and_self, if_true] at h
    have := ih h
    omega
  | case3 s u i s1 hs hc =>
    rw [line_search, hs] at h
    simp only [hc, if_false] at h
    cases h
    simp

/-- The search direction of one pass of the `for` loop of `converge`:
`-cost_gradient`, to which `beta * u_prev` is added when `i > 0`. -/
def search_direction (cost_gradient previouos_cost_gradient u_prev : Gradient) (i : ℕ) :
    Except Fault Gradient :=
  let u : Gradient := ⟨-1 * cost_gradient.x, -1 * cost_gradient.y⟩
  if i > 0 then
    match fdiv Fault.beta_denominator
        (cost_gradient.x * (cost_gradient.x - previouos_cost_gradient.x)
          + cost_gradient.y * (cost_gradient.y - previouos_cost_gradient.y))
        (previouos_cost_gradient.x * previouos_cost_gradient.x
          + previouos_cost_gradient.y + previouos_cost_gradient.y) with
    | Except.error e => Except.error e
    | Except.ok beta => Except.ok ⟨u.x + beta * u_prev.x, u.y + beta * u_prev.y⟩
  else Except.ok u

/-- The `for (int i = 0; i < 100; i++)` loop of `converge`, entered with the
counter `i`, the stored previous gradient and the previous direction. -/
def converge_loop (s : Best_Fitting_Circle) (cost_gradient previouos_cost_gradient u_prev : Gradient)
    (i : ℕ) : Except Fault (Bool × Best_Fitting_Circle) :=
  if i < 100 then
    match search_direction cost_gradient previouos_cost_gradient u_prev i with
    | Except.error e => Except.error e
    | Except.ok u =>
      match h : line_search s u i with
      | Except.error e => Except.error e
      | Except.ok (s1, previous_cost, i1) =>
        if relative_change_small s1.cost previous_cost then
          Except.ok (true, s1)
        else
          converge_loop s1 cost_gradient cost_gradient u (i1 + 1)
  else Except.ok (false, s)
termination_by 100 - i
decreasing_by
  have := line_search_counter s u i _ h
  simp only at this
  omega

/-- The method `converge`. -/
def converge (s : Best_Fitting_Circle) (cost_gradient : Gradient) :
    Except Fault (Bool × Best_Fitting_Circle) :=
  if s.cost < 1.0e-10 ∨ Real.sqrt (cost_gradient.x ^ 2 + cost_gradient.y ^ 2) < 1.0e-10 then
    Except.ok (true, s)
  else
    converge_loop s cost_gradient cost_gradient ⟨0, 0⟩ 0

/-- The method `compute_best_fit_circle`: it returns the flag and the fitter
as the call leaves it. -/
def compute_best_fit_circle (s : Best_Fitting_Circle) :
    Except Fault (Bool × Best_Fitting_Circle) :=
  match initial_estimate s s.selected_points with
  | Except.error e => Except.error e
  | Except.ok (circle_center_estimate, s1) =>
    if circle_center_estimate.x > -1 ∧ circle_center_estimate.y > -1 then
      match compute_radius_estimate s1 s1.selected_points with
      | Except.error e => Except.error e
      | Except.ok (_, s2) =>
        let s3 : Best_Fitting_Circle := { s2 with cost := cost_function s2 s2.selected_points }
        let cost_gradient := get_gradient_for_conjugate_gradient s3 s3.selected_points
        match converge s3 cost_gradient with
        | Except.error e => Except.error e
        | Except.ok (convergence, s4) =>
          if !convergence then Except.ok (false, s4) else Except.ok (true, s4)
    else Except.ok (false, s1)

/-- The method `get_center_coordinate`. -/
def get_center_coordinate (s : Best_Fitting_Circle) : Circle_Center :=
  s.circle_center_est

/-- The method `get_radius`. -/
def get_radius (s : Best_Fitting_Circle) : ℝ :=
  s.radius_estimate

end Best_Fitting_Circle

/-! ## Specification vocabulary and the inputs of the concrete runs -/

open Best_Fitting_Circle

/-- The squared Euclidean distance between a centre and an integer point. -/
def sq_dist (c : Circle_Center) (p : Point) : ℝ :=
  (c.x - p.x) ^ 2 + (c.y - p.y) ^ 2

/-- The point list of the concrete scenario of the specification. -/
def scenario_points : List Point := [⟨10, 0⟩, ⟨0, 10⟩, ⟨-10, 0⟩, ⟨0, -10⟩]

/-- The index triples `i < j < k < n`: the unordered triplets of `n` points. -/
def increasing_triples (n : ℕ) : Finset (ℕ × ℕ × ℕ) :=
  (Finset.range n ×ˢ Finset.range n ×ˢ Finset.range n).filter
    fun t => t.1 < t.2.1 ∧ t.2.1 < t.2.2

/-- The point that `calculate_circumcenter` returns for the points `pi`, `pj`,
`pk` and their own `delta`, when that `delta` is not zero. -/
def circumcenter_of (pi pj pk : Point) : Circle_Center :=
  ⟨(((pi.x * pi.x + pi.y * pi.y : ℤ) : ℝ) * ((pk.y - pj.y : ℤ) : ℝ)
      + ((pj.x * pj.x + pj.y * pj.y : ℤ) : ℝ) * ((pi.y - pk.y : ℤ) : ℝ)
      + ((pk.x * pk.x + pk.y * pk.y : ℤ) : ℝ) * ((pj.y - pi.y : ℤ) : ℝ))
      / (2 * triplet_delta pi pj pk),
    (-1 * (((pi.x * pi.x + pi.y * pi.y : ℤ) : ℝ) * ((pk.x - pj.x : ℤ) : ℝ)
      + ((pj.x * pj.x + pj.y * pj.y : ℤ) : ℝ) * ((pi.x - pk.x : ℤ) : ℝ)
      + ((pk.x * pk.x + pk.y * pk.y : ℤ) : ℝ) * ((pj.x - pi.x : ℤ) : ℝ)))
      / (2 * triplet_delta pi pj pk)⟩

/-- Three integer points lie on one line (two of them may coincide): the
vectors from `p` to `q` and from `p` to `r` have a zero cross product. -/
def collinear (p q r : Point) : Prop :=
  (q.x - p.x) * (r.y - p.y) - (r.x - p.x) * (q.y - p.y) = 0

instance (p q r : Point) : Decidable (collinear p q r) := by
  unfold collinear; infer_instance

/-- The integer points of `points` lie on the circle of centre `(a, b)` and
radius `r`. -/
def on_circle (points : List Point) (a b r : ℝ) : Prop :=
  ∀ p ∈ points, ((p.x : ℝ) - a) ^ 2 + ((p.y : ℝ) - b) ^ 2 = r ^ 2

/-- Three distinct points of the circle of centre (-5,0) and radius 5. -/
def negative_centre_points : List Point := [⟨0, 0⟩, ⟨-10, 0⟩, ⟨-5, 5⟩]

/-- Three distinct points of the line `y = 0`, placed symmetrically about the
origin. -/
def collinear_points : List Point := [⟨-6, 0⟩, ⟨0, 0⟩, ⟨6, 0⟩]

/-- The collinear points (0,0), (5,0), (10,0) of the specification. -/
def axis_points : List Point := [⟨0, 0⟩, ⟨5, 0⟩, ⟨10, 0⟩]

/-- The use that `mouse_activity` (main.cpp of the toggle tool) makes of the
fitter on a click on the generate button: the fitter is constructed and
`compute_best_fit_circle` is called only when at least three points are
selected and no circle has been generated yet; otherwise a message is printed
and no fitter exists (`none`). -/
def mouse_activity_generate (selected_points : List Point) (circle_generated : Bool)
    (cost0 : ℝ) : Option (Except Fault (Bool × Best_Fitting_Circle)) :=
  if selected_points.length ≥ 3 ∧ circle_generated = false then
    some (compute_best_fit_circle (construct selected_points cost0))
  else none

/-- Two points. -/
def two_points : List Point := [⟨0, 0⟩, ⟨1, 0⟩]

/-- The Euclidean distance from an integer point to a centre with real
coordinates. -/
def euclidean_distance (c : Circle_Center) (p : Point) : ℝ :=
  Real.sqrt ((c.x - p.x) ^ 2 + (c.y - p.y) ^ 2)

/-- The radius estimate as the specification words it: the arithmetic mean of
the Euclidean distances from the points to the centre. -/
def spec_mean_distance (c : Circle_Center) (points : List Point) : ℝ :=
  (points.map (euclidean_distance c)).sum / points.length

/-- The cost as the specification words it: the sum over the points of
(distance to the centre minus the radius) squared. -/
def spec_cost (c : Circle_Center) (r : ℝ) (points : List Point) : ℝ :=
  (points.map fun p => (euclidean_distance c p - r) ^ 2).sum

/-- The gradient as the specification words it. -/
def spec_gradient (c : Circle_Center) (r : ℝ) (points : List Point) : Gradient :=
  ⟨2 * (points.map fun p => (c.x - p.x) * (euclidean_distance c p - r)).sum,
   2 * (points.map fun p => (c.y - p.y) * (euclidean_distance c p - r)).sum⟩

/-- Three points at distance 3 from the origin. -/
def radius_three_points : List Point := [⟨3, 0⟩, ⟨0, 3⟩, ⟨-3, 0⟩]

/-- A fitter whose centre is the origin and whose stored radius is 3, the mean
distance of `radius_three_points`: the state in which a first call of
`compute_radius_estimate` leaves a fresh fitter on these points. -/
def fitter_after_first_radius : Best_Fitting_Circle :=
  { radius_estimate := 3, circle_center_est := ⟨0, 0⟩, cost := 0,
    selected_points := radius_three_points }

/-- A fitter whose centre (1/2, 0) is not an integer point, with radius 1 and
the single point (1,0), which is at distance 1/2 from the centre. -/
def fitter_half_centre : Best_Fitting_Circle :=
  { radius_estimate := 1, circle_center_est := ⟨1 / 2, 0⟩, cost := 0,
    selected_points := [⟨1, 0⟩] }

/-- Four distinct points: the first three are not collinear and have the
circumcentre (-2,-2); the first, the second and the fourth lie on one line. -/
def late_collinear_points : List Point := [⟨-3, -1⟩, ⟨-1, -3⟩, ⟨-3, -3⟩, ⟨0, -4⟩]

/-- Seven distinct points of the line `y = 0`. -/
def exhaust_points : List Point :=
  [⟨-8, 0⟩, ⟨-6, 0⟩, ⟨-4, 0⟩, ⟨-3, 0⟩, ⟨-2, 0⟩, ⟨-1, 0⟩, ⟨4, 0⟩]

/-- The sum of the distances from the points of `exhaust_points` to the
integer point `(t, 0)`. -/
def axis_sum (t : ℤ) : ℤ :=
  |t + 8| + |t + 6| + |t + 4| + |t + 3| + |t + 2| + |t + 1| + |t - 4|

/-- The cost of `exhaust_points` for the integer centre `(t, 0)` and the
radius `r`. -/
def axis_cost (t : ℤ) (r : ℚ) : ℚ :=
  (|t + 8| - r) ^ 2 + (|t + 6| - r) ^ 2 + (|t + 4| - r) ^ 2 + (|t + 3| - r) ^ 2
    + (|t + 2| - r) ^ 2 + (|t + 1| - r) ^ 2 + (|t - 4| - r) ^ 2

/-- The centre abscissa, the radius and the cost after one line-search step
on `exhaust_points`, computed on rationals from the centre abscissa and the
radius before the step (for a new centre abscissa between -1 and 2). -/
def axis_next (s : ℚ × ℚ × ℚ) : ℚ × ℚ × ℚ :=
  let c' := s.1 - 7 * (7 * s.1 + 20 - 5 * s.2.1) / 24
  let t : ℤ := if c' < 1 then 0 else 1
  let r' := (s.2.1 + axis_sum t) / 7
  (c', r', axis_cost t r')

/-- The centre abscissa, the radius and the cost after `k` line-search steps
on `exhaust_points`, from the state in which `compute_best_fit_circle` enters
`converge`: centre (0,0), radius 4, cost 34. -/
def axis_state : ℕ → ℚ × ℚ × ℚ
  | 0 => (0, 4, 34)
  | k + 1 => axis_next (axis_state k)

/-- The fitter on `exhaust_points` with the centre `(q.1, 0)`, the radius
`q.2.1` and the cost `q.2.2`. -/
def axis_fitter (q : ℚ × ℚ × ℚ) : Best_Fitting_Circle :=
  ⟨(q.2.1 : ℝ), ⟨(q.1 : ℝ), 0⟩, (q.2.2 : ℝ), exhaust_points⟩

/-- The facts that step `k` of the run needs: the centre stays between the
points (-1,0) and (4,0), the new centre truncates to 0 or 1, and the new cost
is above 0.1 and differs from the old one by more than the tolerance. -/
def axis_step_ok (k : ℕ) : Bool :=
  decide (-1 < (axis_state k).1 ∧ (axis_state k).1 < 4 ∧
    -1 < (axis_state (k + 1)).1 ∧ (axis_state (k + 1)).1 < 2 ∧
    1 / 10 < (axis_state (k + 1)).2.2 ∧
    (axis_state (k + 1)).2.2 ≠ (axis_state k).2.2 ∧
    ¬ (|(axis_state (k + 1)).2.2 - (axis_state k).2.2| / (axis_state (k + 1)).2.2
        < 1 / 1000000000000))

/-- Four points: the first three are not collinear and have the circumcentre
(2,2); the first, the second and the fourth lie on the line `y = 0`. -/
def accumulated_then_collinear_points : List Point := [⟨0, 0⟩, ⟨4, 0⟩, ⟨0, 4⟩, ⟨8, 0⟩]

/-- The coefficient `beta` of `converge`, as its two statements compute it from
the gradient and the stored previous gradient. -/
def beta_of_converge (cost_gradient previouos_cost_gradient : Gradient) : Except Fault ℝ :=
  fdiv Fault.beta_denominator
    (cost_gradient.x * (cost_gradient.x - previouos_cost_gradient.x)
      + cost_gradient.y * (cost_gradient.y - previouos_cost_gradient.y))
    (previouos_cost_gradient.x * previouos_cost_gradient.x
      + previouos_cost_gradient.y + previouos_cost_gradient.y)

/-- The Polak-Ribiere coefficient as the specification words it:
`G . (G - P) / |P|^2`. -/
def spec_beta (g p : Gradient) : ℝ :=
  (g.x * (g.x - p.x) + g.y * (g.y - p.y)) / (p.x ^ 2 + p.y ^ 2)

/-- The loop `line_search` together with the number of times its body ran. -/
def line_search_traced (s : Best_Fitting_Circle) (u : Gradient) (i : ℕ) :
    Except Fault (Best_Fitting_Circle × ℝ × ℕ) × ℕ :=
  match line_search_step s u with
  | Except.error e => (Except.error e, 1)
  | Except.ok s1 =>
    if i + 1 < 10 ∧ line_search_continues s1.cost s.cost then
      ((line_search_traced s1 u (i + 1)).1, (line_search_traced s1 u (i + 1)).2 + 1)
    else
      (Except.ok (s1, s.cost, i + 1), 1)
termination_by 10 - i
decreasing_by all_goals omega

/-- The loop `converge_loop` together with its log: one entry for each pass of
the `for` loop that was entered and got as far as its `do` loop, holding the
number of times the body of the `do` loop ran in that pass and whether the
test `(abs(cost - previous_cost)) / cost < 1.0e-12` after it succeeded. -/
def converge_loop_traced (s : Best_Fitting_Circle)
    (cost_gradient previouos_cost_gradient u_prev : Gradient) (i : ℕ) :
    Except Fault (Bool × Best_Fitting_Circle) × List (ℕ × Bool) :=
  if i < 100 then
    match search_direction cost_gradient previouos_cost_gradient u_prev i with
    | Except.error e => (Except.error e, [])
    | Except.ok u =>
      match h : line_search s u i with
      | Except.error e => (Except.error e, [((line_search_traced s u i).2, false)])
      | Except.ok (s1, previous_cost, i1) =>
        if relative_change_small s1.cost previous_cost then
          (Except.ok (true, s1), [((line_search_traced s u i).2, true)])
        else
          ((converge_loop_traced s1 cost_gradient cost_gradient u (i1 + 1)).1,
            ((line_search_traced s u i).2, false) ::
              (converge_loop_traced s1 cost_gradient cost_gradient u (i1 + 1)).2)
  else (Except.ok (false, s), [])
termination_by 100 - i
decreasing_by
  all_goals
    have := line_search_counter s u i _ h
    simp only at this
    omega

/-- The method `converge` together with the log of its `for` loop. -/
def converge_traced (s : Best_Fitting_Circle) (cost_gradient : Gradient) :
    Except Fault (Bool × Best_Fitting_Circle) × List (ℕ × Bool) :=
  if s.cost < 1.0e-10 ∨ Real.sqrt (cost_gradient.x ^ 2 + cost_gradient.y ^ 2) < 1.0e-10 then
    (Except.ok (true, s), [])
  else
    converge_loop_traced s cost_gradient cost_gradient ⟨0, 0⟩ 0

/-- The four corners of the unit square.  They lie on the circle of centre
(1/2, 1/2), and no three of them are collinear. -/
def square_points : List Point := [⟨0, 0⟩, ⟨1, 0⟩, ⟨0, 1⟩, ⟨1, 1⟩]

/-- The fitter on `square_points` with the centre (1/2, 1/2) and the radius
`a * (2 + √2)`, where `2 + √2` is the sum of the distances of the four points
from the truncated centre (0, 0); its cost is the cost of that radius. -/
def square_fitter (a : ℝ) : Best_Fitting_Circle :=
  ⟨a * (2 + Real.sqrt 2), ⟨1 / 2, 1 / 2⟩,
    4 + (6 + 4 * Real.sqrt 2) * (4 * a ^ 2 - 2 * a), square_points⟩

/-- The radius after `k` line-search steps on `square_points`, as a multiple
of `2 + √2`: each step adds the four distances to the stored radius and
divides by four. -/
def square_ratio : ℕ → ℚ
  | 0 => 1 / 4
  | k + 1 => (square_ratio k + 1) / 4

/-- The quantity `4 a ^ 2 - 2 a` of the radius ratio `a` after `k` steps: the
cost of `square_fitter a` is `4 + (6 + 4 √2) (4 a ^ 2 - 2 a)`. -/
def square_q (k : ℕ) : ℚ :=
  4 * square_ratio k ^ 2 - 2 * square_ratio k

/-- The facts that step `k` of the run on `square_points` needs, on rationals,
with 1164/100 < 6 + 4 √2 < 1168/100: the radius stays below √2, the cost
changes, the relative change of the cost is not below the tolerance at the
steps 9 to 19 and is below it at step 20. -/
def square_step_ok (k : ℕ) : Bool :=
  decide (square_ratio k ≤ 2 / 5 ∧ square_q (k + 1) ≠ square_q k ∧ square_q (k + 1) ≤ 0 ∧
    -1 / 4 < square_q (k + 1) ∧
    (k < 20 → 1 / 1000000000000 * (4 + 1164 / 100 * square_q (k + 1))
      ≤ 1164 / 100 * |square_q (k + 1) - square_q k|) ∧
    (k = 20 → 1168 / 100 * |square_q (k + 1) - square_q k|
      < 1 / 1000000000000 * (4 + 1168 / 100 * square_q (k + 1))))

/-- Four points of the circle of centre (-5,-5) and radius 10; no three of
them are collinear. -/
def rejected_circle_points : List Point := [⟨-15, -5⟩, ⟨-5, 5⟩, ⟨5, -5⟩, ⟨-5, -15⟩]

/-- The states of the fitter after each completed execution of the body of
the `do` loop of `converge`, entered with the counter `i`.  The record ends at
the first execution that divides by zero: the program goes on from there with
a centre that is not a number, and the record has no state for it. -/
def line_search_states (s : Best_Fitting_Circle) (u : Gradient) (i : ℕ) :
    List Best_Fitting_Circle :=
  match line_search_step s u with
  | Except.error _ => []
  | Except.ok s1 =>
    if i + 1 < 10 ∧ line_search_continues s1.cost s.cost then
      s1 :: line_search_states s1 u (i + 1)
    else
      [s1]
termination_by 10 - i
decreasing_by omega

/-- The record of one pass of the `for` loop of `converge`. -/
structure Pass where
  /-- The value of the counter `i` with which the pass is entered. -/
  start : ℕ
  /-- The variable `cost_gradient` in the pass. -/
  cost_gradient : Gradient
  /-- The variable `previouos_cost_gradient` where `beta` is computed. -/
  previous : Gradient
  /-- The direction `u` of the pass. -/
  direction : Gradient
  /-- The number of executions of the body of the `do` loop, each of which
  calls `compute_lambda` once. -/
  steps : ℕ
  /-- The fitter after each completed execution of the body of the `do` loop,
  up to the first execution that divides by zero. -/
  states : List Best_Fitting_Circle

/-- The passes of the `for` loop of `converge` that a run makes from the pass
entered with the counter `i`, in order.  A pass whose direction cannot be
computed (the divisor of `beta` is zero) ends the record, and so does a pass
whose `do` loop divides by zero. -/
def converge_loop_passes (s : Best_Fitting_Circle)
    (cost_gradient previouos_cost_gradient u_prev : Gradient) (i : ℕ) : List Pass :=
  if i < 100 then
    match search_direction cost_gradient previouos_cost_gradient u_prev i with
    | Except.error _ => []
    | Except.ok u =>
      match h : line_search s u i with
      | Except.error _ =>
        [⟨i, cost_gradient, previouos_cost_gradient, u, (line_search_traced s u i).2,
          line_search_states s u i⟩]
      | Except.ok (s1, previous_cost, i1) =>
        if relative_change_small s1.cost previous_cost then
          [⟨i, cost_gradient, previouos_cost_gradient, u, (line_search_traced s u i).2,
            line_search_states s u i⟩]
        else
          ⟨i, cost_gradient, previouos_cost_gradient, u, (line_search_traced s u i).2,
            line_search_states s u i⟩ ::
            converge_loop_passes s1 cost_gradient cost_gradient u (i1 + 1)
  else []
termination_by 100 - i
decreasing_by
  have := line_search_counter s u i _ h
  simp only at this
  omega

/-- The passes of the `for` loop that a call of `converge` makes. -/
def converge_passes (s : Best_Fitting_Circle) (cost_gradient : Gradient) : List Pass :=
  if s.cost < 1.0e-10 ∨ Real.sqrt (cost_gradient.x ^ 2 + cost_gradient.y ^ 2) < 1.0e-10 then
    []
  else
    converge_loop_passes s cost_gradient cost_gradient ⟨0, 0⟩ 0

/-- The number of line-search steps that `converge` can still make when a pass
of the `for` loop is entered with the counter `i`: up to `10 - i` in a pass
entered below 10, then one in every pass, the counter growing by two. -/
def steps_budget (i : ℕ) : ℕ :=
  if i ≤ 10 then 55 - i else (101 - i) / 2

/-- The point `c` lies on the straight line through `c0` in the direction of
the vector `g`. -/
def on_gradient_line (c0 : Circle_Center) (g : Gradient) (c : Circle_Center) : Prop :=
  ∃ t : ℝ, c = ⟨c0.x + t * g.x, c0.y + t * g.y⟩

/-! ## The grid point of the toggle tool (`Grid_Points.cpp`) -/

/-- The `cv::Scalar` of OpenCV: four values, of which the constructor with
three arguments sets the last to 0.  The program stores only the constants 0,
128 and 255 in it; they are read as rationals. -/
structure Scalar where
  v0 : ℚ
  v1 : ℚ
  v2 : ℚ
  v3 : ℚ
  deriving DecidableEq

/-- The call `cv::Scalar(v0, v1, v2)`. -/
def Scalar.of_three (v0 v1 v2 : ℚ) : Scalar := ⟨v0, v1, v2, 0⟩

/-- The class `Grid_Points` of `Grid_Points.h`. -/
structure Grid_Points where
  point : Point
  grid_offset : Point
  is_selected : Bool
  color : Scalar
  deriving DecidableEq

namespace Grid_Points

/-- The method `set_params`, applied to the object `g`. -/
def set_params (g : Grid_Points) (point : Point) (is_selected : Bool) : Grid_Points :=
  let g1 : Grid_Points := { g with point := point }
  let g2 : Grid_Points := { g1 with is_selected := is_selected }
  let g3 : Grid_Points :=
    if !is_selected then { g2 with color := Scalar.of_three 128 128 128 }
    else { g2 with color := Scalar.of_three 255 0 0 }
  let g4 : Grid_Points := { g3 with grid_offset := ⟨point.x + 5, g3.grid_offset.y⟩ }
  { g4 with grid_offset := ⟨g4.grid_offset.x, point.y + 5⟩ }

/-- The method `toggle`. -/
def toggle (g : Grid_Points) : Grid_Points :=
  if g.is_selected = false then
    { g with is_selected := true, color := Scalar.of_three 255 0 0 }
  else
    { g with is_selected := false, color := Scalar.of_three 128 128 128 }

/-- The method `get_is_selected`. -/
def get_is_selected (g : Grid_Points) : Bool :=
  g.is_selected

end Grid_Points

/-! ## The grid indices of the two tools (`main.cpp`) -/

/-- Conversion of an integer value to `unsigned int` (32 bits): the value
modulo 2^32.  Values of type `unsigned int` are integers from 0 to 2^32 - 1. -/
def to_unsigned (x : ℤ) : ℤ :=
  x % 4294967296

/-- Conversion of an `unsigned int` value to `int`: the values from 2^31 on
come out negative (two's complement). -/
def to_int (u : ℤ) : ℤ :=
  if u % 4294967296 < 2147483648 then u % 4294967296 else u % 4294967296 - 4294967296

/-- The values of the loop variable of `for (unsigned int i = lo; i <= hi; ++i)`,
for a bound `hi` below 2^32 - 1. -/
def unsigned_loop (lo hi : ℤ) : List ℤ :=
  (List.range (hi + 1 - lo).toNat).map fun (k : ℕ) => lo + (k : ℤ)

namespace Radius_Drag

/-- The global `unsigned int grid_spacing = 40` of the radius-drag tool. -/
def grid_spacing : ℕ := 40

/-- The function `get_start_indx`.  The operand `(int)start_indx % grid_spacing`
and the subtraction of the compound assignment are made in `unsigned int`,
the second operand being `unsigned int`; the result is converted back to `int`.
The `int` subtraction `center_coordinate - radius` is read without overflow. -/
def get_start_indx (center_coordinate radius : ℤ) (grid_spacing : ℕ) : ℤ :=
  let start_indx : ℤ := center_coordinate - radius
  let start_indx : ℤ :=
    to_int (to_unsigned (to_unsigned start_indx - to_unsigned start_indx % (grid_spacing : ℤ)))
  if start_indx < 40 then 40 else start_indx

/-- The function `get_end_indx`.  `int(radius) << 1` is read as `radius * 2`;
the remainder, the difference and the sum of the second statement are made in
`unsigned int` and the result is converted back to `int`. -/
def get_end_indx (start_indx radius : ℤ) (grid_spacing : ℕ) : ℤ :=
  let end_indx : ℤ := start_indx + radius * 2
  let end_indx : ℤ :=
    to_int (to_unsigned (to_unsigned end_indx
      + to_unsigned ((grid_spacing : ℤ) - to_unsigned end_indx % (grid_spacing : ℤ))))
  if end_indx > 800 then 800 else end_indx

/-- The index pairs `[i - 1][j - 1]` at which the two loops of
`get_best_fit_distances` read `grid_coordinates`, in the order of the reads.
The `unsigned int` centre and the `double` radius are converted to the `int`
parameters of `get_start_indx` and `get_end_indx`; the quotients by
`grid_spacing` and the differences `i - 1`, `j - 1` are made in
`unsigned int`. -/
def get_best_fit_distances_reads (center_x center_y : ℕ) (radius : ℝ) : List (ℤ × ℤ) :=
  let start_indx_x := get_start_indx (to_int center_x) (double_to_int radius) grid_spacing
  let start_indx_y := get_start_indx (to_int center_y) (double_to_int radius) grid_spacing
  let end_indx_x := get_end_indx start_indx_x (double_to_int radius) grid_spacing
  let end_indx_y := get_end_indx start_indx_y (double_to_int radius) grid_spacing
  (unsigned_loop (to_unsigned start_indx_x / (grid_spacing : ℤ))
      (to_unsigned end_indx_x / (grid_spacing : ℤ))).flatMap fun i =>
    (unsigned_loop (to_unsigned start_indx_y / (grid_spacing : ℤ))
      (to_unsigned end_indx_y / (grid_spacing : ℤ))).map fun j =>
        (to_unsigned (i - 1), to_unsigned (j - 1))

end Radius_Drag

namespace Toggle_Points

/-- The global `const unsigned int grid_spacing = 40` of the toggle tool. -/
def grid_spacing : ℕ := 40

/-- The hit test of `mouse_activity` and the indices that it computes: when
`x % grid_spacing < 5 && y % grid_spacing < 5`, the pair
`(indx_x - 1, indx_y - 1)` with which `grid_points` is indexed, otherwise
nothing.  The remainders, the differences and the quotients by 40 are made in
`unsigned int`, `grid_spacing` being `unsigned int`, and converted to the `int`
variables `indx_x`, `indx_y`. -/
def mouse_activity_toggle (x y : ℤ) : Option (ℤ × ℤ) :=
  if to_unsigned x % (grid_spacing : ℤ) < 5 ∧ to_unsigned y % (grid_spacing : ℤ) < 5 then
    let indx_x : ℤ :=
      to_int (to_unsigned (to_unsigned x - to_unsigned x % (grid_spacing : ℤ)) / 40)
    let indx_y : ℤ :=
      to_int (to_unsigned (to_unsigned y - to_unsigned y % (grid_spacing : ℤ)) / 40)
    some (indx_x - 1, indx_y - 1)
  else none

end Toggle_Points

/-! ## Properties of the circumcentre -/

theorem fdiv_ok (f : Fault) (a b : ℝ) (hb : b ≠ 0) : fdiv f a b = Except.ok (a / b) := by
  simp [fdiv, hb]

theorem fdiv_zero (f : Fault) (a : ℝ) : fdiv f a 0 = Except.error f := by
  simp [fdiv]

/-- With a non-zero `delta` both divisions of `calculate_circumcenter` go
through and the result is the pair of the two quotients. -/
theorem calculate_circumcenter_ok (pi pj pk : Point) (delta : ℝ) (hd : delta ≠ 0) :
    calculate_circumcenter pi pj pk delta = Except.ok
      ⟨(((pi.x * pi.x + pi.y * pi.y : ℤ) : ℝ) * ((pk.y - pj.y : ℤ) : ℝ)
          + ((pj.x * pj.x + pj.y * pj.y : ℤ) : ℝ) * ((pi.y - pk.y : ℤ) : ℝ)
          + ((pk.x * pk.x + pk.y * pk.y : ℤ) : ℝ) * ((pj.y - pi.y : ℤ) : ℝ)) / (2 * delta),
        (-1 * (((pi.x * pi.x + pi.y * pi.y : ℤ) : ℝ) * ((pk.x - pj.x : ℤ) : ℝ)
          + ((pj.x * pj.x + pj.y * pj.y : ℤ) : ℝ) * ((pi.x - pk.x : ℤ) : ℝ)
          + ((pk.x * pk.x + pk.y * pk.y : ℤ) : ℝ) * ((pj.x - pi.x : ℤ) : ℝ))) / (2 * delta)⟩ := by
  have h2 : (2 : ℝ) * delta ≠ 0 := mul_ne_zero two_ne_zero hd
  simp only [calculate_circumcenter, fdiv_ok _ _ _ h2]

/-- C10: for three integer points whose cross product `delta` is non-zero,
`calculate_circumcenter` returns a point, and its squared distances to the
three points are equal. -/
theorem C10_circumcenter_equidistant (pi pj pk : Point) (hd : triplet_delta pi pj pk ≠ 0) :
    ∃ c : Circle_Center,
      calculate_circumcenter pi pj pk (triplet_delta pi pj pk) = Except.ok c ∧
      sq_dist c pi = sq_dist c pj ∧ sq_dist c pj = sq_dist c pk := by
  refine ⟨_, calculate_circumcenter_ok pi pj pk _ hd, ?_, ?_⟩
  · simp only [sq_dist, triplet_delta] at hd ⊢
    push_cast at hd ⊢
    field_simp
    ring
  · simp only [sq_dist, triplet_delta] at hd ⊢
    push_cast at hd ⊢
    field_simp
    ring

/-! ## The loops over the points as sums -/

theorem foldl_add_eq_sum {α : Type} (f : α → ℝ) (l : List α) (a : ℝ) :
    l.foldl (fun r p => r + f p) a = a + (l.map f).sum := by
  induction l generalizing a with
  | nil => simp
  | cons p l ih => simp [ih, add_assoc]

/-- What `compute_radius_estimate` does on a non-empty list: the distances are
added to the radius stored before the call, and the total is divided by the
number of points. -/
theorem compute_radius_estimate_eq (s : Best_Fitting_Circle) (points : List Point)
    (hne : points ≠ []) :
    compute_radius_estimate s points = Except.ok
      ((s.radius_estimate + (points.map (distance_to_center s)).sum) / points.length,
        { s with radius_estimate :=
            (s.radius_estimate + (points.map (distance_to_center s)).sum) / points.length }) := by
  have hlen : (points.length : ℝ) ≠ 0 := by
    have : points.length ≠ 0 := fun h => hne (List.length_eq_zero.mp h)
    exact_mod_cast this
  simp only [compute_radius_estimate, foldl_add_eq_sum, fdiv_ok _ _ _ hlen]

theorem cost_function_eq_sum (s : Best_Fitting_Circle) (points : List Point) :
    cost_function s points
      = (points.map fun p => (distance_to_center s p - s.radius_estimate) ^ 2).sum := by
  simp only [cost_function, foldl_add_eq_sum, zero_add]

theorem double_to_int_intCast (z : ℤ) : double_to_int (z : ℝ) = z := by
  unfold double_to_int
  split <;> simp

/-- The distance handed to the callers of `get_distance` when the centre
estimate has integer coordinates `a`, `b`. -/
theorem distance_to_center_intCast (s : Best_Fitting_Circle) (a b : ℤ) (p : Point)
    (hx : s.circle_center_est.x = a) (hy : s.circle_center_est.y = b) :
    distance_to_center s p = Real.sqrt (((b : ℝ) - p.y) ^ 2 + ((a : ℝ) - p.x) ^ 2) := by
  simp only [distance_to_center, get_distance, hx, hy, double_to_int_intCast]
  push_cast
  rfl

theorem sqrt_eq_of_sq (x r : ℝ) (hr : 0 ≤ r) (h : x = r ^ 2) : Real.sqrt x = r := by
  rw [h, Real.sqrt_sq hr]

/-! ## The fit of points that are equidistant from the estimate -/

theorem sum_map_const {α : Type} (f : α → ℝ) (l : List α) (r : ℝ) (h : ∀ p ∈ l, f p = r) :
    (l.map f).sum = l.length * r := by
  induction l with
  | nil => simp
  | cons p l ih =>
    have hp : f p = r := h p (List.mem_cons_self _ _)
    have hl : ∀ q ∈ l, f q = r := fun q hq => h q (List.mem_cons_of_mem _ hq)
    simp only [List.map_cons, List.sum_cons, List.length_cons, ih hl, hp]
    push_cast
    ring

/-- Once the centre estimate is accepted by the test `x > -1 && y > -1`, the
stored radius is zero and every selected point is at the same distance `r`
from the (truncated) centre, the fit succeeds at once: the radius estimate is
`r`, the cost is zero and `converge` returns true before its loop. -/
theorem fit_of_equidistant (s : Best_Fitting_Circle) (c : Circle_Center) (r : ℝ)
    (hinit : initial_estimate s s.selected_points
      = Except.ok (c, { s with circle_center_est := c }))
    (hx : c.x > -1) (hy : c.y > -1) (hr0 : s.radius_estimate = 0)
    (hne : s.selected_points ≠ [])
    (hdist : ∀ p ∈ s.selected_points,
      distance_to_center { s with circle_center_est := c } p = r) :
    compute_best_fit_circle s = Except.ok (true,
      { radius_estimate := r, circle_center_est := c, cost := 0,
        selected_points := s.selected_points }) := by
  have hlen : (s.selected_points.length : ℝ) ≠ 0 := by
    have : s.selected_points.length ≠ 0 := fun h => hne (List.length_eq_zero.mp h)
    exact_mod_cast this
  have hrad : compute_radius_estimate { s with circle_center_est := c } s.selected_points
      = Except.ok (r, { s with circle_center_est := c, radius_estimate := r }) := by
    rw [compute_radius_estimate_eq _ _ hne, sum_map_const _ _ r hdist]
    simp only [hr0, zero_add]
    rw [mul_div_cancel_left₀ r hlen]
  have hcost : cost_function { s with circle_center_est := c, radius_estimate := r }
      s.selected_points = 0 := by
    rw [cost_function_eq_sum, sum_map_const _ _ 0]
    · simp
    · intro p hp
      have := hdist p hp
      simp only [distance_to_center] at this ⊢
      simp [this]
  simp only [compute_best_fit_circle, hinit, hx, hy, and_self, if_true, hrad, hcost, converge]
  norm_num

theorem scenario_initial_estimate (cost0 : ℝ) :
    initial_estimate (construct scenario_points cost0) scenario_points
      = Except.ok (⟨0, 0⟩, construct scenario_points cost0) := by
  have h : triplet_indices 4 = [(0, 1, 2), (0, 1, 3), (0, 2, 3), (1, 2, 3)] := by decide
  simp only [initial_estimate, scenario_points, List.length_cons, List.length_nil, h]
  norm_num [triplet_loop, point_at, triplet_delta, calculate_circumcenter, fdiv, construct]

theorem scenario_distance (cost0 : ℝ) (p : Point) (hp : p ∈ scenario_points) :
    distance_to_center (construct scenario_points cost0) p = 10 := by
  rw [distance_to_center_intCast _ 0 0 p (by simp [construct]) (by simp [construct])]
  apply sqrt_eq_of_sq _ _ (by norm_num)
  simp only [scenario_points, List.mem_cons, List.mem_singleton, List.not_mem_nil, or_false] at hp
  rcases hp with rfl | rfl | rfl | rfl <;> norm_num

/-- C1: on the four points (10,0), (0,10), (-10,0), (0,-10) a freshly
constructed fitter returns true, with centre (0,0) and radius 10. -/
theorem C1_unit_circle_scenario (cost0 : ℝ) :
    ∃ s : Best_Fitting_Circle,
      compute_best_fit_circle (construct scenario_points cost0) = Except.ok (true, s) ∧
      get_center_coordinate s = ⟨0, 0⟩ ∧ get_radius s = 10 := by
  refine ⟨_, fit_of_equidistant (construct scenario_points cost0) ⟨0, 0⟩ 10
    (scenario_initial_estimate cost0) (by norm_num) (by norm_num) rfl
    (by simp [construct, scenario_points]) (scenario_distance cost0), rfl, rfl⟩

/-! ## The initial estimate -/

theorem mem_increasing_triples (n : ℕ) (t : ℕ × ℕ × ℕ) :
    t ∈ increasing_triples n ↔ t.1 < t.2.1 ∧ t.2.1 < t.2.2 ∧ t.2.2 < n := by
  simp only [increasing_triples, Finset.mem_filter, Finset.mem_product, Finset.mem_range]
  omega

theorem mem_triplet_indices (n : ℕ) (t : ℕ × ℕ × ℕ) :
    t ∈ triplet_indices n ↔ t.1 < t.2.1 ∧ t.2.1 < t.2.2 ∧ t.2.2 < n := by
  obtain ⟨i, j, k⟩ := t
  simp only [triplet_indices, List.mem_flatMap, List.mem_range, List.mem_range'_1, List.mem_map,
    Prod.mk.injEq]
  constructor
  · rintro ⟨a, ha, b, hb, c, hc, rfl, rfl, rfl⟩
    omega
  · intro h
    exact ⟨i, by omega, j, by omega, k, by omega, rfl, rfl, rfl⟩

theorem nodup_triplet_indices (n : ℕ) : (triplet_indices n).Nodup := by
  unfold triplet_indices
  rw [List.nodup_flatMap]
  refine ⟨fun i _ => ?_, ?_⟩
  · rw [List.nodup_flatMap]
    refine ⟨fun j _ => ?_, ?_⟩
    · exact (List.nodup_range' _ _).map (fun a b h => by simpa using h)
    · refine (List.nodup_range' _ _).pairwise_of_forall_ne ?_
      intro a _ b _ hab
      simp only [Function.onFun, List.disjoint_left, List.mem_map, not_exists, not_and]
      rintro t ⟨k, _, rfl⟩ k2 _ h
      simp only [Prod.mk.injEq] at h
      exact hab h.2.1.symm
  · refine (List.nodup_range _).pairwise_of_forall_ne ?_
    intro a _ b _ hab
    simp only [Function.onFun, List.disjoint_left, List.mem_flatMap, List.mem_map, not_exists,
      not_and]
    rintro t ⟨j, _, k, _, rfl⟩ j2 _ k2 _ h
    simp only [Prod.mk.injEq] at h
    exact hab h.1.symm

theorem triplet_indices_toFinset (n : ℕ) :
    (triplet_indices n).toFinset = increasing_triples n := by
  ext t
  rw [List.mem_toFinset, mem_triplet_indices, mem_increasing_triples]

theorem sum_triplet_indices (n : ℕ) (f : ℕ × ℕ × ℕ → ℝ) :
    ((triplet_indices n).map f).sum = ∑ t in increasing_triples n, f t := by
  rw [← triplet_indices_toFinset, List.sum_toFinset f (nodup_triplet_indices n)]

theorem length_triplet_indices (n : ℕ) :
    (triplet_indices n).length = (increasing_triples n).card := by
  rw [← triplet_indices_toFinset, List.toFinset_card_of_nodup (nodup_triplet_indices n)]
theorem card_increasing_triples (n : ℕ) : (increasing_triples n).card = n.choose 3 := by
  have hc : (Finset.powersetCard 3 (Finset.range n)).card = n.choose 3 := by
    rw [Finset.card_powersetCard, Finset.card_range]
  rw [← hc]
  refine Finset.card_bij (fun t _ => ({t.1, t.2.1, t.2.2} : Finset ℕ)) ?_ ?_ ?_
  · rintro ⟨i, j, k⟩ ht
    rw [mem_increasing_triples] at ht
    simp only at ht
    rw [Finset.mem_powersetCard]
    refine ⟨?_, ?_⟩
    · intro a ha
      simp only [Finset.mem_insert, Finset.mem_singleton] at ha
      rw [Finset.mem_range]
      omega
    · rw [Finset.card_eq_three]
      exact ⟨i, j, k, by omega, by omega, by omega, rfl⟩
  · rintro ⟨i, j, k⟩ ht ⟨i2, j2, k2⟩ ht2 h
    rw [mem_increasing_triples] at ht ht2
    simp only at ht ht2 h
    have hi := Finset.ext_iff.mp h i
    have hj := Finset.ext_iff.mp h j
    have hk := Finset.ext_iff.mp h k
    have hi2 := Finset.ext_iff.mp h i2
    have hj2 := Finset.ext_iff.mp h j2
    have hk2 := Finset.ext_iff.mp h k2
    simp only [Finset.mem_insert, Finset.mem_singleton, true_or, or_true, true_iff, iff_true]
      at hi hj hk hi2 hj2 hk2
    simp only [Prod.mk.injEq]
    omega
  · intro s hs
    rw [Finset.mem_powersetCard] at hs
    obtain ⟨hsub, hcard⟩ := hs
    obtain ⟨x, y, z, hxy, hxz, hyz, rfl⟩ := Finset.card_eq_three.mp hcard
    have hx : x < n := Finset.mem_range.mp (hsub (by simp))
    have hy : y < n := Finset.mem_range.mp (hsub (by simp))
    have hz : z < n := Finset.mem_range.mp (hsub (by simp))
    have key : ∀ a b c : ℕ, a < b → b < c → c < n →
        (({a, b, c} : Finset ℕ) = {x, y, z}) →
        ∃ t, ∃ _ : t ∈ increasing_triples n, ({t.1, t.2.1, t.2.2} : Finset ℕ) = {x, y, z} :=
      fun a b c hab hbc hcn he =>
        ⟨(a, b, c), (mem_increasing_triples n _).mpr ⟨hab, hbc, hcn⟩, he⟩
    rcases lt_trichotomy x y with h1 | h1 | h1
    · rcases lt_trichotomy y z with h2 | h2 | h2
      · exact key x y z h1 h2 hz rfl
      · exact absurd h2 hyz
      · rcases lt_trichotomy x z with h3 | h3 | h3
        · exact key x z y h3 h2 hy (by ext a; simp only [Finset.mem_insert, Finset.mem_singleton]; tauto)
        · exact absurd h3 hxz
        · exact key z x y h3 h1 hy (by ext a; simp only [Finset.mem_insert, Finset.mem_singleton]; tauto)
    · exact absurd h1 hxy
    · rcases lt_trichotomy x z with h2 | h2 | h2
      · exact key y x z h1 h2 hz (by ext a; simp only [Finset.mem_insert, Finset.mem_singleton]; tauto)
      · exact absurd h2 hxz
      · rcases lt_trichotomy y z with h3 | h3 | h3
        · exact key y z x h3 h2 hx (by ext a; simp only [Finset.mem_insert, Finset.mem_singleton]; tauto)
        · exact absurd h3 hyz
        · exact key z y x h3 h1 hx (by ext a; simp only [Finset.mem_insert, Finset.mem_singleton]; tauto)
theorem calculate_circumcenter_eq (pi pj pk : Point) (hd : triplet_delta pi pj pk ≠ 0) :
    calculate_circumcenter pi pj pk (triplet_delta pi pj pk)
      = Except.ok (circumcenter_of pi pj pk) :=
  calculate_circumcenter_ok pi pj pk _ hd

/-- On integer points the test `abs(delta) < 1.0e-10` fails as soon as `delta`
is not zero: a non-zero integer has absolute value at least one. -/
theorem triplet_delta_not_small (pi pj pk : Point) (hd : triplet_delta pi pj pk ≠ 0) :
    ¬ |triplet_delta pi pj pk| < 1.0e-10 := by
  unfold triplet_delta at hd ⊢
  have hz : ((pk.x - pj.x) * (pj.y - pi.y) - (pj.x - pi.x) * (pk.y - pj.y) : ℤ) ≠ 0 := by
    intro h
    exact hd (by rw [h]; simp)
  have h1 : (1 : ℤ) ≤ |(pk.x - pj.x) * (pj.y - pi.y) - (pj.x - pi.x) * (pk.y - pj.y)| :=
    Int.one_le_abs hz
  have h2 : (1 : ℝ) ≤ |(((pk.x - pj.x) * (pj.y - pi.y) - (pj.x - pi.x) * (pk.y - pj.y) : ℤ) : ℝ)| := by
    rw [← Int.cast_abs]
    exact_mod_cast h1
  intro h
  have h3 : (1.0e-10 : ℝ) < 1 := by norm_num
  linarith

/-- The loop nest over index triples none of which is degenerate runs to its
end: it adds the circumcentre of every triple to the accumulated centre and
counts the triples. -/
theorem triplet_loop_finished (points : List Point) (ts : List (ℕ × ℕ × ℕ)) (c : Circle_Center)
    (q : ℕ)
    (h : ∀ t ∈ ts,
      triplet_delta (point_at points t.1) (point_at points t.2.1) (point_at points t.2.2) ≠ 0) :
    triplet_loop points ts c q = Except.ok (Triplet_Exit.finished
      ⟨c.x + (ts.map fun t => (circumcenter_of (point_at points t.1) (point_at points t.2.1)
          (point_at points t.2.2)).x).sum,
        c.y + (ts.map fun t => (circumcenter_of (point_at points t.1) (point_at points t.2.1)
          (point_at points t.2.2)).y).sum⟩
      (q + ts.length)) := by
  induction ts generalizing c q with
  | nil => simp [triplet_loop]
  | cons t ts ih =>
    obtain ⟨i, j, k⟩ := t
    have ht := h (i, j, k) (List.mem_cons_self _ _)
    have hts : ∀ t ∈ ts, triplet_delta (point_at points t.1) (point_at points t.2.1)
        (point_at points t.2.2) ≠ 0 := fun t ht => h t (List.mem_cons_of_mem _ ht)
    have hsmall := triplet_delta_not_small _ _ _ ht
    simp only [triplet_loop, hsmall, if_false, calculate_circumcenter_eq _ _ _ ht, ih _ _ hts]
    simp only [List.map_cons, List.sum_cons, List.length_cons]
    congr 2
    · congr 1 <;> ring
    · omega
/-- The `delta` of `initial_estimate` is zero exactly on collinear points. -/
theorem triplet_delta_eq_zero_iff (pi pj pk : Point) :
    triplet_delta pi pj pk = 0 ↔ collinear pi pj pk := by
  unfold triplet_delta collinear
  rw [Int.cast_eq_zero]
  constructor <;> intro h <;> linarith

/-- What `initial_estimate` returns when no triplet is degenerate: the sums of
the circumcentres over the list of index triples, from the centre stored
before the call, divided by the number of triples. -/
theorem initial_estimate_of_nondegenerate (s : Best_Fitting_Circle) (points : List Point)
    (hn : 3 ≤ points.length)
    (h : ∀ t ∈ increasing_triples points.length,
      triplet_delta (point_at points t.1) (point_at points t.2.1) (point_at points t.2.2) ≠ 0) :
    initial_estimate s points = Except.ok
      (⟨(s.circle_center_est.x + ∑ t in increasing_triples points.length,
            (circumcenter_of (point_at points t.1) (point_at points t.2.1)
              (point_at points t.2.2)).x) / (points.length.choose 3 : ℕ),
          (s.circle_center_est.y + ∑ t in increasing_triples points.length,
            (circumcenter_of (point_at points t.1) (point_at points t.2.1)
              (point_at points t.2.2)).y) / (points.length.choose 3 : ℕ)⟩,
        { s with circle_center_est :=
          ⟨(s.circle_center_est.x + ∑ t in increasing_triples points.length,
            (circumcenter_of (point_at points t.1) (point_at points t.2.1)
              (point_at points t.2.2)).x) / (points.length.choose 3 : ℕ),
          (s.circle_center_est.y + ∑ t in increasing_triples points.length,
            (circumcenter_of (point_at points t.1) (point_at points t.2.1)
              (point_at points t.2.2)).y) / (points.length.choose 3 : ℕ)⟩ }) := by
  have hlist : ∀ t ∈ triplet_indices points.length,
      triplet_delta (point_at points t.1) (point_at points t.2.1) (point_at points t.2.2) ≠ 0 :=
    fun t ht => h t ((mem_increasing_triples _ t).mpr ((mem_triplet_indices _ t).mp ht))
  have hq : ((points.length.choose 3 : ℕ) : ℝ) ≠ 0 := by
    have : 0 < points.length.choose 3 := Nat.choose_pos hn
    exact_mod_cast this.ne'
  have h2 : ¬ points.length < 2 := by omega
  simp only [initial_estimate, h2, if_false, triplet_loop_finished points _ _ _ hlist,
    sum_triplet_indices, length_triplet_indices, card_increasing_triples, zero_add,
    fdiv_ok _ _ _ hq]

/-- C9: for n >= 3 integer points no three of which are collinear,
`initial_estimate` on a freshly constructed fitter returns the arithmetic mean
of the circumcentres of the n-choose-3 triplets `i < j < k`: the circumcentres
that `calculate_circumcenter` computes, summed and divided by their number. -/
theorem C9_initial_estimate_is_mean (points : List Point) (cost0 : ℝ)
    (hn : 3 ≤ points.length)
    (hnc : ∀ i j k, i < j → j < k → k < points.length →
      ¬ collinear (point_at points i) (point_at points j) (point_at points k)) :
    ∃ cc : ℕ × ℕ × ℕ → Circle_Center,
      (∀ t ∈ increasing_triples points.length,
        calculate_circumcenter (point_at points t.1) (point_at points t.2.1)
          (point_at points t.2.2)
          (triplet_delta (point_at points t.1) (point_at points t.2.1) (point_at points t.2.2))
          = Except.ok (cc t)) ∧
      (increasing_triples points.length).card = points.length.choose 3 ∧
      ∃ s : Best_Fitting_Circle,
        initial_estimate (construct points cost0) points = Except.ok
          (⟨(∑ t in increasing_triples points.length, (cc t).x) / (points.length.choose 3 : ℕ),
            (∑ t in increasing_triples points.length, (cc t).y) / (points.length.choose 3 : ℕ)⟩,
           s) := by
  have h : ∀ t ∈ increasing_triples points.length,
      triplet_delta (point_at points t.1) (point_at points t.2.1) (point_at points t.2.2) ≠ 0 := by
    intro t ht
    rw [mem_increasing_triples] at ht
    rw [Ne, triplet_delta_eq_zero_iff]
    exact hnc _ _ _ ht.1 ht.2.1 ht.2.2
  refine ⟨fun t => circumcenter_of (point_at points t.1) (point_at points t.2.1)
    (point_at points t.2.2), fun t ht => calculate_circumcenter_eq _ _ _ (h t ht),
    card_increasing_triples _, ?_⟩
  have := initial_estimate_of_nondegenerate (construct points cost0) points hn h
  simp only [construct, zero_add] at this
  exact ⟨_, this⟩

/-! ## Witnesses at the scenario points -/

/-- C10 at the points (10,0), (0,10), (-10,0), whose `delta` is -200. -/
theorem C10_circumcenter_equidistant_witness :
    triplet_delta ⟨10, 0⟩ ⟨0, 10⟩ ⟨-10, 0⟩ ≠ 0 ∧
    ∃ c : Circle_Center,
      calculate_circumcenter ⟨10, 0⟩ ⟨0, 10⟩ ⟨-10, 0⟩ (triplet_delta ⟨10, 0⟩ ⟨0, 10⟩ ⟨-10, 0⟩)
        = Except.ok c ∧
      sq_dist c ⟨10, 0⟩ = sq_dist c ⟨0, 10⟩ ∧ sq_dist c ⟨0, 10⟩ = sq_dist c ⟨-10, 0⟩ :=
  ⟨by norm_num [triplet_delta],
    C10_circumcenter_equidistant ⟨10, 0⟩ ⟨0, 10⟩ ⟨-10, 0⟩ (by norm_num [triplet_delta])⟩

theorem scenario_not_collinear (i j k : ℕ) (hij : i < j) (hjk : j < k)
    (hk : k < scenario_points.length) :
    ¬ collinear (point_at scenario_points i) (point_at scenario_points j)
      (point_at scenario_points k) := by
  have hk4 : k < 4 := hk
  interval_cases k <;> interval_cases j <;> interval_cases i <;> first | omega | decide

/-- C9 at the four points (10,0), (0,10), (-10,0), (0,-10), no three of which
are collinear. -/
theorem C9_initial_estimate_is_mean_witness :
    3 ≤ scenario_points.length ∧
    ∃ cc : ℕ × ℕ × ℕ → Circle_Center,
      (∀ t ∈ increasing_triples scenario_points.length,
        calculate_circumcenter (point_at scenario_points t.1) (point_at scenario_points t.2.1)
          (point_at scenario_points t.2.2)
          (triplet_delta (point_at scenario_points t.1) (point_at scenario_points t.2.1)
            (point_at scenario_points t.2.2))
          = Except.ok (cc t)) ∧
      (increasing_triples scenario_points.length).card = scenario_points.length.choose 3 ∧
      ∃ s : Best_Fitting_Circle,
        initial_estimate (construct scenario_points 0) scenario_points = Except.ok
          (⟨(∑ t in increasing_triples scenario_points.length, (cc t).x)
              / (scenario_points.length.choose 3 : ℕ),
            (∑ t in increasing_triples scenario_points.length, (cc t).y)
              / (scenario_points.length.choose 3 : ℕ)⟩,
           s) :=
  ⟨by decide, C9_initial_estimate_is_mean scenario_points 0 (by decide) scenario_not_collinear⟩

/-! ## Points on one circle -/

/-- Three points of a circle that lie on one line: the first and the third
coincide as soon as the second differs from both.  Stated on the two edge
vectors `d`, `e` and on `w`, the vector from the centre to the first point. -/
theorem chord_vectors_cancel (d1 d2 e1 e2 w1 w2 : ℝ)
    (hA : 2 * (w1 * d1 + w2 * d2) + (d1 ^ 2 + d2 ^ 2) = 0)
    (hB : 2 * ((w1 + d1) * e1 + (w2 + d2) * e2) + (e1 ^ 2 + e2 ^ 2) = 0)
    (hdelta : e1 * d2 - d1 * e2 = 0)
    (hd : d1 ^ 2 + d2 ^ 2 ≠ 0) (he : e1 ^ 2 + e2 ^ 2 ≠ 0) :
    (d1 + e1) ^ 2 + (d2 + e2) ^ 2 = 0 := by
  have step1 : (d1 ^ 2 + d2 ^ 2) * (2 * (w1 * e1 + w2 * e2) + (d1 * e1 + d2 * e2)) = 0 := by
    linear_combination (d1 * e1 + d2 * e2) * hA + 2 * (w1 * d2 - w2 * d1) * hdelta
  have step2 : 2 * (w1 * e1 + w2 * e2) + (d1 * e1 + d2 * e2) = 0 :=
    (mul_eq_zero.mp step1).resolve_left hd
  have step3 : (d1 * e1 + d2 * e2) + (e1 ^ 2 + e2 ^ 2) = 0 := by
    linear_combination hB - step2
  have step4 : (d1 * e1 + d2 * e2) ^ 2 = (d1 ^ 2 + d2 ^ 2) * (e1 ^ 2 + e2 ^ 2) := by
    linear_combination (-(e1 * d2 - d1 * e2)) * hdelta
  have step5 : (e1 ^ 2 + e2 ^ 2) * ((e1 ^ 2 + e2 ^ 2) - (d1 ^ 2 + d2 ^ 2)) = 0 := by
    linear_combination (-(d1 * e1 + d2 * e2) + (e1 ^ 2 + e2 ^ 2)) * step3 + step4
  have step6 : (e1 ^ 2 + e2 ^ 2) - (d1 ^ 2 + d2 ^ 2) = 0 :=
    (mul_eq_zero.mp step5).resolve_left he
  linear_combination 2 * step3 - step6

theorem sq_add_sq_ne_zero_of_ne (p q : Point) (h : p ≠ q) :
    ((q.x : ℝ) - p.x) ^ 2 + ((q.y : ℝ) - p.y) ^ 2 ≠ 0 := by
  intro h0
  have hx : ((q.x : ℝ) - p.x) ^ 2 = 0 := by nlinarith [sq_nonneg ((q.x : ℝ) - p.x), sq_nonneg ((q.y : ℝ) - p.y)]
  have hy : ((q.y : ℝ) - p.y) ^ 2 = 0 := by nlinarith [sq_nonneg ((q.x : ℝ) - p.x), sq_nonneg ((q.y : ℝ) - p.y)]
  have hx2 : (q.x : ℝ) = p.x := by
    have := pow_eq_zero_iff (two_ne_zero) |>.mp hx
    linarith
  have hy2 : (q.y : ℝ) = p.y := by
    have := pow_eq_zero_iff (two_ne_zero) |>.mp hy
    linarith
  apply h
  ext
  · exact_mod_cast hx2.symm
  · exact_mod_cast hy2.symm

/-- Three distinct integer points of one circle are not collinear: their
`delta` is not zero. -/
theorem triplet_delta_ne_zero_of_on_circle (pi pj pk : Point) (a b r : ℝ)
    (hi : ((pi.x : ℝ) - a) ^ 2 + ((pi.y : ℝ) - b) ^ 2 = r ^ 2)
    (hj : ((pj.x : ℝ) - a) ^ 2 + ((pj.y : ℝ) - b) ^ 2 = r ^ 2)
    (hk : ((pk.x : ℝ) - a) ^ 2 + ((pk.y : ℝ) - b) ^ 2 = r ^ 2)
    (hij : pi ≠ pj) (hjk : pj ≠ pk) (hik : pi ≠ pk) :
    triplet_delta pi pj pk ≠ 0 := by
  intro h0
  unfold triplet_delta at h0
  push_cast at h0
  have hd := sq_add_sq_ne_zero_of_ne pi pj hij
  have he := sq_add_sq_ne_zero_of_ne pj pk hjk
  have hde := sq_add_sq_ne_zero_of_ne pi pk hik
  have key := chord_vectors_cancel ((pj.x : ℝ) - pi.x) ((pj.y : ℝ) - pi.y)
    ((pk.x : ℝ) - pj.x) ((pk.y : ℝ) - pj.y) ((pi.x : ℝ) - a) ((pi.y : ℝ) - b)
    (by linear_combination hj - hi) (by linear_combination hk - hj)
    (by linear_combination h0) hd he
  apply hde
  linear_combination key

/-- The circumcentre that the code computes for three non-collinear points of
a circle is the centre of the circle. -/
theorem circumcenter_of_on_circle (pi pj pk : Point) (a b r : ℝ)
    (hi : ((pi.x : ℝ) - a) ^ 2 + ((pi.y : ℝ) - b) ^ 2 = r ^ 2)
    (hj : ((pj.x : ℝ) - a) ^ 2 + ((pj.y : ℝ) - b) ^ 2 = r ^ 2)
    (hk : ((pk.x : ℝ) - a) ^ 2 + ((pk.y : ℝ) - b) ^ 2 = r ^ 2)
    (hd : triplet_delta pi pj pk ≠ 0) :
    circumcenter_of pi pj pk = ⟨a, b⟩ := by
  have h2 : (2 : ℝ) * triplet_delta pi pj pk ≠ 0 := mul_ne_zero two_ne_zero hd
  unfold circumcenter_of
  congr 1
  · rw [div_eq_iff h2]
    unfold triplet_delta
    push_cast
    linear_combination ((pk.y : ℝ) - pj.y) * hi + ((pi.y : ℝ) - pk.y) * hj
      + ((pj.y : ℝ) - pi.y) * hk
  · rw [div_eq_iff h2]
    unfold triplet_delta
    push_cast
    linear_combination (-((pk.x : ℝ) - pj.x)) * hi - ((pi.x : ℝ) - pk.x) * hj
      - ((pj.x : ℝ) - pi.x) * hk

theorem point_at_mem (points : List Point) (i : ℕ) (hi : i < points.length) :
    point_at points i ∈ points := by
  unfold point_at
  rw [List.getD_eq_getElem _ _ hi]
  exact List.getElem_mem hi

theorem point_at_ne_of_nodup (points : List Point) (hnd : points.Nodup) (i j : ℕ)
    (hij : i < j) (hj : j < points.length) : point_at points i ≠ point_at points j := by
  have hi : i < points.length := lt_trans hij hj
  unfold point_at
  rw [List.getD_eq_getElem _ _ hi, List.getD_eq_getElem _ _ hj]
  intro h
  have := (hnd.getElem_inj_iff).mp h
  omega

/-- On at least three distinct integer points of one circle, `initial_estimate`
run from the centre (0,0) returns the centre of the circle. -/
theorem initial_estimate_on_circle (s : Best_Fitting_Circle) (points : List Point) (a b r : ℝ)
    (hs : s.circle_center_est = ⟨0, 0⟩)
    (hn : 3 ≤ points.length) (hnd : points.Nodup) (hon : on_circle points a b r) :
    initial_estimate s points = Except.ok (⟨a, b⟩, { s with circle_center_est := ⟨a, b⟩ }) := by
  have hdelta : ∀ t ∈ increasing_triples points.length,
      triplet_delta (point_at points t.1) (point_at points t.2.1) (point_at points t.2.2) ≠ 0 := by
    intro t ht
    rw [mem_increasing_triples] at ht
    obtain ⟨h1, h2, h3⟩ := ht
    exact triplet_delta_ne_zero_of_on_circle _ _ _ a b r
      (hon _ (point_at_mem _ _ (by omega))) (hon _ (point_at_mem _ _ (by omega)))
      (hon _ (point_at_mem _ _ h3))
      (point_at_ne_of_nodup _ hnd _ _ h1 (by omega))
      (point_at_ne_of_nodup _ hnd _ _ h2 h3)
      (point_at_ne_of_nodup _ hnd _ _ (by omega) h3)
  have hcc : ∀ t ∈ increasing_triples points.length,
      circumcenter_of (point_at points t.1) (point_at points t.2.1) (point_at points t.2.2)
        = ⟨a, b⟩ := by
    intro t ht
    have hd := hdelta t ht
    rw [mem_increasing_triples] at ht
    obtain ⟨h1, h2, h3⟩ := ht
    exact circumcenter_of_on_circle _ _ _ a b r
      (hon _ (point_at_mem _ _ (by omega))) (hon _ (point_at_mem _ _ (by omega)))
      (hon _ (point_at_mem _ _ h3)) hd
  have hq : ((points.length.choose 3 : ℕ) : ℝ) ≠ 0 := by
    have : 0 < points.length.choose 3 := Nat.choose_pos hn
    exact_mod_cast this.ne'
  have hx : ∑ t in increasing_triples points.length,
      (circumcenter_of (point_at points t.1) (point_at points t.2.1) (point_at points t.2.2)).x
        = (points.length.choose 3 : ℕ) * a := by
    rw [Finset.sum_congr rfl fun t ht => by rw [hcc t ht], Finset.sum_const,
      card_increasing_triples, nsmul_eq_mul]
  have hy : ∑ t in increasing_triples points.length,
      (circumcenter_of (point_at points t.1) (point_at points t.2.1) (point_at points t.2.2)).y
        = (points.length.choose 3 : ℕ) * b := by
    rw [Finset.sum_congr rfl fun t ht => by rw [hcc t ht], Finset.sum_const,
      card_increasing_triples, nsmul_eq_mul]
  rw [initial_estimate_of_nondegenerate s points hn hdelta, hx, hy, hs]
  simp only [zero_add, mul_div_cancel_left₀ _ hq]

theorem distance_on_circle (s : Best_Fitting_Circle) (a b : ℤ) (r : ℝ) (p : Point)
    (hx : s.circle_center_est.x = a) (hy : s.circle_center_est.y = b) (hr : 0 ≤ r)
    (hp : ((p.x : ℝ) - a) ^ 2 + ((p.y : ℝ) - b) ^ 2 = r ^ 2) :
    distance_to_center s p = r := by
  rw [distance_to_center_intCast s a b p hx hy]
  apply sqrt_eq_of_sq _ _ hr
  linear_combination hp

/-- When the centre returned by `initial_estimate` fails the test
`x > -1 && y > -1`, `compute_best_fit_circle` returns false at once: the
fitter is left as `initial_estimate` left it. -/
theorem fit_rejected_of_estimate (s s1 : Best_Fitting_Circle) (c : Circle_Center)
    (hinit : initial_estimate s s.selected_points = Except.ok (c, s1))
    (hc : ¬ (c.x > -1 ∧ c.y > -1)) :
    compute_best_fit_circle s = Except.ok (false, s1) := by
  simp only [compute_best_fit_circle, hinit, hc, if_false]

/-- C2 (amended): for at least three distinct integer points that lie on one
circle whose centre has integer coordinates, a freshly constructed fitter
returns true when both coordinates of the centre are greater than -1, and
afterwards the centre is exactly the centre of the circle and the radius is
exactly its radius; when a coordinate of the centre is -1 or lower it returns
false, the centre estimate being the centre of the circle. -/
theorem C2_fit_on_circle (points : List Point) (cost0 : ℝ) (a b : ℤ) (r : ℝ)
    (hn : 3 ≤ points.length) (hnd : points.Nodup) (hon : on_circle points a b r)
    (hr : 0 ≤ r) :
    (((-1 : ℝ) < a ∧ (-1 : ℝ) < b) →
      ∃ s : Best_Fitting_Circle,
        compute_best_fit_circle (construct points cost0) = Except.ok (true, s) ∧
        get_center_coordinate s = ⟨a, b⟩ ∧ get_radius s = r) ∧
    (¬ ((-1 : ℝ) < a ∧ (-1 : ℝ) < b) →
      ∃ s : Best_Fitting_Circle,
        compute_best_fit_circle (construct points cost0) = Except.ok (false, s) ∧
        get_center_coordinate s = ⟨a, b⟩) := by
  have hne : points ≠ [] := by
    intro h
    rw [h] at hn
    simp at hn
  have hinit := initial_estimate_on_circle (construct points cost0) points a b r rfl hn hnd hon
  constructor
  · rintro ⟨ha, hb⟩
    refine ⟨_, fit_of_equidistant (construct points cost0) ⟨a, b⟩ r hinit ha hb rfl hne ?_,
      rfl, rfl⟩
    intro p hp
    exact distance_on_circle _ a b r p rfl rfl hr (hon p hp)
  · intro hc
    exact ⟨_, fit_rejected_of_estimate (construct points cost0) _ ⟨a, b⟩ hinit hc, rfl⟩

theorem negative_centre_on_circle : on_circle negative_centre_points (-5) 0 5 := by
  intro p hp
  simp only [negative_centre_points, List.mem_cons, List.mem_singleton, List.not_mem_nil,
    or_false] at hp
  rcases hp with rfl | rfl | rfl <;> norm_num

/-- C2 (counterexample): the three distinct points (0,0), (-10,0), (-5,5) lie
on the circle of centre (-5,0) and radius 5, and a freshly constructed fitter
returns false on them: the centre estimate (-5,0) fails the test `x > -1`. -/
theorem C2_negative_centre_rejected :
    3 ≤ negative_centre_points.length ∧ negative_centre_points.Nodup ∧
    on_circle negative_centre_points (-5) 0 5 ∧
    compute_best_fit_circle (construct negative_centre_points 0) = Except.ok
      (false, { construct negative_centre_points 0 with circle_center_est := ⟨-5, 0⟩ }) := by
  refine ⟨by decide, by decide, negative_centre_on_circle, ?_⟩
  apply fit_rejected_of_estimate _ _ ⟨-5, 0⟩
  · exact initial_estimate_on_circle _ negative_centre_points (-5) 0 5 rfl (by decide) (by decide)
      negative_centre_on_circle
  · norm_num

theorem scenario_on_circle : on_circle scenario_points ((0 : ℤ) : ℝ) ((0 : ℤ) : ℝ) 10 := by
  intro p hp
  simp only [scenario_points, List.mem_cons, List.mem_singleton, List.not_mem_nil,
    or_false] at hp
  rcases hp with rfl | rfl | rfl | rfl <;> norm_num

/-- C2 (amended) at the four points (10,0), (0,10), (-10,0), (0,-10) of the
circle of centre (0,0) and radius 10. -/
theorem C2_fit_on_circle_witness :
    (((-1 : ℝ) < ((0 : ℤ) : ℝ) ∧ (-1 : ℝ) < ((0 : ℤ) : ℝ)) →
      ∃ s : Best_Fitting_Circle,
        compute_best_fit_circle (construct scenario_points 0) = Except.ok (true, s) ∧
        get_center_coordinate s = ⟨((0 : ℤ) : ℝ), ((0 : ℤ) : ℝ)⟩ ∧ get_radius s = 10) ∧
    (¬ ((-1 : ℝ) < ((0 : ℤ) : ℝ) ∧ (-1 : ℝ) < ((0 : ℤ) : ℝ)) →
      ∃ s : Best_Fitting_Circle,
        compute_best_fit_circle (construct scenario_points 0) = Except.ok (false, s) ∧
        get_center_coordinate s = ⟨((0 : ℤ) : ℝ), ((0 : ℤ) : ℝ)⟩) :=
  C2_fit_on_circle scenario_points 0 0 0 10 (by decide) (by decide) scenario_on_circle
    (by norm_num)

/-! ## The loop of `converge`, unfolded -/

/-- One pass of the `for` loop of `converge`, unfolded. -/
theorem converge_loop_eq (s : Best_Fitting_Circle) (g pg up : Gradient) (i : ℕ) :
    converge_loop s g pg up i =
      if i < 100 then
        match search_direction g pg up i with
        | Except.error e => Except.error e
        | Except.ok u =>
          match line_search s u i with
          | Except.error e => Except.error e
          | Except.ok (s1, previous_cost, i1) =>
            if relative_change_small s1.cost previous_cost then Except.ok (true, s1)
            else converge_loop s1 g g u (i1 + 1)
      else Except.ok (false, s) := by
  rw [converge_loop]
  split
  · split
    · rfl
    · rename_i u hu
      split
      · rename_i e he
        simp only [he]
      · rename_i s1 pc i1 he
        simp only [he]
  · rfl

/-! ## Collinear points -/

theorem collinear_points_estimate (cost0 : ℝ) :
    initial_estimate (construct collinear_points cost0) collinear_points
      = Except.ok (⟨0, 0⟩, construct collinear_points cost0) := by
  have h : triplet_indices 3 = [(0, 1, 2)] := by decide
  simp only [initial_estimate, collinear_points, List.length_cons, List.length_nil, h]
  norm_num [triplet_loop, point_at, triplet_delta, construct]

theorem get_distance_eq (x1 x2 y1 y2 : ℤ) (r : ℝ) (hr : 0 ≤ r)
    (h : (((y2 - y1 : ℤ) : ℝ)) ^ 2 + (((x2 - x1 : ℤ) : ℝ)) ^ 2 = r ^ 2) :
    get_distance x1 x2 y1 y2 = r := by
  unfold get_distance
  exact sqrt_eq_of_sq _ _ hr h

theorem double_to_int_zero : double_to_int 0 = 0 := by
  simp [double_to_int]

/-- C3 (the code at the failing input): the points (-6,0), (0,0), (6,0) are
collinear, and a freshly constructed fitter returns true on them, with centre
(0,0) and radius 4: `initial_estimate` returns the untouched centre (0,0),
which passes the test `x > -1 && y > -1`, the radius and the cost are
computed, and `converge` is entered and returns true on the zero gradient. -/
theorem C3_collinear_points_accepted :
    collinear (point_at collinear_points 0) (point_at collinear_points 1)
      (point_at collinear_points 2) ∧
    compute_best_fit_circle (construct collinear_points 0) = Except.ok
      (true, { radius_estimate := 4, circle_center_est := ⟨0, 0⟩, cost := 24,
               selected_points := collinear_points }) := by
  refine ⟨by decide, ?_⟩
  have d1 : get_distance (-6) 0 0 0 = 6 := get_distance_eq _ _ _ _ 6 (by norm_num) (by norm_num)
  have d2 : get_distance 0 0 0 0 = 0 := get_distance_eq _ _ _ _ 0 (by norm_num) (by norm_num)
  have d3 : get_distance 6 0 0 0 = 6 := get_distance_eq _ _ _ _ 6 (by norm_num) (by norm_num)
  have hinit := collinear_points_estimate 0
  have hsel : (construct collinear_points 0).selected_points = collinear_points := rfl
  simp only [compute_best_fit_circle, hsel, hinit]
  norm_num [construct, compute_radius_estimate, distance_to_center, double_to_int_zero,
    collinear_points, d1, d2, d3, fdiv, cost_function, get_gradient_for_conjugate_gradient,
    converge]

theorem axis_points_estimate (cost0 : ℝ) :
    initial_estimate (construct axis_points cost0) axis_points
      = Except.ok (⟨0, 0⟩, construct axis_points cost0) := by
  have h : triplet_indices 3 = [(0, 1, 2)] := by decide
  simp only [initial_estimate, axis_points, List.length_cons, List.length_nil, h]
  norm_num [triplet_loop, point_at, triplet_delta, construct]

/-- On the collinear points (0,0), (5,0), (10,0) the fitter does not stop after
`initial_estimate`: the centre (0,0) passes the test, the radius estimate 5
and the cost 50 are computed, `converge` enters its loop with the gradient
(-100, 0), and the first `compute_lambda` divides by the zero distance between
the point (0,0) and the centre. -/
theorem axis_points_reach_line_search :
    compute_best_fit_circle (construct axis_points 0) = Except.error Fault.lambda_distance := by
  have d1 : get_distance 0 0 0 0 = 0 := get_distance_eq _ _ _ _ 0 (by norm_num) (by norm_num)
  have d2 : get_distance 5 0 0 0 = 5 := get_distance_eq _ _ _ _ 5 (by norm_num) (by norm_num)
  have d3 : get_distance 10 0 0 0 = 10 := get_distance_eq _ _ _ _ 10 (by norm_num) (by norm_num)
  have hinit := axis_points_estimate 0
  have hsel : (construct axis_points 0).selected_points = axis_points := rfl
  have hs : Real.sqrt 10000 = 100 := sqrt_eq_of_sq _ _ (by norm_num) (by norm_num)
  have hstep : line_search_step
      { radius_estimate := 5, circle_center_est := ⟨0, 0⟩, cost := 50,
        selected_points := axis_points } ⟨100, 0⟩ = Except.error Fault.lambda_distance := by
    norm_num [line_search_step, compute_lambda, lambda_loop, axis_points]
  have hls : line_search
      { radius_estimate := 5, circle_center_est := ⟨0, 0⟩, cost := 50,
        selected_points := axis_points } ⟨100, 0⟩ 0 = Except.error Fault.lambda_distance := by
    rw [line_search, hstep]
  have hloop : converge_loop
      { radius_estimate := 5, circle_center_est := ⟨0, 0⟩, cost := 50,
        selected_points := axis_points } ⟨-100, 0⟩ ⟨-100, 0⟩ ⟨0, 0⟩ 0
        = Except.error Fault.lambda_distance := by
    have hu : search_direction ⟨-100, 0⟩ ⟨-100, 0⟩ ⟨0, 0⟩ 0 = Except.ok ⟨100, 0⟩ := by
      norm_num [search_direction]
    rw [converge_loop_eq]
    simp only [hu, hls]
    norm_num
  simp only [compute_best_fit_circle, hsel, hinit]
  norm_num [construct, compute_radius_estimate, distance_to_center, double_to_int_zero,
    d1, d2, d3, fdiv, cost_function, get_gradient_for_conjugate_gradient,
    converge, hs, axis_points]
  simp only [axis_points] at hloop
  simp only [hloop]

/-! ## Fewer than three points -/

theorem initial_estimate_two_points (s : Best_Fitting_Circle) (points : List Point)
    (h : points.length = 2) :
    initial_estimate s points = Except.error Fault.triplet_count := by
  have hi : triplet_indices 2 = [] := by decide
  simp [initial_estimate, h, hi, triplet_loop, fdiv]

/-- C4 (counterexample): on the two points (0,0), (1,0) `compute_best_fit_circle`
does not return false before computing: it runs `initial_estimate` and executes
the division of the centre by the triplet count `q = 0`. -/
theorem C4_two_points_divide_by_zero :
    two_points.length < 3 ∧
    compute_best_fit_circle (construct two_points 0) = Except.error Fault.triplet_count := by
  refine ⟨by decide, ?_⟩
  have h := initial_estimate_two_points (construct two_points 0) two_points rfl
  have hsel : (construct two_points 0).selected_points = two_points := rfl
  simp only [compute_best_fit_circle, hsel, h]

/-- C4 (amended): fewer than three points are rejected by the caller:
`mouse_activity` does not construct a fitter for them, so nothing is computed.
`compute_best_fit_circle` itself has no check of the number of points: on two
points it executes the division by the triplet count `q = 0`, and on fewer
than two points the loop bound `points.size() - 2` wraps around. -/
theorem C4_short_list_rejected_by_caller (points : List Point) (circle_generated : Bool)
    (cost0 : ℝ) (h : points.length < 3) :
    mouse_activity_generate points circle_generated cost0 = none ∧
    (points.length = 2 →
      compute_best_fit_circle (construct points cost0) = Except.error Fault.triplet_count) ∧
    (points.length < 2 →
      compute_best_fit_circle (construct points cost0) = Except.error Fault.loop_bound_wraps) := by
  have hsel : (construct points cost0).selected_points = points := rfl
  refine ⟨?_, ?_, ?_⟩
  · have : ¬ points.length ≥ 3 := by omega
    simp [mouse_activity_generate, this]
  · intro h2
    simp only [compute_best_fit_circle, hsel, initial_estimate_two_points _ points h2]
  · intro h2
    simp only [compute_best_fit_circle, hsel, initial_estimate, h2, if_true]

/-- C4 (amended) at the two points (0,0), (1,0). -/
theorem C4_short_list_rejected_by_caller_witness :
    mouse_activity_generate two_points false 0 = none ∧
    (two_points.length = 2 →
      compute_best_fit_circle (construct two_points 0) = Except.error Fault.triplet_count) ∧
    (two_points.length < 2 →
      compute_best_fit_circle (construct two_points 0) = Except.error Fault.loop_bound_wraps) :=
  C4_short_list_rejected_by_caller two_points false 0 (by decide)

/-! ## Radius, cost and gradient against their specification -/

theorem double_to_int_half : double_to_int (1 / 2) = 0 := by
  unfold double_to_int
  rw [if_pos (by norm_num)]
  rw [Int.floor_eq_iff]
  norm_num

theorem euclidean_distance_eq (c : Circle_Center) (p : Point) (r : ℝ) (hr : 0 ≤ r)
    (h : (c.x - p.x) ^ 2 + (c.y - p.y) ^ 2 = r ^ 2) : euclidean_distance c p = r := by
  unfold euclidean_distance
  exact sqrt_eq_of_sq _ _ hr h

/-- C6 (the code at the failing input): with the centre at the origin and the
radius 3 already stored, `compute_radius_estimate` on three points at distance
3 returns (3 + 3 + 3 + 3) / 3 = 4, while the mean of the distances is 3. -/
theorem C6_radius_adds_stored_radius :
    compute_radius_estimate fitter_after_first_radius radius_three_points
      = Except.ok (4, { fitter_after_first_radius with radius_estimate := 4 }) ∧
    spec_mean_distance fitter_after_first_radius.circle_center_est radius_three_points = 3 := by
  have d1 : get_distance 3 0 0 0 = 3 := get_distance_eq _ _ _ _ 3 (by norm_num) (by norm_num)
  have d2 : get_distance 0 0 3 0 = 3 := get_distance_eq _ _ _ _ 3 (by norm_num) (by norm_num)
  have d3 : get_distance (-3) 0 0 0 = 3 := get_distance_eq _ _ _ _ 3 (by norm_num) (by norm_num)
  have e1 : euclidean_distance ⟨0, 0⟩ ⟨3, 0⟩ = 3 :=
    euclidean_distance_eq _ _ 3 (by norm_num) (by norm_num)
  have e2 : euclidean_distance ⟨0, 0⟩ ⟨0, 3⟩ = 3 :=
    euclidean_distance_eq _ _ 3 (by norm_num) (by norm_num)
  have e3 : euclidean_distance ⟨0, 0⟩ ⟨-3, 0⟩ = 3 :=
    euclidean_distance_eq _ _ 3 (by norm_num) (by norm_num)
  constructor
  · norm_num [compute_radius_estimate, fitter_after_first_radius, radius_three_points,
      distance_to_center, double_to_int_zero, d1, d2, d3, fdiv]
  · norm_num [spec_mean_distance, fitter_after_first_radius, radius_three_points, e1, e2, e3]

/-- C7 (the code at the failing input): with the centre (1/2, 0) and the
radius 1, `cost_function` on the point (1,0) returns 0, because the distance
is taken from the truncated centre (0,0); the point is at distance 1/2 from
the centre, not on the circle, and the sum of squared deviations is 1/4. -/
theorem C7_cost_uses_truncated_centre :
    cost_function fitter_half_centre fitter_half_centre.selected_points = 0 ∧
    euclidean_distance fitter_half_centre.circle_center_est ⟨1, 0⟩ = 1 / 2 ∧
    spec_cost fitter_half_centre.circle_center_est fitter_half_centre.radius_estimate
      fitter_half_centre.selected_points = 1 / 4 := by
  have d1 : get_distance 1 0 0 0 = 1 := get_distance_eq _ _ _ _ 1 (by norm_num) (by norm_num)
  have e1 : euclidean_distance ⟨1 / 2, 0⟩ ⟨1, 0⟩ = 1 / 2 :=
    euclidean_distance_eq _ _ (1 / 2) (by norm_num) (by norm_num)
  refine ⟨?_, e1, ?_⟩
  · norm_num [cost_function, fitter_half_centre, distance_to_center, double_to_int_half,
      double_to_int_zero, d1]
  · norm_num [spec_cost, fitter_half_centre, e1]

/-- C8 (the code at the failing input): with the centre (1/2, 0) and the
radius 1, `get_gradient_for_conjugate_gradient` on the point (1,0) returns
(0, 0), because the distance is taken from the truncated centre (0,0); the
gradient of the specification is (1/2, 0). -/
theorem C8_gradient_uses_truncated_centre :
    get_gradient_for_conjugate_gradient fitter_half_centre fitter_half_centre.selected_points
      = ⟨0, 0⟩ ∧
    spec_gradient fitter_half_centre.circle_center_est fitter_half_centre.radius_estimate
      fitter_half_centre.selected_points = ⟨1 / 2, 0⟩ := by
  have d1 : get_distance 1 0 0 0 = 1 := get_distance_eq _ _ _ _ 1 (by norm_num) (by norm_num)
  have e1 : euclidean_distance ⟨1 / 2, 0⟩ ⟨1, 0⟩ = 1 / 2 :=
    euclidean_distance_eq _ _ (1 / 2) (by norm_num) (by norm_num)
  constructor
  · norm_num [get_gradient_for_conjugate_gradient, fitter_half_centre, distance_to_center,
      double_to_int_half, double_to_int_zero, d1]
  · norm_num [spec_gradient, fitter_half_centre, e1]

/-! ## The two ways of returning false -/

theorem late_collinear_estimate (cost0 : ℝ) :
    initial_estimate (construct late_collinear_points cost0) late_collinear_points
      = Except.ok (⟨-2, -2⟩,
          { construct late_collinear_points cost0 with circle_center_est := ⟨-2, -2⟩ }) := by
  have h : triplet_indices 4 = [(0, 1, 2), (0, 1, 3), (0, 2, 3), (1, 2, 3)] := by decide
  simp only [initial_estimate, late_collinear_points, List.length_cons, List.length_nil, h]
  norm_num [triplet_loop, point_at, triplet_delta, calculate_circumcenter, fdiv, construct]

/-- The flag that `compute_best_fit_circle` returns when `converge` returns
false is the same `false` that it returns when the centre test fails. -/
theorem fit_fails_of_converge_false (s s1 s2 s4 : Best_Fitting_Circle) (c : Circle_Center)
    (r : ℝ)
    (hinit : initial_estimate s s.selected_points = Except.ok (c, s1))
    (hc : c.x > -1 ∧ c.y > -1)
    (hrad : compute_radius_estimate s1 s1.selected_points = Except.ok (r, s2))
    (hconv : converge { s2 with cost := cost_function s2 s2.selected_points }
      (get_gradient_for_conjugate_gradient
        { s2 with cost := cost_function s2 s2.selected_points } s2.selected_points)
      = Except.ok (false, s4)) :
    compute_best_fit_circle s = Except.ok (false, s4) := by
  simp only [compute_best_fit_circle, hinit, hc, and_self, if_true, hrad, hconv]
  rfl

/-- C5 (amended): `compute_best_fit_circle` reports a failure by the one value
`false`.  It returns `false` in exactly two ways, which the returned value does
not tell apart: the centre returned by `initial_estimate` fails the test
`x > -1 && y > -1`, or the test passes and `converge` returns false. -/
theorem C5_false_in_two_ways (s s4 : Best_Fitting_Circle) :
    compute_best_fit_circle s = Except.ok (false, s4) ↔
      (∃ c : Circle_Center, initial_estimate s s.selected_points = Except.ok (c, s4) ∧
        ¬ (c.x > -1 ∧ c.y > -1)) ∨
      (∃ (c : Circle_Center) (s1 s2 : Best_Fitting_Circle) (r : ℝ),
        initial_estimate s s.selected_points = Except.ok (c, s1) ∧
        (c.x > -1 ∧ c.y > -1) ∧
        compute_radius_estimate s1 s1.selected_points = Except.ok (r, s2) ∧
        converge { s2 with cost := cost_function s2 s2.selected_points }
          (get_gradient_for_conjugate_gradient
            { s2 with cost := cost_function s2 s2.selected_points } s2.selected_points)
          = Except.ok (false, s4)) := by
  constructor
  · intro h
    unfold compute_best_fit_circle at h
    split at h
    · cases h
    · rename_i c s1 hinit
      split at h
      · rename_i hc
        split at h
        · cases h
        · rename_i r s2 hrad
          simp only at h
          split at h
          · cases h
          · rename_i convergence s5 hconv
            cases convergence with
            | false =>
              simp only [Bool.not_false, if_true, Except.ok.injEq, Prod.mk.injEq,
                true_and] at h
              subst h
              exact Or.inr ⟨c, s1, s2, r, hinit, hc, hrad, hconv⟩
            | true =>
              simp at h
      · rename_i hc
        simp only [Except.ok.injEq, Prod.mk.injEq, true_and] at h
        subst h
        exact Or.inl ⟨c, hinit, hc⟩
  · rintro (⟨c, hinit, hc⟩ | ⟨c, s1, s2, r, hinit, hc, hrad, hconv⟩)
    · exact fit_rejected_of_estimate s s4 c hinit hc
    · exact fit_fails_of_converge_false s s1 s2 s4 c r hinit hc hrad hconv

/-! ## A run that exhausts the budget of `converge` -/

/-- One pass of the `do` loop of `converge` that is the last one: the counter
has reached 9 or more. -/
theorem line_search_last (s s1 : Best_Fitting_Circle) (u : Gradient) (i : ℕ) (hi : 9 ≤ i)
    (hstep : line_search_step s u = Except.ok s1) :
    line_search s u i = Except.ok (s1, s.cost, i + 1) := by
  rw [line_search, hstep]
  have : ¬ i + 1 < 10 := by omega
  simp [this]

/-- One pass of the `do` loop of `converge` after which the loop goes on. -/
theorem line_search_more (s s1 : Best_Fitting_Circle) (u : Gradient) (i : ℕ) (hi : i + 1 < 10)
    (hstep : line_search_step s u = Except.ok s1)
    (hcont : line_search_continues s1.cost s.cost) :
    line_search s u i = line_search s1 u (i + 1) := by
  rw [line_search, hstep]
  simp [hi, hcont]

/-- The budget of `converge` is exhausted along a sequence `S` of fitter states
when every line-search step leads from `S k` to `S (k + 1)`, the `do` loop of
the first pass goes on for ten steps, and the relative change of the cost is
never small: ten steps are made in the first pass of the `for` loop, one in
each of the 45 passes at `i = 11, 13, ..., 99`, and the loop is left at
`i = 101` with the state `S 55`. -/
theorem converge_loop_exhausted (S : ℕ → Best_Fitting_Circle) (g u : Gradient)
    (hstep : ∀ k, k < 55 → line_search_step (S k) u = Except.ok (S (k + 1)))
    (hcont : ∀ k, k < 9 → line_search_continues (S (k + 1)).cost (S k).cost)
    (hnot : ∀ k, 9 ≤ k → k < 55 → ¬ relative_change_small (S (k + 1)).cost (S k).cost)
    (hdir0 : search_direction g g ⟨0, 0⟩ 0 = Except.ok u)
    (hdir : ∀ i, 0 < i → search_direction g g u i = Except.ok u) :
    converge_loop (S 0) g g ⟨0, 0⟩ 0 = Except.ok (false, S 55) := by
  have first : ∀ j, j ≤ 9 → line_search (S (9 - j)) u (9 - j)
      = Except.ok (S 10, (S 9).cost, 10) := by
    intro j
    induction j with
    | zero =>
      intro _
      exact line_search_last (S 9) (S 10) u 9 (le_refl 9) (hstep 9 (by norm_num))
    | succ j ih =>
      intro hj
      have h1 : 9 - (j + 1) + 1 = 9 - j := by omega
      rw [line_search_more (S (9 - (j + 1))) (S (9 - (j + 1) + 1)) u (9 - (j + 1)) (by omega)
        (hstep _ (by omega)) (hcont _ (by omega)), h1]
      exact ih (by omega)
  have rest : ∀ j, j ≤ 45 → converge_loop (S (55 - j)) g g u (101 - 2 * j)
      = Except.ok (false, S 55) := by
    intro j
    induction j with
    | zero =>
      intro _
      rw [converge_loop_eq]
      simp
    | succ j ih =>
      intro hj
      have hlt : 101 - 2 * (j + 1) < 100 := by omega
      have hk : 55 - (j + 1) + 1 = 55 - j := by omega
      have hi : 101 - 2 * (j + 1) + 1 + 1 = 101 - 2 * j := by omega
      have hs := hstep (55 - (j + 1)) (by omega)
      rw [hk] at hs
      have hn := hnot (55 - (j + 1)) (by omega) (by omega)
      rw [hk] at hn
      rw [converge_loop_eq, if_pos hlt, hdir _ (by omega)]
      simp only [line_search_last (S (55 - (j + 1))) (S (55 - j)) u (101 - 2 * (j + 1))
        (by omega) hs, hn, if_false, hi]
      exact ih (by omega)
  have h10 := hnot 9 (le_refl 9) (by norm_num)
  rw [converge_loop_eq, if_pos (by norm_num), hdir0]
  have hf := first 9 (le_refl 9)
  simp only [Nat.sub_self] at hf
  simp only [hf, h10, if_false]
  exact rest 45 (le_refl 45)
theorem sqrt_axis (c : ℝ) (x : ℤ) (d : ℝ) (hd : 0 ≤ d) (h : d = c - x ∨ d = -(c - x)) :
    Real.sqrt ((c - (x : ℝ)) ^ 2 + ((0 : ℝ) - ((0 : ℤ) : ℝ)) ^ 2) = d := by
  apply sqrt_eq_of_sq _ _ hd
  rcases h with h | h <;> rw [h] <;> push_cast <;> ring

theorem compute_lambda_axis (c r k ux : ℝ) (hc1 : -1 < c) (hc2 : c < 4) (hux : ux ≠ 0) :
    compute_lambda ⟨r, ⟨c, 0⟩, k, exhaust_points⟩ exhaust_points ⟨ux, 0⟩
      = Except.ok (-7 * (7 * c + 20 - 5 * r) / (24 * ux)) := by
  have h8 := sqrt_axis c (-8) (c + 8) (by linarith) (Or.inl (by push_cast; ring))
  have h6 := sqrt_axis c (-6) (c + 6) (by linarith) (Or.inl (by push_cast; ring))
  have h4 := sqrt_axis c (-4) (c + 4) (by linarith) (Or.inl (by push_cast; ring))
  have h3 := sqrt_axis c (-3) (c + 3) (by linarith) (Or.inl (by push_cast; ring))
  have h2 := sqrt_axis c (-2) (c + 2) (by linarith) (Or.inl (by push_cast; ring))
  have h1 := sqrt_axis c (-1) (c + 1) (by linarith) (Or.inl (by push_cast; ring))
  have h0 := sqrt_axis c 4 (4 - c) (by linarith) (Or.inr (by push_cast; ring))
  have n8 : c + 8 ≠ 0 := by linarith
  have n6 : c + 6 ≠ 0 := by linarith
  have n4 : c + 4 ≠ 0 := by linarith
  have n3 : c + 3 ≠ 0 := by linarith
  have n2 : c + 2 ≠ 0 := by linarith
  have n1 : c + 1 ≠ 0 := by linarith
  have n0 : 4 - c ≠ 0 := by linarith
  simp only [compute_lambda, exhaust_points, lambda_loop, h8, h6, h4, h3, h2, h1, h0,
    n8, n6, n4, n3, n2, n1, n0, if_false]
  have q8 : ((c - ((-8 : ℤ) : ℝ)) * ux + (0 - ((0 : ℤ) : ℝ)) * 0) / (c + 8) = ux := by
    push_cast; field_simp
  have q6 : ((c - ((-6 : ℤ) : ℝ)) * ux + (0 - ((0 : ℤ) : ℝ)) * 0) / (c + 6) = ux := by
    push_cast; field_simp
  have q4 : ((c - ((-4 : ℤ) : ℝ)) * ux + (0 - ((0 : ℤ) : ℝ)) * 0) / (c + 4) = ux := by
    push_cast; field_simp
  have q3 : ((c - ((-3 : ℤ) : ℝ)) * ux + (0 - ((0 : ℤ) : ℝ)) * 0) / (c + 3) = ux := by
    push_cast; field_simp
  have q2 : ((c - ((-2 : ℤ) : ℝ)) * ux + (0 - ((0 : ℤ) : ℝ)) * 0) / (c + 2) = ux := by
    push_cast; field_simp
  have q1 : ((c - ((-1 : ℤ) : ℝ)) * ux + (0 - ((0 : ℤ) : ℝ)) * 0) / (c + 1) = ux := by
    push_cast; field_simp
  have q0 : ((c - ((4 : ℤ) : ℝ)) * ux + (0 - ((0 : ℤ) : ℝ)) * 0) / (4 - c) = -ux := by
    push_cast; field_simp; ring
  simp only [q8, q6, q4, q3, q2, q1, q0, List.length_cons, List.length_nil]
  have hden : (ux ^ 2 + 0 ^ 2) *
        (0 + (c + 8 - r) / (c + 8) + (c + 6 - r) / (c + 6) + (c + 4 - r) / (c + 4)
          + (c + 3 - r) / (c + 3) + (c + 2 - r) / (c + 2) + (c + 1 - r) / (c + 1)
          + (4 - c - r) / (4 - c))
      - (0 + ux + ux + ux + ux + ux + ux + -ux) * (0 + ux + ux + ux + ux + ux + ux + -ux)
          / ((0 + 1 + 1 + 1 + 1 + 1 + 1 + 1 : ℕ) : ℝ)
      + r * (0 + ux * ux / (c + 8) + ux * ux / (c + 6) + ux * ux / (c + 4) + ux * ux / (c + 3)
          + ux * ux / (c + 2) + ux * ux / (c + 1) + -ux * -ux / (4 - c))
      = 24 / 7 * ux ^ 2 := by
    push_cast
    field_simp
    ring
  have hne : (24 : ℝ) / 7 * ux ^ 2 ≠ 0 := by positivity
  rw [if_neg (by norm_num), hden, fdiv_ok _ _ _ hne]
  congr 1
  field_simp
  ring

theorem get_distance_axis (x t : ℤ) : get_distance x t 0 0 = ((|t - x| : ℤ) : ℝ) := by
  unfold get_distance
  rw [Int.cast_abs]
  rw [← Real.sqrt_sq_eq_abs]
  congr 1
  push_cast
  ring

theorem double_to_int_near_zero (x : ℝ) (h1 : -1 < x) (h2 : x < 1) : double_to_int x = 0 := by
  unfold double_to_int
  split
  · rw [Int.floor_eq_iff]
    constructor <;> simp <;> linarith
  · rw [Int.ceil_eq_iff]
    constructor <;> simp <;> linarith

theorem double_to_int_near_one (x : ℝ) (h1 : 1 ≤ x) (h2 : x < 2) : double_to_int x = 1 := by
  unfold double_to_int
  rw [if_pos (by linarith), Int.floor_eq_iff]
  constructor <;> simp <;> linarith

/-- One line-search step on `exhaust_points` with a direction along the axis,
from a centre `(c, 0)` between the points (-1,0) and (4,0): the new centre is
`(c', 0)` with `c' = c - 7 (7 c + 20 - 5 r) / 24`, and the radius and the cost
are recomputed from the truncated centre `(t, 0)`. -/
theorem line_search_step_axis (c r k ux c' : ℝ) (t : ℤ) (hc1 : -1 < c) (hc2 : c < 4)
    (hux : ux ≠ 0) (hc' : c' = c - 7 * (7 * c + 20 - 5 * r) / 24)
    (ht : double_to_int c' = t) :
    line_search_step ⟨r, ⟨c, 0⟩, k, exhaust_points⟩ ⟨ux, 0⟩ = Except.ok
      ⟨(r + axis_sum t) / 7, ⟨c', 0⟩,
        (|(t : ℝ) + 8| - (r + axis_sum t) / 7) ^ 2 + (|(t : ℝ) + 6| - (r + axis_sum t) / 7) ^ 2
          + (|(t : ℝ) + 4| - (r + axis_sum t) / 7) ^ 2 + (|(t : ℝ) + 3| - (r + axis_sum t) / 7) ^ 2
          + (|(t : ℝ) + 2| - (r + axis_sum t) / 7) ^ 2 + (|(t : ℝ) + 1| - (r + axis_sum t) / 7) ^ 2
          + (|(t : ℝ) - 4| - (r + axis_sum t) / 7) ^ 2,
        exhaust_points⟩ := by
  have hx : c + -7 * (7 * c + 20 - 5 * r) / (24 * ux) * ux = c' := by
    rw [hc']
    field_simp
    ring
  have hy : (0 : ℝ) + -7 * (7 * c + 20 - 5 * r) / (24 * ux) * 0 = 0 := by ring
  have hrad : compute_radius_estimate ⟨r, ⟨c', 0⟩, k, exhaust_points⟩ exhaust_points
      = Except.ok ((r + axis_sum t) / 7, ⟨(r + axis_sum t) / 7, ⟨c', 0⟩, k, exhaust_points⟩) := by
    simp only [compute_radius_estimate, distance_to_center, ht, double_to_int_zero,
      exhaust_points, List.foldl_cons, List.foldl_nil, get_distance_axis, List.length_cons,
      List.length_nil]
    rw [fdiv_ok _ _ _ (by norm_num)]
    have e : r + ((|t - -8| : ℤ) : ℝ) + ((|t - -6| : ℤ) : ℝ) + ((|t - -4| : ℤ) : ℝ)
        + ((|t - -3| : ℤ) : ℝ) + ((|t - -2| : ℤ) : ℝ) + ((|t - -1| : ℤ) : ℝ)
        + ((|t - 4| : ℤ) : ℝ) = r + axis_sum t := by
      simp only [axis_sum, sub_neg_eq_add]
      push_cast
      ring
    rw [e]
    norm_num
  have hcost : cost_function ⟨(r + axis_sum t) / 7, ⟨c', 0⟩, k, exhaust_points⟩ exhaust_points
      = (|(t : ℝ) + 8| - (r + axis_sum t) / 7) ^ 2 + (|(t : ℝ) + 6| - (r + axis_sum t) / 7) ^ 2
          + (|(t : ℝ) + 4| - (r + axis_sum t) / 7) ^ 2 + (|(t : ℝ) + 3| - (r + axis_sum t) / 7) ^ 2
          + (|(t : ℝ) + 2| - (r + axis_sum t) / 7) ^ 2 + (|(t : ℝ) + 1| - (r + axis_sum t) / 7) ^ 2
          + (|(t : ℝ) - 4| - (r + axis_sum t) / 7) ^ 2 := by
    simp only [cost_function, distance_to_center, ht, double_to_int_zero,
      exhaust_points, List.foldl_cons, List.foldl_nil, get_distance_axis, sub_neg_eq_add]
    push_cast
    ring
  simp only [line_search_step, compute_lambda_axis c r k ux hc1 hc2 hux, hx, hy, hrad, hcost]

theorem axis_steps_ok : ∀ k, k < 55 → axis_step_ok k = true := by
  decide!

theorem axis_step_real (k : ℕ) (hk : k < 55) :
    line_search_step (axis_fitter (axis_state k)) ⟨-68, 0⟩
      = Except.ok (axis_fitter (axis_state (k + 1))) := by
  have h := axis_steps_ok k hk
  simp only [axis_step_ok, decide_eq_true_eq] at h
  obtain ⟨h1, h2, h3, h4, -, -, -⟩ := h
  have h1r : (-1 : ℝ) < ((axis_state k).1 : ℝ) := by exact_mod_cast h1
  have h2r : ((axis_state k).1 : ℝ) < 4 := by exact_mod_cast h2
  simp only [axis_state, axis_next] at h3 h4
  have hc' : (((axis_state k).1 - 7 * (7 * (axis_state k).1 + 20 - 5 * (axis_state k).2.1) / 24
      : ℚ) : ℝ) = ((axis_state k).1 : ℝ)
        - 7 * (7 * ((axis_state k).1 : ℝ) + 20 - 5 * ((axis_state k).2.1 : ℝ)) / 24 := by
    push_cast
    ring
  have h3r : (-1 : ℝ) < (((axis_state k).1
      - 7 * (7 * (axis_state k).1 + 20 - 5 * (axis_state k).2.1) / 24 : ℚ) : ℝ) := by
    exact_mod_cast h3
  have h4r : (((axis_state k).1
      - 7 * (7 * (axis_state k).1 + 20 - 5 * (axis_state k).2.1) / 24 : ℚ) : ℝ) < 2 := by
    exact_mod_cast h4
  by_cases hlt : (axis_state k).1
      - 7 * (7 * (axis_state k).1 + 20 - 5 * (axis_state k).2.1) / 24 < 1
  · have hltr : (((axis_state k).1
        - 7 * (7 * (axis_state k).1 + 20 - 5 * (axis_state k).2.1) / 24 : ℚ) : ℝ) < 1 := by
      exact_mod_cast hlt
    have ht := double_to_int_near_zero _ h3r hltr
    rw [axis_fitter, line_search_step_axis _ _ _ (-68) _ 0 h1r h2r (by norm_num) hc' ht]
    simp only [axis_state, axis_next, axis_fitter, hlt, if_true, axis_cost]
    congr 1
    push_cast
    norm_num
  · have hge : (1 : ℝ) ≤ (((axis_state k).1
        - 7 * (7 * (axis_state k).1 + 20 - 5 * (axis_state k).2.1) / 24 : ℚ) : ℝ) := by
      exact_mod_cast not_lt.mp hlt
    have ht := double_to_int_near_one _ hge h4r
    rw [axis_fitter, line_search_step_axis _ _ _ (-68) _ 1 h1r h2r (by norm_num) hc' ht]
    simp only [axis_state, axis_next, axis_fitter, hlt, if_false, axis_cost]
    congr 1
    push_cast
    norm_num

theorem exhaust_points_estimate (cost0 : ℝ) :
    initial_estimate (construct exhaust_points cost0) exhaust_points
      = Except.ok (⟨0, 0⟩, construct exhaust_points cost0) := by
  obtain ⟨ts, h⟩ : ∃ ts, triplet_indices 7 = (0, 1, 2) :: ts :=
    ⟨(triplet_indices 7).tail, by decide⟩
  have hlen : exhaust_points.length = 7 := rfl
  rw [initial_estimate, hlen, h]
  norm_num [triplet_loop, point_at, triplet_delta, construct, exhaust_points]

theorem axis_continues (k : ℕ) (hk : k < 55) :
    line_search_continues (axis_fitter (axis_state (k + 1))).cost
      (axis_fitter (axis_state k)).cost := by
  have h := axis_steps_ok k hk
  simp only [axis_step_ok, decide_eq_true_eq] at h
  obtain ⟨-, -, -, -, h5, h6, -⟩ := h
  have h5r : (1 / 10 : ℝ) < ((axis_state (k + 1)).2.2 : ℝ) := by
    have h5c : ((1 / 10 : ℚ) : ℝ) < ((axis_state (k + 1)).2.2 : ℝ) := Rat.cast_lt.mpr h5
    push_cast at h5c
    exact h5c
  have h6r : ((axis_state (k + 1)).2.2 : ℝ) ≠ ((axis_state k).2.2 : ℝ) := by exact_mod_cast h6
  simp only [line_search_continues, axis_fitter]
  rw [if_pos (by norm_num at h5r ⊢; linarith)]
  exact abs_ne_zero.mpr (sub_ne_zero.mpr h6r)

theorem axis_change_not_small (k : ℕ) (hk : k < 55) :
    ¬ relative_change_small (axis_fitter (axis_state (k + 1))).cost
      (axis_fitter (axis_state k)).cost := by
  have h := axis_steps_ok k hk
  simp only [axis_step_ok, decide_eq_true_eq] at h
  obtain ⟨-, -, -, -, h5, -, h7⟩ := h
  have h5r : (1 / 10 : ℝ) < ((axis_state (k + 1)).2.2 : ℝ) := by
    have h5c : ((1 / 10 : ℚ) : ℝ) < ((axis_state (k + 1)).2.2 : ℝ) := Rat.cast_lt.mpr h5
    push_cast at h5c
    exact h5c
  have hne : ((axis_state (k + 1)).2.2 : ℝ) ≠ 0 := by
    intro h0
    rw [h0] at h5r
    norm_num at h5r
  have h7r : ¬ (|((axis_state (k + 1)).2.2 : ℝ) - ((axis_state k).2.2 : ℝ)|
      / ((axis_state (k + 1)).2.2 : ℝ) < 1 / 1000000000000) := by
    intro hlt
    apply h7
    have : ((|(axis_state (k + 1)).2.2 - (axis_state k).2.2| / (axis_state (k + 1)).2.2 : ℚ) : ℝ)
        < ((1 / 1000000000000 : ℚ) : ℝ) := by
      push_cast
      exact hlt
    exact_mod_cast this
  simp only [relative_change_small, axis_fitter, hne, if_false]
  intro hlt
  apply h7r
  have e : (1.0e-12 : ℝ) = 1 / 1000000000000 := by norm_num
  rw [e] at hlt
  exact hlt

/-- On the seven collinear points of `exhaust_points`, entered with the centre
(0,0), the radius 4, the cost 34 and the gradient (68, 0), `converge` makes 55
line-search steps without ever meeting its convergence test and returns false
when the loop counter reaches 101. -/
theorem exhaust_points_converge :
    converge ⟨4, ⟨0, 0⟩, 34, exhaust_points⟩ ⟨68, 0⟩
      = Except.ok (false, axis_fitter (axis_state 55)) := by
  have hs0 : (⟨4, ⟨0, 0⟩, 34, exhaust_points⟩ : Best_Fitting_Circle)
      = axis_fitter (axis_state 0) := by
    simp [axis_fitter, axis_state]
  have hsqrt : Real.sqrt ((68 : ℝ) ^ 2 + 0 ^ 2) = 68 := sqrt_eq_of_sq _ _ (by norm_num) (by norm_num)
  have hloop : converge_loop (axis_fitter (axis_state 0)) ⟨68, 0⟩ ⟨68, 0⟩ ⟨0, 0⟩ 0
      = Except.ok (false, axis_fitter (axis_state 55)) := by
    apply converge_loop_exhausted (fun k => axis_fitter (axis_state k)) ⟨68, 0⟩ ⟨-68, 0⟩
    · exact axis_step_real
    · intro k hk
      exact axis_continues k (by omega)
    · intro k _ hk
      exact axis_change_not_small k hk
    · norm_num [search_direction]
    · intro i hi
      simp only [search_direction, hi, if_true]
      rw [fdiv_ok _ _ _ (by norm_num)]
      norm_num
  rw [converge, if_neg, hs0, hloop]
  rw [hsqrt]
  norm_num

/-- On the seven collinear points of `exhaust_points` a freshly constructed
fitter passes the centre test with the untouched centre (0,0), computes the
radius 4, the cost 34 and the gradient (68, 0), and returns false because
`converge` returns false. -/
theorem exhaust_points_run :
    compute_best_fit_circle (construct exhaust_points 0)
      = Except.ok (false, axis_fitter (axis_state 55)) := by
  have hinit := exhaust_points_estimate 0
  have hsel : (construct exhaust_points 0).selected_points = exhaust_points := rfl
  have hrad : compute_radius_estimate (construct exhaust_points 0) exhaust_points
      = Except.ok (4, ⟨4, ⟨0, 0⟩, 0, exhaust_points⟩) := by
    simp only [compute_radius_estimate, distance_to_center, construct, double_to_int_zero,
      exhaust_points, List.foldl_cons, List.foldl_nil, get_distance_axis, List.length_cons,
      List.length_nil]
    rw [fdiv_ok _ _ _ (by norm_num)]
    norm_num
  have hcost : cost_function ⟨4, ⟨0, 0⟩, 0, exhaust_points⟩ exhaust_points = 34 := by
    simp only [cost_function, distance_to_center, double_to_int_zero,
      exhaust_points, List.foldl_cons, List.foldl_nil, get_distance_axis]
    norm_num
  have hgrad : get_gradient_for_conjugate_gradient ⟨4, ⟨0, 0⟩, 34, exhaust_points⟩ exhaust_points
      = ⟨68, 0⟩ := by
    simp only [get_gradient_for_conjugate_gradient, distance_to_center, double_to_int_zero,
      exhaust_points, List.foldl_cons, List.foldl_nil, get_distance_axis]
    norm_num
  simp only [compute_best_fit_circle, hsel, hinit]
  rw [if_pos (by norm_num)]
  simp only [hsel, hrad, hcost, hgrad, exhaust_points_converge]
  rfl

/-- C5 (counterexample): on the points (-3,-1), (-1,-3), (-3,-3), (0,-4) the
run ends by the degenerate return of `initial_estimate` (the first, second and
fourth point are collinear) and the centre test: the call returns false.  On
the seven points of `exhaust_points` the centre test passes and `converge`
exhausts its budget: the call returns false.  The caller receives the same
value from both. -/
theorem C5_both_failures_return_false :
    collinear (point_at late_collinear_points 0) (point_at late_collinear_points 1)
      (point_at late_collinear_points 3) ∧
    compute_best_fit_circle (construct late_collinear_points 0) = Except.ok
      (false, { construct late_collinear_points 0 with circle_center_est := ⟨-2, -2⟩ }) ∧
    initial_estimate (construct exhaust_points 0) exhaust_points
      = Except.ok (⟨0, 0⟩, construct exhaust_points 0) ∧
    converge ⟨4, ⟨0, 0⟩, 34, exhaust_points⟩ ⟨68, 0⟩
      = Except.ok (false, axis_fitter (axis_state 55)) ∧
    compute_best_fit_circle (construct exhaust_points 0)
      = Except.ok (false, axis_fitter (axis_state 55)) :=
  ⟨by decide,
    fit_rejected_of_estimate _ _ ⟨-2, -2⟩ (late_collinear_estimate 0) (by norm_num),
    exhaust_points_estimate 0, exhaust_points_converge, exhaust_points_run⟩

/-! ## Where radius, cost and gradient agree with their specification -/

/-- With a centre of integer coordinates the truncation in `get_distance` loses
nothing: the distance handed to the callers is the Euclidean distance. -/
theorem distance_to_center_eq_euclidean (s : Best_Fitting_Circle) (a b : ℤ) (p : Point)
    (hx : s.circle_center_est.x = a) (hy : s.circle_center_est.y = b) :
    distance_to_center s p = euclidean_distance s.circle_center_est p := by
  rw [distance_to_center_intCast s a b p hx hy, euclidean_distance, hx, hy, add_comm]

/-- With a centre of integer coordinates `cost_function` is the sum of squared
deviations of the specification. -/
theorem cost_function_eq_spec (s : Best_Fitting_Circle) (a b : ℤ) (points : List Point)
    (hx : s.circle_center_est.x = a) (hy : s.circle_center_est.y = b) :
    cost_function s points = spec_cost s.circle_center_est s.radius_estimate points := by
  rw [cost_function_eq_sum, spec_cost]
  congr 1
  apply List.map_congr_left
  intro p _
  rw [distance_to_center_eq_euclidean s a b p hx hy]

/-- With a centre of integer coordinates and the stored radius zero (the first
call on a fresh fitter) `compute_radius_estimate` returns the mean distance of
the specification. -/
theorem compute_radius_estimate_eq_spec (s : Best_Fitting_Circle) (a b : ℤ)
    (points : List Point) (hne : points ≠ [])
    (hx : s.circle_center_est.x = a) (hy : s.circle_center_est.y = b)
    (hr : s.radius_estimate = 0) :
    compute_radius_estimate s points = Except.ok
      (spec_mean_distance s.circle_center_est points,
        { s with radius_estimate := spec_mean_distance s.circle_center_est points }) := by
  have hmap : points.map (distance_to_center s)
      = points.map (euclidean_distance s.circle_center_est) := by
    apply List.map_congr_left
    intro p _
    exact distance_to_center_eq_euclidean s a b p hx hy
  rw [compute_radius_estimate_eq s points hne, hmap, hr, zero_add]
  rfl

theorem foldl_gradient_eq_sum (f g : Point → ℝ) (l : List Point) (acc : Gradient) :
    l.foldl (fun (gr : Gradient) p => (⟨gr.x + f p, gr.y + g p⟩ : Gradient)) acc
      = ⟨acc.x + (l.map f).sum, acc.y + (l.map g).sum⟩ := by
  induction l generalizing acc with
  | nil => simp
  | cons p l ih => simp [ih, add_assoc]

/-- With a centre of integer coordinates `get_gradient_for_conjugate_gradient`
is the gradient of the specification. -/
theorem gradient_eq_spec (s : Best_Fitting_Circle) (a b : ℤ) (points : List Point)
    (hx : s.circle_center_est.x = a) (hy : s.circle_center_est.y = b) :
    get_gradient_for_conjugate_gradient s points
      = spec_gradient s.circle_center_est s.radius_estimate points := by
  have hd : ∀ p, distance_to_center s p = euclidean_distance s.circle_center_est p :=
    fun p => distance_to_center_eq_euclidean s a b p hx hy
  simp only [get_gradient_for_conjugate_gradient, spec_gradient, foldl_gradient_eq_sum, hd,
    zero_add]
  congr 1 <;> ring

/-! ## The degeneracy test on integer points -/

/-- C17: for three integer points the degeneracy test of `initial_estimate`,
`abs(delta) < 1.0e-10`, holds exactly when the points are collinear, that is
exactly when `delta` is zero; in particular it holds as soon as two of the
three points coincide. -/
theorem C17_degeneracy_test_is_collinearity (pi pj pk : Point) :
    (|triplet_delta pi pj pk| < 1.0e-10 ↔ collinear pi pj pk) ∧
    (|triplet_delta pi pj pk| < 1.0e-10 ↔ triplet_delta pi pj pk = 0) ∧
    ((pi = pj ∨ pj = pk ∨ pi = pk) → |triplet_delta pi pj pk| < 1.0e-10) := by
  have hzero : |triplet_delta pi pj pk| < 1.0e-10 ↔ triplet_delta pi pj pk = 0 := by
    constructor
    · intro h
      by_contra hne
      exact triplet_delta_not_small pi pj pk hne h
    · intro h
      rw [h]
      norm_num
  refine ⟨hzero.trans (triplet_delta_eq_zero_iff pi pj pk), hzero, ?_⟩
  intro h
  rw [hzero, triplet_delta_eq_zero_iff]
  unfold collinear
  rcases h with h | h | h
  · rw [h]; ring
  · rw [h]; ring
  · rw [h]; ring

/-! ## The entry test of `converge` -/

/-- C18: when the stored cost is below 1e-10 or the Euclidean norm of the
gradient is below 1e-10, `converge` returns true at once and the fitter is
unchanged: centre, radius and cost are what they were, and the log of the run
is empty, no pass of the `for` loop and no line-search step having been
made. -/
theorem C18_converge_returns_at_once (s : Best_Fitting_Circle) (g : Gradient)
    (h : s.cost < 1.0e-10 ∨ Real.sqrt (g.x ^ 2 + g.y ^ 2) < 1.0e-10) :
    converge s g = Except.ok (true, s) ∧ converge_traced s g = (Except.ok (true, s), []) := by
  rw [converge, converge_traced, if_pos h, if_pos h]
  exact ⟨rfl, rfl⟩

/-- C18 at the fitter that the scenario leaves (cost 0) and the gradient (3, 4). -/
theorem C18_converge_returns_at_once_witness :
    converge ⟨10, ⟨0, 0⟩, 0, scenario_points⟩ ⟨3, 4⟩
      = Except.ok (true, ⟨10, ⟨0, 0⟩, 0, scenario_points⟩) ∧
    converge_traced ⟨10, ⟨0, 0⟩, 0, scenario_points⟩ ⟨3, 4⟩
      = (Except.ok (true, ⟨10, ⟨0, 0⟩, 0, scenario_points⟩), []) :=
  C18_converge_returns_at_once ⟨10, ⟨0, 0⟩, 0, scenario_points⟩ ⟨3, 4⟩
    (Or.inl (by norm_num))

/-! ## What `initial_estimate` returns on a degenerate triplet -/

/-- C16 (the code at the failing input): on the points (0,0), (4,0), (0,4),
(8,0) the second triplet visited, (0,0), (4,0), (8,0), is degenerate, and
`initial_estimate` returns the centre accumulated so far, the circumcentre
(2,2) of the first triplet, not a sentinel: both coordinates are greater than
-1 and the test of the caller accepts it. -/
theorem C16_accumulated_centre_returned :
    collinear (point_at accumulated_then_collinear_points 0)
      (point_at accumulated_then_collinear_points 1)
      (point_at accumulated_then_collinear_points 3) ∧
    initial_estimate (construct accumulated_then_collinear_points 0)
        accumulated_then_collinear_points
      = Except.ok (⟨2, 2⟩,
          { construct accumulated_then_collinear_points 0 with circle_center_est := ⟨2, 2⟩ }) ∧
    ((2 : ℝ) > -1 ∧ (2 : ℝ) > -1) := by
  refine ⟨by decide, ?_, by norm_num⟩
  have h : triplet_indices 4 = [(0, 1, 2), (0, 1, 3), (0, 2, 3), (1, 2, 3)] := by decide
  simp only [initial_estimate, accumulated_then_collinear_points, List.length_cons,
    List.length_nil, h]
  norm_num [triplet_loop, point_at, triplet_delta, calculate_circumcenter, fdiv, construct]

/-! ## A second call on the same fitter -/

/-- C11 (the code at the failing input): the first call on the scenario points
leaves the centre (0,0) and the radius 10; a second call on that fitter adds
the four distances onto the stored radius: it returns true with the centre
(0,0) and the radius (10 + 40) / 4 = 25/2. -/
theorem C11_second_call_changes_radius :
    compute_best_fit_circle (construct scenario_points 0) = Except.ok
      (true, ⟨10, ⟨0, 0⟩, 0, scenario_points⟩) ∧
    compute_best_fit_circle ⟨10, ⟨0, 0⟩, 0, scenario_points⟩ = Except.ok
      (true, ⟨25 / 2, ⟨0, 0⟩, 25, scenario_points⟩) := by
  constructor
  · exact fit_of_equidistant (construct scenario_points 0) ⟨0, 0⟩ 10
      (scenario_initial_estimate 0) (by norm_num) (by norm_num) rfl
      (by simp [construct, scenario_points]) (scenario_distance 0)
  · have hinit : initial_estimate ⟨10, ⟨0, 0⟩, 0, scenario_points⟩ scenario_points
        = Except.ok (⟨0, 0⟩, ⟨10, ⟨0, 0⟩, 0, scenario_points⟩) := by
      have h : triplet_indices 4 = [(0, 1, 2), (0, 1, 3), (0, 2, 3), (1, 2, 3)] := by decide
      simp only [initial_estimate, scenario_points, List.length_cons, List.length_nil, h]
      norm_num [triplet_loop, point_at, triplet_delta, calculate_circumcenter, fdiv]
    have d1 : get_distance 10 0 0 0 = 10 := get_distance_eq _ _ _ _ 10 (by norm_num) (by norm_num)
    have d2 : get_distance 0 0 10 0 = 10 := get_distance_eq _ _ _ _ 10 (by norm_num) (by norm_num)
    have d3 : get_distance (-10) 0 0 0 = 10 :=
      get_distance_eq _ _ _ _ 10 (by norm_num) (by norm_num)
    have d4 : get_distance 0 0 (-10) 0 = 10 :=
      get_distance_eq _ _ _ _ 10 (by norm_num) (by norm_num)
    simp only [compute_best_fit_circle, hinit]
    norm_num [compute_radius_estimate, distance_to_center, double_to_int_zero, scenario_points,
      d1, d2, d3, d4, fdiv, cost_function, get_gradient_for_conjugate_gradient, converge]

/-! ## A point on the centre estimate -/

/-- The loop of `compute_lambda` stops at the division by the zero distance as
soon as one of the points lies on the centre estimate. -/
theorem lambda_loop_coincident (s : Best_Fitting_Circle) (u : Gradient) (points : List Point)
    (acc : Lambda_Sums)
    (h : ∃ p ∈ points, (p.x : ℝ) = s.circle_center_est.x ∧ (p.y : ℝ) = s.circle_center_est.y) :
    lambda_loop s u points acc = Except.error Fault.lambda_distance := by
  induction points generalizing acc with
  | nil =>
    obtain ⟨p, hp, -⟩ := h
    cases hp
  | cons q rest ih =>
    rw [lambda_loop]
    by_cases hq : Real.sqrt ((s.circle_center_est.x - q.x) ^ 2 + (s.circle_center_est.y - q.y) ^ 2)
        = 0
    · simp only [hq, if_true]
    · simp only [hq, if_false]
      apply ih
      obtain ⟨p, hp, hx, hy⟩ := h
      rcases List.mem_cons.mp hp with rfl | hp
      · exfalso
        apply hq
        rw [hx, hy]
        simp
      · exact ⟨p, hp, hx, hy⟩

/-- C13 (amended): `compute_lambda` makes no check for a point that lies on the
centre estimate: whenever one of the points coincides with the centre, it
executes the division by the zero distance `dxdy`, and so does every
line-search step of `converge`. -/
theorem C13_zero_distance_is_divided (s : Best_Fitting_Circle) (u : Gradient)
    (points : List Point)
    (h : ∃ p ∈ points, (p.x : ℝ) = s.circle_center_est.x ∧ (p.y : ℝ) = s.circle_center_est.y) :
    compute_lambda s points u = Except.error Fault.lambda_distance ∧
    (points = s.selected_points →
      line_search_step s u = Except.error Fault.lambda_distance ∧
      ∀ i, line_search s u i = Except.error Fault.lambda_distance) := by
  have hl : compute_lambda s points u = Except.error Fault.lambda_distance := by
    rw [compute_lambda, lambda_loop_coincident s u points _ h]
  refine ⟨hl, ?_⟩
  intro hp
  rw [hp] at hl
  have hstep : line_search_step s u = Except.error Fault.lambda_distance := by
    rw [line_search_step, hl]
  refine ⟨hstep, fun i => ?_⟩
  rw [line_search, hstep]

/-- C13 (counterexample): on the points (0,0), (5,0), (10,0), with the centre
(0,0), the radius 5 and the direction (100, 0), `compute_lambda` divides by the
zero distance between the point (0,0) and the centre; this is the state in
which `compute_best_fit_circle` on a fresh fitter enters the line search, and
the whole call ends on that division. -/
theorem C13_axis_points_divide_by_zero :
    compute_lambda ⟨5, ⟨0, 0⟩, 50, axis_points⟩ axis_points ⟨100, 0⟩
      = Except.error Fault.lambda_distance ∧
    compute_best_fit_circle (construct axis_points 0) = Except.error Fault.lambda_distance := by
  refine ⟨?_, axis_points_reach_line_search⟩
  norm_num [compute_lambda, lambda_loop, axis_points]

/-- C13 (amended) at the points (0,0), (5,0), (10,0) and the centre (0,0). -/
theorem C13_zero_distance_is_divided_witness :
    compute_lambda ⟨5, ⟨0, 0⟩, 50, axis_points⟩ axis_points ⟨100, 0⟩
      = Except.error Fault.lambda_distance ∧
    (axis_points = (⟨5, ⟨0, 0⟩, 50, axis_points⟩ : Best_Fitting_Circle).selected_points →
      line_search_step ⟨5, ⟨0, 0⟩, 50, axis_points⟩ ⟨100, 0⟩
        = Except.error Fault.lambda_distance ∧
      ∀ i, line_search ⟨5, ⟨0, 0⟩, 50, axis_points⟩ ⟨100, 0⟩ i
        = Except.error Fault.lambda_distance) :=
  C13_zero_distance_is_divided ⟨5, ⟨0, 0⟩, 50, axis_points⟩ ⟨100, 0⟩ axis_points
    ⟨⟨0, 0⟩, by simp [axis_points], by norm_num, by norm_num⟩

/-! ## The coefficient beta -/

/-- The direction of a pass after the first is built with `beta_of_converge`. -/
theorem search_direction_eq_beta (g p u_prev : Gradient) (i : ℕ) (hi : 0 < i) :
    search_direction g p u_prev i =
      match beta_of_converge g p with
      | Except.error e => Except.error e
      | Except.ok beta => Except.ok ⟨-1 * g.x + beta * u_prev.x, -1 * g.y + beta * u_prev.y⟩ := by
  simp only [search_direction, beta_of_converge, hi, if_true]

/-- C19 (the code at the failing input): the divisor of `beta` in `converge` is
`P.x * P.x + P.y + P.y`, not `P.x^2 + P.y^2`.  With `G = (1, 1)` and
`P = (0, 1)` the code computes 1/2 where the Polak-Ribiere value is 1.  With
`G = P = (2, -2)`, the only kind of pair that `converge` makes (it stores the
gradient it was given as the previous gradient), the divisor of the code is
4 - 2 - 2 = 0 and the division 0/0 is executed, where the Polak-Ribiere value
is 0. -/
theorem C19_beta_divisor :
    beta_of_converge ⟨1, 1⟩ ⟨0, 1⟩ = Except.ok (1 / 2) ∧ spec_beta ⟨1, 1⟩ ⟨0, 1⟩ = 1 ∧
    beta_of_converge ⟨2, -2⟩ ⟨2, -2⟩ = Except.error Fault.beta_denominator ∧
    spec_beta ⟨2, -2⟩ ⟨2, -2⟩ = 0 ∧
    search_direction ⟨2, -2⟩ ⟨2, -2⟩ ⟨-2, 2⟩ 11 = Except.error Fault.beta_denominator := by
  refine ⟨?_, ?_, ?_, ?_, ?_⟩
  · norm_num [beta_of_converge, fdiv]
  · norm_num [spec_beta]
  · norm_num [beta_of_converge, fdiv]
  · norm_num [spec_beta]
  · norm_num [search_direction, fdiv]

/-! ## The radius estimate is never negative -/

theorem distance_to_center_nonneg (s : Best_Fitting_Circle) (p : Point) :
    0 ≤ distance_to_center s p := by
  unfold distance_to_center get_distance
  exact Real.sqrt_nonneg _

/-- `compute_radius_estimate` keeps a non-negative radius non-negative. -/
theorem compute_radius_estimate_nonneg (s s1 : Best_Fitting_Circle) (points : List Point)
    (r : ℝ) (h0 : 0 ≤ s.radius_estimate)
    (h : compute_radius_estimate s points = Except.ok (r, s1)) :
    0 ≤ r ∧ s1.radius_estimate = r := by
  by_cases hne : points = []
  · subst hne
    simp [compute_radius_estimate, fdiv] at h
  · rw [compute_radius_estimate_eq s points hne] at h
    simp only [Except.ok.injEq, Prod.mk.injEq] at h
    obtain ⟨hr, hs⟩ := h
    subst hs
    refine ⟨?_, hr⟩
    rw [← hr]
    apply div_nonneg
    · apply add_nonneg h0
      apply List.sum_nonneg
      intro x hx
      obtain ⟨p, -, rfl⟩ := List.mem_map.mp hx
      exact distance_to_center_nonneg s p
    · exact Nat.cast_nonneg _

theorem line_search_step_radius_nonneg (s s1 : Best_Fitting_Circle) (u : Gradient)
    (h0 : 0 ≤ s.radius_estimate) (h : line_search_step s u = Except.ok s1) :
    0 ≤ s1.radius_estimate := by
  unfold line_search_step at h
  split at h
  · cases h
  · rename_i lambda hl
    simp only at h
    split at h
    · cases h
    · rename_i r s2 hrad
      simp only [Except.ok.injEq] at h
      subst h
      have := compute_radius_estimate_nonneg _ s2 _ r (by exact h0) hrad
      simp only
      rw [this.2]
      exact this.1

theorem line_search_radius_nonneg (s : Best_Fitting_Circle) (u : Gradient) (i : ℕ)
    (r : Best_Fitting_Circle × ℝ × ℕ) (h0 : 0 ≤ s.radius_estimate)
    (h : line_search s u i = Except.ok r) : 0 ≤ r.1.radius_estimate := by
  induction s, u, i using line_search.induct with
  | case1 s u i e he =>
    rw [line_search, he] at h
    cases h
  | case2 s u i s1 hs hc ih =>
    rw [line_search, hs] at h
    simp only [hc, and_self, if_true] at h
    exact ih (line_search_step_radius_nonneg s s1 u h0 hs) h
  | case3 s u i s1 hs hc =>
    rw [line_search, hs] at h
    simp only [hc, if_false] at h
    cases h
    exact line_search_step_radius_nonneg s s1 u h0 hs

theorem converge_loop_radius_nonneg (n : ℕ) :
    ∀ (s : Best_Fitting_Circle) (g pg up : Gradient) (i : ℕ) (b : Bool)
      (s1 : Best_Fitting_Circle), 100 - i ≤ n → 0 ≤ s.radius_estimate →
      converge_loop s g pg up i = Except.ok (b, s1) → 0 ≤ s1.radius_estimate := by
  induction n with
  | zero =>
    intro s g pg up i b s1 hn h0 h
    rw [converge_loop_eq, if_neg (by omega)] at h
    simp only [Except.ok.injEq, Prod.mk.injEq] at h
    rw [← h.2]
    exact h0
  | succ n ih =>
    intro s g pg up i b s1 hn h0 h
    rw [converge_loop_eq] at h
    split at h
    · rename_i hi
      split at h
      · cases h
      · rename_i u hu
        split at h
        · cases h
        · rename_i s2 pc i1 hls
          have hr := line_search_radius_nonneg s u i _ h0 hls
          have hc := line_search_counter s u i _ hls
          simp only at hr hc
          split at h
          · simp only [Except.ok.injEq, Prod.mk.injEq] at h
            rw [← h.2]
            exact hr
          · exact ih s2 g g u (i1 + 1) b s1 (by omega) hr h
    · simp only [Except.ok.injEq, Prod.mk.injEq] at h
      rw [← h.2]
      exact h0

theorem initial_estimate_radius (s s1 : Best_Fitting_Circle) (points : List Point)
    (c : Circle_Center) (h : initial_estimate s points = Except.ok (c, s1)) :
    s1.radius_estimate = s.radius_estimate := by
  unfold initial_estimate at h
  split at h
  · cases h
  · split at h
    · cases h
    · simp only [Except.ok.injEq, Prod.mk.injEq] at h
      rw [← h.2]
    · split at h
      · simp only [Except.ok.injEq, Prod.mk.injEq] at h
        rw [← h.2]
      · cases h
      · cases h

/-- Whatever `compute_best_fit_circle` returns, a fitter whose radius estimate
was not negative before the call has a non-negative radius estimate after it. -/
theorem fit_radius_nonneg (s s1 : Best_Fitting_Circle) (b : Bool)
    (h0 : 0 ≤ s.radius_estimate) (h : compute_best_fit_circle s = Except.ok (b, s1)) :
    0 ≤ s1.radius_estimate := by
  unfold compute_best_fit_circle at h
  split at h
  · cases h
  · rename_i c s2 hinit
    have h2 : 0 ≤ s2.radius_estimate := by
      rw [initial_estimate_radius s s2 _ c hinit]
      exact h0
    split at h
    · split at h
      · cases h
      · rename_i r s3 hrad
        have h3 := compute_radius_estimate_nonneg s2 s3 _ r h2 hrad
        simp only at h
        split at h
        · cases h
        · rename_i convergence s4 hconv
          have h4 : 0 ≤ s4.radius_estimate := by
            unfold converge at hconv
            split at hconv
            · simp only [Except.ok.injEq, Prod.mk.injEq] at hconv
              rw [← hconv.2]
              simp only
              rw [h3.2]
              exact h3.1
            · refine converge_loop_radius_nonneg 100 _ _ _ _ 0 convergence s4 (by omega) ?_ hconv
              simp only
              rw [h3.2]
              exact h3.1
          split at h
          · simp only [Except.ok.injEq, Prod.mk.injEq] at h
            rw [← h.2]
            exact h4
          · simp only [Except.ok.injEq, Prod.mk.injEq] at h
            rw [← h.2]
            exact h4
    · simp only [Except.ok.injEq, Prod.mk.injEq] at h
      rw [← h.2]
      exact h2

/-- C12: whenever `compute_best_fit_circle` on a freshly constructed fitter
returns true, the radius that `get_radius` reports is not negative (whatever
the number of points); and every call of `compute_radius_estimate` on a fitter
whose radius estimate is not negative, as the constructor's 0, returns and
stores a radius that is not negative. -/
theorem C12_radius_nonneg (points : List Point) (cost0 : ℝ) (s : Best_Fitting_Circle)
    (h : compute_best_fit_circle (construct points cost0) = Except.ok (true, s)) :
    0 ≤ get_radius s ∧
    ∀ (s0 s1 : Best_Fitting_Circle) (pts : List Point) (r : ℝ),
      0 ≤ s0.radius_estimate → compute_radius_estimate s0 pts = Except.ok (r, s1) →
      0 ≤ r ∧ 0 ≤ s1.radius_estimate := by
  refine ⟨fit_radius_nonneg (construct points cost0) s true (le_refl 0) h, ?_⟩
  intro s0 s1 pts r h0 hr
  have := compute_radius_estimate_nonneg s0 s1 pts r h0 hr
  exact ⟨this.1, by rw [this.2]; exact this.1⟩

/-- C12 at the scenario points, on which the call returns true with radius 10. -/
theorem C12_radius_nonneg_witness :
    0 ≤ get_radius ⟨10, ⟨0, 0⟩, 0, scenario_points⟩ ∧
    ∀ (s0 s1 : Best_Fitting_Circle) (pts : List Point) (r : ℝ),
      0 ≤ s0.radius_estimate → compute_radius_estimate s0 pts = Except.ok (r, s1) →
      0 ≤ r ∧ 0 ≤ s1.radius_estimate :=
  C12_radius_nonneg scenario_points 0 ⟨10, ⟨0, 0⟩, 0, scenario_points⟩
    (fit_of_equidistant (construct scenario_points 0) ⟨0, 0⟩ 10
      (scenario_initial_estimate 0) (by norm_num) (by norm_num) rfl
      (by simp [construct, scenario_points]) (scenario_distance 0))

/-! ## The iteration budgets of `converge` -/

theorem line_search_traced_fst (s : Best_Fitting_Circle) (u : Gradient) (i : ℕ) :
    (line_search_traced s u i).1 = line_search s u i := by
  induction s, u, i using line_search.induct with
  | case1 s u i e he =>
    rw [line_search, line_search_traced, he]
  | case2 s u i s1 hs hc ih =>
    rw [line_search, line_search_traced, hs]
    simp only [hc, and_self, if_true]
    exact ih
  | case3 s u i s1 hs hc =>
    rw [line_search, line_search_traced, hs]
    simp only [hc, if_false]

/-- The body of the `do` loop runs at least once and at most ten times. -/
theorem line_search_traced_count (s : Best_Fitting_Circle) (u : Gradient) (i : ℕ) :
    1 ≤ (line_search_traced s u i).2 ∧ (line_search_traced s u i).2 ≤ 10 - i ∨
      (line_search_traced s u i).2 = 1 := by
  induction s, u, i using line_search.induct with
  | case1 s u i e he =>
    rw [line_search_traced, he]
    right; rfl
  | case2 s u i s1 hs hc ih =>
    rw [line_search_traced, hs]
    simp only [hc, and_self, if_true]
    have := hc.1
    left
    omega
  | case3 s u i s1 hs hc =>
    rw [line_search_traced, hs]
    simp only [hc, if_false]
    right; trivial

theorem converge_loop_traced_eq (s : Best_Fitting_Circle) (g pg up : Gradient) (i : ℕ) :
    converge_loop_traced s g pg up i =
      if i < 100 then
        match search_direction g pg up i with
        | Except.error e => (Except.error e, [])
        | Except.ok u =>
          match line_search s u i with
          | Except.error e => (Except.error e, [((line_search_traced s u i).2, false)])
          | Except.ok (s1, previous_cost, i1) =>
            if relative_change_small s1.cost previous_cost then
              (Except.ok (true, s1), [((line_search_traced s u i).2, true)])
            else
              ((converge_loop_traced s1 g g u (i1 + 1)).1,
                ((line_search_traced s u i).2, false) ::
                  (converge_loop_traced s1 g g u (i1 + 1)).2)
      else (Except.ok (false, s), []) := by
  rw [converge_loop_traced]
  split
  · split
    · rfl
    · rename_i u hu
      split
      · rename_i e he
        simp only [he]
      · rename_i s1 pc i1 he
        simp only [he]
  · rfl

/-- The traced loop computes what `converge_loop` computes, its log has at
most `100 - i` entries, and the flag it returns is true exactly when the last
entry of the log records a successful test. -/
theorem converge_loop_traced_spec (n : ℕ) :
    ∀ (s : Best_Fitting_Circle) (g pg up : Gradient) (i : ℕ), 100 - i ≤ n →
      (converge_loop_traced s g pg up i).1 = converge_loop s g pg up i ∧
      (converge_loop_traced s g pg up i).2.length ≤ 100 - i ∧
      ∀ (b : Bool) (s1 : Best_Fitting_Circle),
        converge_loop s g pg up i = Except.ok (b, s1) →
        (b = true ↔ ∃ e ∈ (converge_loop_traced s g pg up i).2, e.2 = true) := by
  induction n with
  | zero =>
    intro s g pg up i hn
    rw [converge_loop_eq, converge_loop_traced_eq, if_neg (by omega), if_neg (by omega)]
    refine ⟨rfl, by simp, ?_⟩
    intro b s1 h
    simp only [Except.ok.injEq, Prod.mk.injEq] at h
    simp [← h.1]
  | succ n ih =>
    intro s g pg up i hn
    rw [converge_loop_eq, converge_loop_traced_eq]
    by_cases hi : i < 100
    · simp only [hi, if_true]
      cases hu : search_direction g pg up i with
      | error e => simp
      | ok u =>
        simp only
        cases hls : line_search s u i with
        | error e =>
          simp
          omega
        | ok r =>
          obtain ⟨s1, pc, i1⟩ := r
          have hc := line_search_counter s u i _ hls
          simp only at hc
          simp only
          by_cases ht : relative_change_small s1.cost pc
          · simp only [ht, if_true]
            refine ⟨trivial, by simp; omega, ?_⟩
            intro b s2 h
            simp only [Except.ok.injEq, Prod.mk.injEq] at h
            simp [← h.1]
          · simp only [ht, if_false]
            obtain ⟨h1, h2, h3⟩ := ih s1 g g u (i1 + 1) (by omega)
            refine ⟨h1, by simp only [List.length_cons]; omega, ?_⟩
            intro b s2 h
            rw [h3 b s2 h]
            simp
    · simp only [hi, if_false]
      refine ⟨trivial, by simp, ?_⟩
      intro b s1 h
      simp only [Except.ok.injEq, Prod.mk.injEq] at h
      simp [← h.1]

theorem converge_loop_traced_entries (n : ℕ) :
    ∀ (s : Best_Fitting_Circle) (g pg up : Gradient) (i : ℕ), 100 - i ≤ n →
      ∀ e ∈ (converge_loop_traced s g pg up i).2, 1 ≤ e.1 ∧ e.1 ≤ 10 := by
  have hcount : ∀ (s : Best_Fitting_Circle) (u : Gradient) (i : ℕ),
      1 ≤ (line_search_traced s u i).2 ∧ (line_search_traced s u i).2 ≤ 10 := by
    intro s u i
    rcases line_search_traced_count s u i with h | h <;> omega
  induction n with
  | zero =>
    intro s g pg up i hn
    rw [converge_loop_traced_eq, if_neg (by omega)]
    simp
  | succ n ih =>
    intro s g pg up i hn
    rw [converge_loop_traced_eq]
    by_cases hi : i < 100
    · simp only [hi, if_true]
      cases hu : search_direction g pg up i with
      | error e => simp
      | ok u =>
        simp only
        cases hls : line_search s u i with
        | error e =>
          simp only [List.mem_singleton]
          intro e he
          subst he
          exact hcount s u i
        | ok r =>
          obtain ⟨s1, pc, i1⟩ := r
          have hc := line_search_counter s u i _ hls
          simp only at hc
          simp only
          by_cases ht : relative_change_small s1.cost pc
          · simp only [ht, if_true, List.mem_singleton]
            intro e he
            subst he
            exact hcount s u i
          · simp only [ht, if_false, List.mem_cons]
            intro e he
            rcases he with he | he
            · subst he
              exact hcount s u i
            · exact ih s1 g g u (i1 + 1) (by omega) e he
    · simp only [hi, if_false]
      simp

/-- C14: `converge` is a total function of the fitter state and the initial
gradient, and its run stays within the budgets: the `for` loop is entered at
most 100 times, in each pass the body of the `do` loop runs at least once and
at most 10 times, and the value returned is true exactly when the entry test
or the convergence test of some pass succeeded, so that it is false when no
test succeeds within the budget. -/
theorem C14_converge_within_budget (s : Best_Fitting_Circle) (g : Gradient) :
    (converge_traced s g).1 = converge s g ∧
    (converge_traced s g).2.length ≤ 100 ∧
    (∀ e ∈ (converge_traced s g).2, 1 ≤ e.1 ∧ e.1 ≤ 10) ∧
    ∀ (b : Bool) (s1 : Best_Fitting_Circle), converge s g = Except.ok (b, s1) →
      (b = false ↔
        ¬ (s.cost < 1.0e-10 ∨ Real.sqrt (g.x ^ 2 + g.y ^ 2) < 1.0e-10) ∧
          ∀ e ∈ (converge_traced s g).2, e.2 = false) := by
  unfold converge_traced converge
  by_cases h0 : s.cost < 1.0e-10 ∨ Real.sqrt (g.x ^ 2 + g.y ^ 2) < 1.0e-10
  · simp only [h0, if_true]
    refine ⟨trivial, by simp, by simp, ?_⟩
    intro b s1 h
    simp only [Except.ok.injEq, Prod.mk.injEq] at h
    simp [← h.1]
  · simp only [h0, if_false]
    obtain ⟨h1, h2, h3⟩ := converge_loop_traced_spec 100 s g g ⟨0, 0⟩ 0 (by omega)
    refine ⟨h1, by omega, converge_loop_traced_entries 100 s g g ⟨0, 0⟩ 0 (by omega), ?_⟩
    intro b s1 h
    have := h3 b s1 h
    constructor
    · intro hb
      refine ⟨not_false, ?_⟩
      intro e he
      by_contra hne
      have : b = true := this.mpr ⟨e, he, by simpa using hne⟩
      rw [hb] at this
      cases this
    · rintro ⟨-, hall⟩
      by_contra hb
      have hb1 : b = true := by simpa using hb
      obtain ⟨e, he, het⟩ := this.mp hb1
      rw [hall e he] at het
      cases het

/-! ## The gradient that `converge` uses in its later passes -/

/-- The `do` loop of the first pass of `converge` makes ten steps along a
sequence `S` of fitter states when every step leads from `S k` to `S (k + 1)`
and the condition of the loop holds after each of the first nine. -/
theorem line_search_ten_steps (S : ℕ → Best_Fitting_Circle) (u : Gradient)
    (hstep : ∀ k, k < 10 → line_search_step (S k) u = Except.ok (S (k + 1)))
    (hcont : ∀ k, k < 9 → line_search_continues (S (k + 1)).cost (S k).cost) :
    line_search (S 0) u 0 = Except.ok (S 10, (S 9).cost, 10) := by
  have first : ∀ j, j ≤ 9 → line_search (S (9 - j)) u (9 - j)
      = Except.ok (S 10, (S 9).cost, 10) := by
    intro j
    induction j with
    | zero =>
      intro _
      exact line_search_last (S 9) (S 10) u 9 (le_refl 9) (hstep 9 (by norm_num))
    | succ j ih =>
      intro hj
      have h1 : 9 - (j + 1) + 1 = 9 - j := by omega
      rw [line_search_more (S (9 - (j + 1))) (S (9 - (j + 1) + 1)) u (9 - (j + 1)) (by omega)
        (hstep _ (by omega)) (hcont _ (by omega)), h1]
      exact ih (by omega)
  have hf := first 9 (le_refl 9)
  simp only [Nat.sub_self] at hf
  exact hf

/-- The gradient of the cost of `exhaust_points` at a centre `(c, 0)` that
truncates to `(0, 0)`. -/
theorem gradient_axis (c r k : ℝ) (hc1 : -1 < c) (hc2 : c < 1) :
    get_gradient_for_conjugate_gradient ⟨r, ⟨c, 0⟩, k, exhaust_points⟩ exhaust_points
      = ⟨2 * (28 * c + 114 - r * (7 * c + 20)), 0⟩ := by
  have ht := double_to_int_near_zero c hc1 hc2
  simp only [get_gradient_for_conjugate_gradient, distance_to_center, ht, double_to_int_zero,
    exhaust_points, List.foldl_cons, List.foldl_nil, get_distance_axis]
  norm_num
  ring

theorem axis_state_ten :
    -1 < (axis_state 10).1 ∧ (axis_state 10).1 < 1 ∧
      2 * (28 * (axis_state 10).1 + 114 - (axis_state 10).2.1 * (7 * (axis_state 10).1 + 20))
        < 33 := by
  decide!

/-- C20: on the seven points of `exhaust_points`, `compute_best_fit_circle`
passes to `converge` the gradient (68, 0) of the state with centre (0,0),
radius 4 and cost 34.  The first pass of the `for` loop makes ten line-search
steps and does not meet the convergence test; the second pass is entered at
`i = 11` with the state `axis_state 10` and still with the gradient (68, 0),
from which it builds the direction (-68, 0).  The gradient of the cost at the
centre and radius of that moment has an abscissa below 33: the gradient in
use is not the gradient at the current centre and radius. -/
theorem C20_gradient_not_recomputed :
    get_gradient_for_conjugate_gradient ⟨4, ⟨0, 0⟩, 34, exhaust_points⟩ exhaust_points
      = ⟨68, 0⟩ ∧
    line_search ⟨4, ⟨0, 0⟩, 34, exhaust_points⟩ ⟨-68, 0⟩ 0
      = Except.ok (axis_fitter (axis_state 10), (axis_fitter (axis_state 9)).cost, 10) ∧
    converge ⟨4, ⟨0, 0⟩, 34, exhaust_points⟩ ⟨68, 0⟩
      = converge_loop (axis_fitter (axis_state 10)) ⟨68, 0⟩ ⟨68, 0⟩ ⟨-68, 0⟩ 11 ∧
    search_direction ⟨68, 0⟩ ⟨68, 0⟩ ⟨-68, 0⟩ 11 = Except.ok ⟨-68, 0⟩ ∧
    (get_gradient_for_conjugate_gradient (axis_fitter (axis_state 10)) exhaust_points).x < 33 ∧
    get_gradient_for_conjugate_gradient (axis_fitter (axis_state 10)) exhaust_points
      ≠ ⟨68, 0⟩ := by
  have hs0 : (⟨4, ⟨0, 0⟩, 34, exhaust_points⟩ : Best_Fitting_Circle)
      = axis_fitter (axis_state 0) := by
    simp [axis_fitter, axis_state]
  have hsqrt : Real.sqrt ((68 : ℝ) ^ 2 + 0 ^ 2) = 68 :=
    sqrt_eq_of_sq _ _ (by norm_num) (by norm_num)
  have hls : line_search (axis_fitter (axis_state 0)) ⟨-68, 0⟩ 0
      = Except.ok (axis_fitter (axis_state 10), (axis_fitter (axis_state 9)).cost, 10) :=
    line_search_ten_steps (fun k => axis_fitter (axis_state k)) ⟨-68, 0⟩
      (fun k hk => axis_step_real k (by omega)) (fun k hk => axis_continues k (by omega))
  have hdir0 : search_direction ⟨68, 0⟩ ⟨68, 0⟩ ⟨0, 0⟩ 0 = Except.ok ⟨-68, 0⟩ := by
    norm_num [search_direction]
  have hdir : search_direction ⟨68, 0⟩ ⟨68, 0⟩ ⟨-68, 0⟩ 11 = Except.ok ⟨-68, 0⟩ := by
    simp only [search_direction]
    rw [if_pos (by norm_num), fdiv_ok _ _ _ (by norm_num)]
    norm_num
  have hg0 : get_gradient_for_conjugate_gradient ⟨4, ⟨0, 0⟩, 34, exhaust_points⟩ exhaust_points
      = ⟨68, 0⟩ := by
    rw [gradient_axis 0 4 34 (by norm_num) (by norm_num)]
    norm_num
  obtain ⟨q1, q2, q3⟩ := axis_state_ten
  have q1r : (-1 : ℝ) < ((axis_state 10).1 : ℝ) := by exact_mod_cast q1
  have q2r : ((axis_state 10).1 : ℝ) < 1 := by exact_mod_cast q2
  have q3r : 2 * (28 * ((axis_state 10).1 : ℝ) + 114
      - ((axis_state 10).2.1 : ℝ) * (7 * ((axis_state 10).1 : ℝ) + 20)) < 33 := by
    exact_mod_cast q3
  have hg10 : (get_gradient_for_conjugate_gradient (axis_fitter (axis_state 10))
      exhaust_points).x < 33 := by
    rw [axis_fitter, gradient_axis _ _ _ q1r q2r]
    exact q3r
  refine ⟨hg0, ?_, ?_, hdir, hg10, ?_⟩
  · rw [hs0]
    exact hls
  · rw [converge, if_neg, hs0, converge_loop_eq, if_pos (by norm_num), hdir0]
    · simp only [hls]
      rw [if_neg (axis_change_not_small 9 (by norm_num))]
    · rw [hsqrt]
      norm_num
  · intro h
    rw [h] at hg10
    norm_num at hg10

/-! ## A run that returns true with a cost above the initial cost -/

theorem sqrt_two_sq : Real.sqrt 2 ^ 2 = 2 := Real.sq_sqrt (by norm_num)

theorem sqrt_two_bounds : (141 / 100 : ℝ) < Real.sqrt 2 ∧ Real.sqrt 2 < 142 / 100 := by
  constructor
  · rw [Real.lt_sqrt (by norm_num)]
    norm_num
  · rw [Real.sqrt_lt (by norm_num) (by norm_num)]
    norm_num

theorem square_distances (r k : ℝ) :
    distance_to_center ⟨r, ⟨1 / 2, 1 / 2⟩, k, square_points⟩ ⟨0, 0⟩ = 0 ∧
    distance_to_center ⟨r, ⟨1 / 2, 1 / 2⟩, k, square_points⟩ ⟨1, 0⟩ = 1 ∧
    distance_to_center ⟨r, ⟨1 / 2, 1 / 2⟩, k, square_points⟩ ⟨0, 1⟩ = 1 ∧
    distance_to_center ⟨r, ⟨1 / 2, 1 / 2⟩, k, square_points⟩ ⟨1, 1⟩ = Real.sqrt 2 := by
  simp only [distance_to_center, double_to_int_half, get_distance]
  norm_num

theorem square_radius (r k : ℝ) :
    compute_radius_estimate ⟨r, ⟨1 / 2, 1 / 2⟩, k, square_points⟩ square_points
      = Except.ok ((r + (2 + Real.sqrt 2)) / 4,
          ⟨(r + (2 + Real.sqrt 2)) / 4, ⟨1 / 2, 1 / 2⟩, k, square_points⟩) := by
  obtain ⟨d0, d1, d2, d3⟩ := square_distances r k
  simp only [compute_radius_estimate]
  simp only [square_points, List.foldl_cons, List.foldl_nil, List.length_cons, List.length_nil]
  simp only [square_points] at d0 d1 d2 d3
  rw [d0, d1, d2, d3, fdiv_ok _ _ _ (by norm_num)]
  have e : r + 0 + 1 + 1 + Real.sqrt 2 = r + (2 + Real.sqrt 2) := by ring
  rw [e]
  norm_num

theorem square_cost (r k : ℝ) :
    cost_function ⟨r, ⟨1 / 2, 1 / 2⟩, k, square_points⟩ square_points
      = 4 * r ^ 2 - 2 * (2 + Real.sqrt 2) * r + 4 := by
  obtain ⟨d0, d1, d2, d3⟩ := square_distances r k
  simp only [cost_function]
  simp only [square_points, List.foldl_cons, List.foldl_nil]
  simp only [square_points] at d0 d1 d2 d3
  rw [d0, d1, d2, d3]
  have h := sqrt_two_sq
  ring_nf
  rw [h]
  ring

theorem square_gradient (r k : ℝ) :
    get_gradient_for_conjugate_gradient ⟨r, ⟨1 / 2, 1 / 2⟩, k, square_points⟩ square_points
      = ⟨-Real.sqrt 2, -Real.sqrt 2⟩ := by
  obtain ⟨d0, d1, d2, d3⟩ := square_distances r k
  simp only [get_gradient_for_conjugate_gradient]
  simp only [square_points, List.foldl_cons, List.foldl_nil]
  simp only [square_points] at d0 d1 d2 d3
  rw [d0, d1, d2, d3]
  congr 1 <;> push_cast <;> ring

/-- On the corners of the unit square, with the centre (1/2, 1/2) and a radius
below √2, the Newton step along the diagonal direction (√2, √2) is zero: the
four points are at the same distance from the centre and the centre is their
centroid. -/
theorem square_lambda (r k : ℝ) (hr : r < Real.sqrt 2) :
    compute_lambda ⟨r, ⟨1 / 2, 1 / 2⟩, k, square_points⟩ square_points
      ⟨Real.sqrt 2, Real.sqrt 2⟩ = Except.ok 0 := by
  have hw := sqrt_two_sq
  have hb := sqrt_two_bounds
  have hd0 : (0 : ℝ) ≤ Real.sqrt 2 / 2 := by linarith [hb.1]
  have hdn : Real.sqrt 2 / 2 ≠ 0 := by linarith [hb.1]
  have hwn : Real.sqrt 2 ≠ 0 := by linarith [hb.1]
  have e00 : Real.sqrt (((1 : ℝ) / 2 - ((0 : ℤ) : ℝ)) ^ 2 + ((1 : ℝ) / 2 - ((0 : ℤ) : ℝ)) ^ 2)
      = Real.sqrt 2 / 2 := sqrt_eq_of_sq _ _ hd0 (by push_cast; linarith)
  have e10 : Real.sqrt (((1 : ℝ) / 2 - ((1 : ℤ) : ℝ)) ^ 2 + ((1 : ℝ) / 2 - ((0 : ℤ) : ℝ)) ^ 2)
      = Real.sqrt 2 / 2 := sqrt_eq_of_sq _ _ hd0 (by push_cast; linarith)
  have e01 : Real.sqrt (((1 : ℝ) / 2 - ((0 : ℤ) : ℝ)) ^ 2 + ((1 : ℝ) / 2 - ((1 : ℤ) : ℝ)) ^ 2)
      = Real.sqrt 2 / 2 := sqrt_eq_of_sq _ _ hd0 (by push_cast; linarith)
  have e11 : Real.sqrt (((1 : ℝ) / 2 - ((1 : ℤ) : ℝ)) ^ 2 + ((1 : ℝ) / 2 - ((1 : ℤ) : ℝ)) ^ 2)
      = Real.sqrt 2 / 2 := sqrt_eq_of_sq _ _ hd0 (by push_cast; linarith)
  simp only [compute_lambda, square_points, lambda_loop, e00, e10, e01, e11, hdn, if_false,
    List.length_cons, List.length_nil]
  rw [if_neg (by norm_num)]
  have q00 : (((1 : ℝ) / 2 - ((0 : ℤ) : ℝ)) * Real.sqrt 2
      + ((1 : ℝ) / 2 - ((0 : ℤ) : ℝ)) * Real.sqrt 2) / (Real.sqrt 2 / 2) = 2 := by
    push_cast; field_simp
  have q10 : (((1 : ℝ) / 2 - ((1 : ℤ) : ℝ)) * Real.sqrt 2
      + ((1 : ℝ) / 2 - ((0 : ℤ) : ℝ)) * Real.sqrt 2) / (Real.sqrt 2 / 2) = 0 := by
    push_cast; field_simp; ring
  have q01 : (((1 : ℝ) / 2 - ((0 : ℤ) : ℝ)) * Real.sqrt 2
      + ((1 : ℝ) / 2 - ((1 : ℤ) : ℝ)) * Real.sqrt 2) / (Real.sqrt 2 / 2) = 0 := by
    push_cast; field_simp; ring
  have q11 : (((1 : ℝ) / 2 - ((1 : ℤ) : ℝ)) * Real.sqrt 2
      + ((1 : ℝ) / 2 - ((1 : ℤ) : ℝ)) * Real.sqrt 2) / (Real.sqrt 2 / 2) = -2 := by
    push_cast; field_simp; ring
  simp only [q00, q10, q01, q11]
  have hden : (Real.sqrt 2 ^ 2 + Real.sqrt 2 ^ 2) *
        (0 + (Real.sqrt 2 / 2 - r) / (Real.sqrt 2 / 2) + (Real.sqrt 2 / 2 - r) / (Real.sqrt 2 / 2)
          + (Real.sqrt 2 / 2 - r) / (Real.sqrt 2 / 2) + (Real.sqrt 2 / 2 - r) / (Real.sqrt 2 / 2))
      - (0 + 2 + 0 + 0 + -2) * (0 + 2 + 0 + 0 + -2) / ((0 + 1 + 1 + 1 + 1 : ℕ) : ℝ)
      + r * (0 + 2 * 2 / (Real.sqrt 2 / 2) + 0 * 0 / (Real.sqrt 2 / 2)
          + 0 * 0 / (Real.sqrt 2 / 2) + -2 * -2 / (Real.sqrt 2 / 2))
      = 16 * (Real.sqrt 2 - r) / Real.sqrt 2 := by
    rw [hw]
    push_cast
    field_simp
    ring
  have hne : 16 * (Real.sqrt 2 - r) / Real.sqrt 2 ≠ 0 := by
    apply div_ne_zero _ hwn
    have : 0 < Real.sqrt 2 - r := by linarith
    positivity
  rw [hden, fdiv_ok _ _ _ hne]
  congr 1
  norm_num

theorem square_step (a : ℝ) (ha : a ≤ 2 / 5) :
    line_search_step (square_fitter a) ⟨Real.sqrt 2, Real.sqrt 2⟩
      = Except.ok (square_fitter ((a + 1) / 4)) := by
  have hb := sqrt_two_bounds
  have hw := sqrt_two_sq
  have hr : a * (2 + Real.sqrt 2) < Real.sqrt 2 := by
    have : a * (2 + Real.sqrt 2) ≤ 2 / 5 * (2 + Real.sqrt 2) :=
      mul_le_mul_of_nonneg_right ha (by linarith [hb.1])
    linarith [hb.1]
  simp only [line_search_step, square_fitter, square_lambda _ _ hr, zero_mul, add_zero,
    square_radius, square_cost]
  congr 2
  · ring
  · ring_nf
    rw [hw]
    ring

theorem square_steps_ok : ∀ k, k < 21 → square_step_ok k = true := by
  decide!

/-- The loop of `converge` returns true in the pass entered at `i = 11 + 2 J`
along a sequence `S` of fitter states when every line-search step leads from
`S k` to `S (k + 1)`, the `do` loop of the first pass goes on for ten steps,
and the relative change of the cost is small for the first time at the step
from `S (10 + J)` to `S (11 + J)`. -/
theorem converge_loop_converges (S : ℕ → Best_Fitting_Circle) (g u : Gradient) (J : ℕ)
    (hJ : 11 + 2 * J < 100)
    (hstep : ∀ k, k < 11 + J → line_search_step (S k) u = Except.ok (S (k + 1)))
    (hcont : ∀ k, k < 9 → line_search_continues (S (k + 1)).cost (S k).cost)
    (hnot : ∀ k, 9 ≤ k → k < 10 + J → ¬ relative_change_small (S (k + 1)).cost (S k).cost)
    (hyes : relative_change_small (S (11 + J)).cost (S (10 + J)).cost)
    (hdir0 : search_direction g g ⟨0, 0⟩ 0 = Except.ok u)
    (hdir : ∀ i, 0 < i → search_direction g g u i = Except.ok u) :
    converge_loop (S 0) g g ⟨0, 0⟩ 0 = Except.ok (true, S (11 + J)) := by
  have rest : ∀ j, j ≤ J → converge_loop (S (10 + J - j)) g g u (11 + 2 * (J - j))
      = Except.ok (true, S (11 + J)) := by
    intro j
    induction j with
    | zero =>
      intro _
      have hs := hstep (10 + J) (by omega)
      have hk : 10 + J + 1 = 11 + J := by omega
      rw [hk] at hs
      rw [converge_loop_eq, if_pos (by omega), hdir _ (by omega)]
      simp only [Nat.sub_zero, line_search_last (S (10 + J)) (S (11 + J)) u (11 + 2 * J)
        (by omega) hs, hyes, if_true]
    | succ j ih =>
      intro hj
      have hk : 10 + J - (j + 1) + 1 = 10 + J - j := by omega
      have hi : 11 + 2 * (J - (j + 1)) + 1 + 1 = 11 + 2 * (J - j) := by omega
      have hs := hstep (10 + J - (j + 1)) (by omega)
      rw [hk] at hs
      have hn := hnot (10 + J - (j + 1)) (by omega) (by omega)
      rw [hk] at hn
      rw [converge_loop_eq, if_pos (by omega), hdir _ (by omega)]
      simp only [line_search_last (S (10 + J - (j + 1))) (S (10 + J - j)) u
        (11 + 2 * (J - (j + 1))) (by omega) hs, hn, if_false, hi]
      exact ih (by omega)
  have h10 := hnot 9 (le_refl 9) (by omega)
  have hf := line_search_ten_steps S u (fun k hk => hstep k (by omega)) hcont
  rw [converge_loop_eq, if_pos (by norm_num), hdir0]
  simp only [hf, h10, if_false]
  have := rest J (le_refl J)
  simp only [Nat.sub_self, Nat.mul_zero, Nat.add_zero] at this
  have e : 10 + J - J = 10 := by omega
  rw [e] at this
  exact this

theorem square_ratio_succ (k : ℕ) :
    ((square_ratio (k + 1) : ℚ) : ℝ) = (((square_ratio k : ℚ) : ℝ) + 1) / 4 := by
  simp only [square_ratio]
  push_cast
  ring

theorem square_step_real (k : ℕ) (hk : k < 21) :
    line_search_step (square_fitter (square_ratio k)) ⟨Real.sqrt 2, Real.sqrt 2⟩
      = Except.ok (square_fitter (square_ratio (k + 1))) := by
  have h := square_steps_ok k hk
  simp only [square_step_ok, decide_eq_true_eq] at h
  have ha : ((square_ratio k : ℚ) : ℝ) ≤ 2 / 5 := by
    have : ((square_ratio k : ℚ) : ℝ) ≤ ((2 / 5 : ℚ) : ℝ) := Rat.cast_le.mpr h.1
    push_cast at this
    exact this
  rw [square_step _ ha, square_ratio_succ]

theorem square_fitter_cost (k : ℕ) :
    (square_fitter (square_ratio k)).cost = 4 + (6 + 4 * Real.sqrt 2) * ((square_q k : ℚ) : ℝ) := by
  simp only [square_fitter, square_q]
  push_cast
  ring

theorem square_cost_pos (k : ℕ) (hk : k < 21) :
    (1 : ℝ) < (square_fitter (square_ratio (k + 1))).cost := by
  have h := square_steps_ok k hk
  simp only [square_step_ok, decide_eq_true_eq] at h
  obtain ⟨-, -, -, h4, -, -⟩ := h
  have h4r : ((-1 / 4 : ℚ) : ℝ) < ((square_q (k + 1) : ℚ) : ℝ) := Rat.cast_lt.mpr h4
  push_cast at h4r
  have hb := sqrt_two_bounds
  rw [square_fitter_cost]
  nlinarith [hb.1, hb.2]

theorem square_continues (k : ℕ) (hk : k < 21) :
    line_search_continues (square_fitter (square_ratio (k + 1))).cost
      (square_fitter (square_ratio k)).cost := by
  have hpos := square_cost_pos k hk
  have h := square_steps_ok k hk
  simp only [square_step_ok, decide_eq_true_eq] at h
  obtain ⟨-, h2, -, -, -, -⟩ := h
  have h2r : ((square_q (k + 1) : ℚ) : ℝ) ≠ ((square_q k : ℚ) : ℝ) := by exact_mod_cast h2
  have hb := sqrt_two_bounds
  simp only [line_search_continues]
  rw [if_pos (by norm_num; linarith)]
  rw [square_fitter_cost, square_fitter_cost]
  apply abs_ne_zero.mpr
  intro h0
  apply h2r
  have hW : (6 + 4 * Real.sqrt 2) ≠ 0 := by linarith [hb.1]
  have : (6 + 4 * Real.sqrt 2) * (((square_q (k + 1) : ℚ) : ℝ) - ((square_q k : ℚ) : ℝ)) = 0 := by
    linarith
  rcases mul_eq_zero.mp this with h1 | h1
  · exact absurd h1 hW
  · linarith

theorem square_cost_change (k : ℕ) :
    |(square_fitter (square_ratio (k + 1))).cost - (square_fitter (square_ratio k)).cost|
      = (6 + 4 * Real.sqrt 2) * |((square_q (k + 1) : ℚ) : ℝ) - ((square_q k : ℚ) : ℝ)| := by
  have hb := sqrt_two_bounds
  have hW : (0 : ℝ) ≤ 6 + 4 * Real.sqrt 2 := by linarith [hb.1]
  rw [square_fitter_cost, square_fitter_cost, ← abs_of_nonneg hW, ← abs_mul, abs_of_nonneg hW]
  congr 1
  ring

theorem square_not_small (k : ℕ) (hk : k < 20) :
    ¬ relative_change_small (square_fitter (square_ratio (k + 1))).cost
      (square_fitter (square_ratio k)).cost := by
  have hpos := square_cost_pos k (by omega)
  have h := square_steps_ok k (by omega)
  simp only [square_step_ok, decide_eq_true_eq] at h
  obtain ⟨-, -, h3, -, h5, -⟩ := h
  have h3r : ((square_q (k + 1) : ℚ) : ℝ) ≤ ((0 : ℚ) : ℝ) := Rat.cast_le.mpr h3
  have h5r : (((1 / 1000000000000 * (4 + 1164 / 100 * square_q (k + 1))) : ℚ) : ℝ)
      ≤ (((1164 / 100 * |square_q (k + 1) - square_q k|) : ℚ) : ℝ) := Rat.cast_le.mpr (h5 hk)
  push_cast at h3r h5r
  have hb := sqrt_two_bounds
  have hne : (square_fitter (square_ratio (k + 1))).cost ≠ 0 := by linarith
  simp only [relative_change_small]
  rw [if_neg hne, square_cost_change, not_lt, le_div_iff₀ (by linarith), square_fitter_cost]
  have e : (1.0e-12 : ℝ) = 1 / 1000000000000 := by norm_num
  rw [e]
  have habs := abs_nonneg (((square_q (k + 1) : ℚ) : ℝ) - ((square_q k : ℚ) : ℝ))
  nlinarith [hb.1, hb.2]

theorem square_small :
    relative_change_small (square_fitter (square_ratio 21)).cost
      (square_fitter (square_ratio 20)).cost := by
  have hpos := square_cost_pos 20 (by omega)
  have h := square_steps_ok 20 (by omega)
  simp only [square_step_ok, decide_eq_true_eq] at h
  obtain ⟨-, -, h3, -, -, h6⟩ := h
  have h3r : ((square_q (20 + 1) : ℚ) : ℝ) ≤ ((0 : ℚ) : ℝ) := Rat.cast_le.mpr h3
  have h6r : (((1168 / 100 * |square_q (20 + 1) - square_q 20|) : ℚ) : ℝ)
      < (((1 / 1000000000000 * (4 + 1168 / 100 * square_q (20 + 1))) : ℚ) : ℝ) :=
    Rat.cast_lt.mpr (h6 trivial)
  push_cast at h3r h6r
  have hb := sqrt_two_bounds
  have hne : (square_fitter (square_ratio (20 + 1))).cost ≠ 0 := by linarith
  simp only [relative_change_small]
  rw [if_neg hne, square_cost_change, div_lt_iff₀ (by linarith), square_fitter_cost]
  have e : (1.0e-12 : ℝ) = 1 / 1000000000000 := by norm_num
  rw [e]
  have habs := abs_nonneg (((square_q (20 + 1) : ℚ) : ℝ) - ((square_q 20 : ℚ) : ℝ))
  nlinarith [hb.1, hb.2]

theorem square_on_circle : on_circle square_points (1 / 2) (1 / 2) (Real.sqrt 2 / 2) := by
  have hw := sqrt_two_sq
  intro p hp
  simp only [square_points, List.mem_cons, List.mem_singleton, List.not_mem_nil, or_false] at hp
  rcases hp with h | h | h | h <;> subst h <;> push_cast <;> linarith

theorem square_not_collinear (i j k : ℕ) (hij : i < j) (hjk : j < k)
    (hk : k < square_points.length) :
    ¬ collinear (point_at square_points i) (point_at square_points j)
      (point_at square_points k) := by
  have hk4 : k < 4 := hk
  interval_cases k <;> interval_cases j <;> interval_cases i <;> first | omega | decide

theorem square_points_estimate :
    initial_estimate (construct square_points 0) square_points = Except.ok
      (⟨1 / 2, 1 / 2⟩, { construct square_points 0 with circle_center_est := ⟨1 / 2, 1 / 2⟩ }) :=
  initial_estimate_on_circle (construct square_points 0) square_points (1 / 2) (1 / 2)
    (Real.sqrt 2 / 2) rfl (by decide) (by decide) square_on_circle

theorem square_fitter_zero :
    square_fitter (square_ratio 0)
      = ⟨(2 + Real.sqrt 2) / 4, ⟨1 / 2, 1 / 2⟩, (5 - 2 * Real.sqrt 2) / 2, square_points⟩ := by
  simp only [square_fitter, square_ratio]
  congr 1
  · push_cast
    ring
  · push_cast
    ring

/-- Entered with the centre (1/2, 1/2), the radius (2 + √2)/4, the cost
(5 - 2 √2)/2 and the gradient (-√2, -√2), `converge` makes 21 line-search
steps, none of which moves the centre, and returns true in the pass entered at
`i = 31`. -/
theorem square_points_converge :
    converge ⟨(2 + Real.sqrt 2) / 4, ⟨1 / 2, 1 / 2⟩, (5 - 2 * Real.sqrt 2) / 2, square_points⟩
      ⟨-Real.sqrt 2, -Real.sqrt 2⟩ = Except.ok (true, square_fitter (square_ratio 21)) := by
  have hb := sqrt_two_bounds
  have hw := sqrt_two_sq
  have hsqrt : Real.sqrt ((-Real.sqrt 2) ^ 2 + (-Real.sqrt 2) ^ 2) = 2 :=
    sqrt_eq_of_sq _ _ (by norm_num) (by nlinarith)
  have hloop : converge_loop (square_fitter (square_ratio 0)) ⟨-Real.sqrt 2, -Real.sqrt 2⟩
      ⟨-Real.sqrt 2, -Real.sqrt 2⟩ ⟨0, 0⟩ 0
      = Except.ok (true, square_fitter (square_ratio (11 + 10))) := by
    apply converge_loop_converges (fun k => square_fitter (square_ratio k))
      ⟨-Real.sqrt 2, -Real.sqrt 2⟩ ⟨Real.sqrt 2, Real.sqrt 2⟩ 10 (by norm_num)
    · intro k hk
      exact square_step_real k (by omega)
    · intro k hk
      exact square_continues k (by omega)
    · intro k _ hk
      exact square_not_small k (by omega)
    · exact square_small
    · simp only [search_direction]
      rw [if_neg (by norm_num)]
      congr 2 <;> ring
    · intro i hi
      have hden : -Real.sqrt 2 * -Real.sqrt 2 + -Real.sqrt 2 + -Real.sqrt 2 ≠ 0 := by
        nlinarith
      simp only [search_direction, hi, if_true]
      rw [fdiv_ok _ _ _ hden]
      simp only
      congr 2 <;> ring
  rw [converge, if_neg, ← square_fitter_zero, hloop]
  rw [hsqrt]
  simp only [not_or, not_lt]
  constructor
  · norm_num
    linarith [hb.2]
  · norm_num

/-- On the corners of the unit square a freshly constructed fitter computes
the centre (1/2, 1/2), the radius (2 + √2)/4 and the cost (5 - 2 √2)/2, and
`converge` returns true after 21 line-search steps. -/
theorem square_points_run :
    compute_best_fit_circle (construct square_points 0)
      = Except.ok (true, square_fitter (square_ratio 21)) := by
  have hsel : (construct square_points 0).selected_points = square_points := rfl
  have hrad := square_radius 0 0
  have hr : ((0 : ℝ) + (2 + Real.sqrt 2)) / 4 = (2 + Real.sqrt 2) / 4 := by ring
  rw [hr] at hrad
  have hcost : cost_function ⟨(2 + Real.sqrt 2) / 4, ⟨1 / 2, 1 / 2⟩, 0, square_points⟩
      square_points = (5 - 2 * Real.sqrt 2) / 2 := by
    rw [square_cost]
    have hw := sqrt_two_sq
    ring_nf
    rw [hw]
    ring
  simp only [compute_best_fit_circle, hsel, square_points_estimate]
  rw [if_pos (by norm_num)]
  simp only [construct, hrad, hcost, square_gradient, square_points_converge]
  rfl

theorem square_q_final : -223 / 1000 < square_q 21 := by
  decide!

/-- C15: the corners of the unit square are four points no three of which are
collinear.  A freshly constructed fitter on them computes the initial centre
(1/2, 1/2) and the initial radius (2 + √2)/4, at which the cost is
(5 - 2 √2)/2, below 11/10; `compute_best_fit_circle` returns true, and the
cost at the final centre and radius, which is the stored cost, is above
13/10: every line-search step adds the four distances onto the stored radius,
and the cost rises with it. -/
theorem C15_cost_rises_on_unit_square :
    3 ≤ square_points.length ∧
    (∀ i j k, i < j → j < k → k < square_points.length →
      ¬ collinear (point_at square_points i) (point_at square_points j)
        (point_at square_points k)) ∧
    initial_estimate (construct square_points 0) square_points = Except.ok
      (⟨1 / 2, 1 / 2⟩, { construct square_points 0 with circle_center_est := ⟨1 / 2, 1 / 2⟩ }) ∧
    compute_radius_estimate { construct square_points 0 with circle_center_est := ⟨1 / 2, 1 / 2⟩ }
      square_points = Except.ok ((2 + Real.sqrt 2) / 4,
        ⟨(2 + Real.sqrt 2) / 4, ⟨1 / 2, 1 / 2⟩, 0, square_points⟩) ∧
    cost_function ⟨(2 + Real.sqrt 2) / 4, ⟨1 / 2, 1 / 2⟩, 0, square_points⟩ square_points
      = (5 - 2 * Real.sqrt 2) / 2 ∧
    (5 - 2 * Real.sqrt 2) / 2 < 11 / 10 ∧
    compute_best_fit_circle (construct square_points 0)
      = Except.ok (true, square_fitter (square_ratio 21)) ∧
    cost_function (square_fitter (square_ratio 21)) square_points
      = (square_fitter (square_ratio 21)).cost ∧
    13 / 10 < cost_function (square_fitter (square_ratio 21)) square_points := by
  have hb := sqrt_two_bounds
  have hw := sqrt_two_sq
  have hrad := square_radius 0 0
  have hr : ((0 : ℝ) + (2 + Real.sqrt 2)) / 4 = (2 + Real.sqrt 2) / 4 := by ring
  rw [hr] at hrad
  have hcost : cost_function ⟨(2 + Real.sqrt 2) / 4, ⟨1 / 2, 1 / 2⟩, 0, square_points⟩
      square_points = (5 - 2 * Real.sqrt 2) / 2 := by
    rw [square_cost]
    ring_nf
    rw [hw]
    ring
  have hfinal : cost_function (square_fitter (square_ratio 21)) square_points
      = (square_fitter (square_ratio 21)).cost := by
    simp only [square_fitter, square_cost]
    ring_nf
    rw [hw]
    ring
  have hq : ((-223 / 1000 : ℚ) : ℝ) < ((square_q 21 : ℚ) : ℝ) := Rat.cast_lt.mpr square_q_final
  push_cast at hq
  refine ⟨by decide, square_not_collinear, square_points_estimate, hrad, hcost,
    by linarith [hb.1], square_points_run, hfinal, ?_⟩
  rw [hfinal, square_fitter_cost]
  nlinarith [hb.1, hb.2]

/-! ## The initial estimate of points on one circle -/

/-- C21: for at least three distinct integer points on the circle of centre
`(a, b)`, no triplet `i < j < k` meets the degeneracy test, the circumcentre
that `calculate_circumcenter` computes for every triplet is `(a, b)`, the mean
of these circumcentres is `(a, b)`, and `initial_estimate` on a freshly
constructed fitter returns `(a, b)` and stores it as the centre estimate. -/
theorem C21_initial_estimate_is_circle_centre (points : List Point) (cost0 : ℝ) (a b r : ℝ)
    (hn : 3 ≤ points.length) (hnd : points.Nodup) (hon : on_circle points a b r) :
    (∀ i j k, i < j → j < k → k < points.length →
      ¬ |triplet_delta (point_at points i) (point_at points j) (point_at points k)| < 1.0e-10 ∧
      calculate_circumcenter (point_at points i) (point_at points j) (point_at points k)
        (triplet_delta (point_at points i) (point_at points j) (point_at points k))
        = Except.ok ⟨a, b⟩) ∧
    (∑ t in increasing_triples points.length,
        (circumcenter_of (point_at points t.1) (point_at points t.2.1) (point_at points t.2.2)).x)
      / (points.length.choose 3 : ℕ) = a ∧
    (∑ t in increasing_triples points.length,
        (circumcenter_of (point_at points t.1) (point_at points t.2.1) (point_at points t.2.2)).y)
      / (points.length.choose 3 : ℕ) = b ∧
    initial_estimate (construct points cost0) points = Except.ok
      (⟨a, b⟩, { construct points cost0 with circle_center_est := ⟨a, b⟩ }) := by
  have hdelta : ∀ i j k, i < j → j < k → k < points.length →
      triplet_delta (point_at points i) (point_at points j) (point_at points k) ≠ 0 := by
    intro i j k hij hjk hk
    exact triplet_delta_ne_zero_of_on_circle _ _ _ a b r
      (hon _ (point_at_mem _ _ (by omega))) (hon _ (point_at_mem _ _ (by omega)))
      (hon _ (point_at_mem _ _ hk))
      (point_at_ne_of_nodup _ hnd _ _ hij (by omega))
      (point_at_ne_of_nodup _ hnd _ _ hjk hk)
      (point_at_ne_of_nodup _ hnd _ _ (by omega) hk)
  have hcc : ∀ t ∈ increasing_triples points.length,
      circumcenter_of (point_at points t.1) (point_at points t.2.1) (point_at points t.2.2)
        = ⟨a, b⟩ := by
    intro t ht
    rw [mem_increasing_triples] at ht
    exact circumcenter_of_on_circle _ _ _ a b r
      (hon _ (point_at_mem _ _ (by omega))) (hon _ (point_at_mem _ _ (by omega)))
      (hon _ (point_at_mem _ _ ht.2.2)) (hdelta _ _ _ ht.1 ht.2.1 ht.2.2)
  have hq : ((points.length.choose 3 : ℕ) : ℝ) ≠ 0 := by
    have : 0 < points.length.choose 3 := Nat.choose_pos hn
    exact_mod_cast this.ne'
  refine ⟨?_, ?_, ?_, initial_estimate_on_circle (construct points cost0) points a b r rfl hn hnd hon⟩
  · intro i j k hij hjk hk
    have hd := hdelta i j k hij hjk hk
    refine ⟨fun h => triplet_delta_not_small _ _ _ hd h, ?_⟩
    rw [calculate_circumcenter_eq _ _ _ hd]
    congr 1
    exact circumcenter_of_on_circle _ _ _ a b r
      (hon _ (point_at_mem _ _ (by omega))) (hon _ (point_at_mem _ _ (by omega)))
      (hon _ (point_at_mem _ _ hk)) hd
  · rw [Finset.sum_congr rfl (fun t ht => congrArg Circle_Center.x (hcc t ht)),
      Finset.sum_const, card_increasing_triples, nsmul_eq_mul]
    field_simp
  · rw [Finset.sum_congr rfl (fun t ht => congrArg Circle_Center.y (hcc t ht)),
      Finset.sum_const, card_increasing_triples, nsmul_eq_mul]
    field_simp

/-- C21 at the corners of the unit square, which lie on the circle of centre
(1/2, 1/2) and radius √2/2. -/
theorem C21_initial_estimate_is_circle_centre_witness :
    (3 ≤ square_points.length ∧ square_points.Nodup ∧
      on_circle square_points (1 / 2) (1 / 2) (Real.sqrt 2 / 2)) ∧
    (∀ i j k, i < j → j < k → k < square_points.length →
      ¬ |triplet_delta (point_at square_points i) (point_at square_points j)
          (point_at square_points k)| < 1.0e-10 ∧
      calculate_circumcenter (point_at square_points i) (point_at square_points j)
        (point_at square_points k)
        (triplet_delta (point_at square_points i) (point_at square_points j)
          (point_at square_points k))
        = Except.ok ⟨1 / 2, 1 / 2⟩) ∧
    (∑ t in increasing_triples square_points.length,
        (circumcenter_of (point_at square_points t.1) (point_at square_points t.2.1)
          (point_at square_points t.2.2)).x)
      / (square_points.length.choose 3 : ℕ) = 1 / 2 ∧
    (∑ t in increasing_triples square_points.length,
        (circumcenter_of (point_at square_points t.1) (point_at square_points t.2.1)
          (point_at square_points t.2.2)).y)
      / (square_points.length.choose 3 : ℕ) = 1 / 2 ∧
    initial_estimate (construct square_points 0) square_points = Except.ok
      (⟨1 / 2, 1 / 2⟩, { construct square_points 0 with circle_center_est := ⟨1 / 2, 1 / 2⟩ }) :=
  ⟨⟨by decide, by decide, square_on_circle⟩,
    C21_initial_estimate_is_circle_centre square_points 0 (1 / 2) (1 / 2) (Real.sqrt 2 / 2)
      (by decide) (by decide) square_on_circle⟩

/-! ## The centre test of `compute_best_fit_circle` -/

theorem initial_estimate_cost (s s1 : Best_Fitting_Circle) (points : List Point)
    (c : Circle_Center) (h : initial_estimate s points = Except.ok (c, s1)) :
    s1.cost = s.cost := by
  unfold initial_estimate at h
  split at h
  · cases h
  · split at h
    · cases h
    · simp only [Except.ok.injEq, Prod.mk.injEq] at h
      rw [← h.2]
    · split at h
      · simp only [Except.ok.injEq, Prod.mk.injEq] at h
        rw [← h.2]
      · cases h
      · cases h

theorem rejected_circle_on_circle : on_circle rejected_circle_points (-5) (-5) 10 := by
  intro p hp
  simp only [rejected_circle_points, List.mem_cons, List.mem_singleton, List.not_mem_nil,
    or_false] at hp
  rcases hp with rfl | rfl | rfl | rfl <;> norm_num

/-- C24: when the centre that `initial_estimate` returns has `x <= -1` or
`y <= -1`, `compute_best_fit_circle` returns false with the fitter as
`initial_estimate` left it: the radius estimate and the cost are the ones
stored before the call, no radius having been computed and `converge` not
having been entered. -/
theorem C24_low_centre_is_rejected (s s1 : Best_Fitting_Circle) (c : Circle_Center)
    (hinit : initial_estimate s s.selected_points = Except.ok (c, s1))
    (hc : c.x ≤ -1 ∨ c.y ≤ -1) :
    compute_best_fit_circle s = Except.ok (false, s1) ∧
    s1.radius_estimate = s.radius_estimate ∧ s1.cost = s.cost := by
  refine ⟨fit_rejected_of_estimate s s1 c hinit ?_, initial_estimate_radius s s1 _ c hinit,
    initial_estimate_cost s s1 _ c hinit⟩
  rintro ⟨hx, hy⟩
  rcases hc with h | h <;> linarith

/-- C24 at the points (-15,-5), (-5,5), (5,-5), (-5,-15): four distinct points
of the circle of centre (-5,-5) and radius 10, for which `initial_estimate`
returns (-5,-5) and `compute_best_fit_circle` returns false, radius and cost
being still 0. -/
theorem C24_low_centre_is_rejected_witness :
    (3 ≤ rejected_circle_points.length ∧ rejected_circle_points.Nodup ∧
      on_circle rejected_circle_points (-5) (-5) 10) ∧
    initial_estimate (construct rejected_circle_points 0)
      (construct rejected_circle_points 0).selected_points = Except.ok
      (⟨-5, -5⟩, { construct rejected_circle_points 0 with circle_center_est := ⟨-5, -5⟩ }) ∧
    compute_best_fit_circle (construct rejected_circle_points 0) = Except.ok
      (false, { construct rejected_circle_points 0 with circle_center_est := ⟨-5, -5⟩ }) ∧
    ({ construct rejected_circle_points 0 with
        circle_center_est := ⟨-5, -5⟩ } : Best_Fitting_Circle).radius_estimate
      = (construct rejected_circle_points 0).radius_estimate ∧
    ({ construct rejected_circle_points 0 with
        circle_center_est := ⟨-5, -5⟩ } : Best_Fitting_Circle).cost
      = (construct rejected_circle_points 0).cost :=
  ⟨⟨by decide, by decide, rejected_circle_on_circle⟩,
    initial_estimate_on_circle _ rejected_circle_points (-5) (-5) 10 rfl (by decide) (by decide)
      rejected_circle_on_circle,
    C24_low_centre_is_rejected (construct rejected_circle_points 0)
      { construct rejected_circle_points 0 with circle_center_est := ⟨-5, -5⟩ } ⟨-5, -5⟩
      (initial_estimate_on_circle _ rejected_circle_points (-5) (-5) 10 rfl (by decide)
        (by decide) rejected_circle_on_circle)
      (Or.inl (by norm_num))⟩

/-! ## The counter that the two loops of `converge` share -/

theorem converge_loop_passes_eq (s : Best_Fitting_Circle) (g pg up : Gradient) (i : ℕ) :
    converge_loop_passes s g pg up i =
      if i < 100 then
        match search_direction g pg up i with
        | Except.error _ => []
        | Except.ok u =>
          match line_search s u i with
          | Except.error _ =>
            [⟨i, g, pg, u, (line_search_traced s u i).2, line_search_states s u i⟩]
          | Except.ok (s1, previous_cost, i1) =>
            if relative_change_small s1.cost previous_cost then
              [⟨i, g, pg, u, (line_search_traced s u i).2, line_search_states s u i⟩]
            else
              ⟨i, g, pg, u, (line_search_traced s u i).2, line_search_states s u i⟩ ::
                converge_loop_passes s1 g g u (i1 + 1)
      else [] := by
  rw [converge_loop_passes]
  split
  · split
    · rfl
    · rename_i u hu
      split
      · rename_i e he
        simp only [he]
      · rename_i s1 pc i1 he
        simp only [he]
  · rfl

/-- The counter at the exit of the `do` loop is the counter at its entry plus
the number of executions of its body. -/
theorem line_search_traced_exit (s : Best_Fitting_Circle) (u : Gradient) (i : ℕ)
    (r : Best_Fitting_Circle × ℝ × ℕ) (h : line_search s u i = Except.ok r) :
    r.2.2 = i + (line_search_traced s u i).2 := by
  induction s, u, i using line_search.induct with
  | case1 s u i e he =>
    rw [line_search, he] at h
    cases h
  | case2 s u i s1 hs hc ih =>
    rw [line_search, hs] at h
    simp only [hc, and_self, if_true] at h
    rw [line_search_traced, hs]
    simp only [hc, and_self, if_true]
    have := ih h
    omega
  | case3 s u i s1 hs hc =>
    rw [line_search, hs] at h
    simp only [hc, if_false] at h
    cases h
    rw [line_search_traced, hs]
    simp only [hc, if_false]

/-- A `do` loop entered with the counter at 9 or more runs its body once. -/
theorem line_search_traced_late (s : Best_Fitting_Circle) (u : Gradient) (i : ℕ) (hi : 9 ≤ i) :
    (line_search_traced s u i).2 = 1 := by
  rcases line_search_traced_count s u i with h | h
  · omega
  · exact h

theorem converge_loop_passes_budget (n : ℕ) :
    ∀ (s : Best_Fitting_Circle) (g pg up : Gradient) (i : ℕ), 100 - i ≤ n →
      ((converge_loop_passes s g pg up i).map Pass.steps).sum ≤ steps_budget i ∧
      ∀ p ∈ converge_loop_passes s g pg up i, i ≤ p.start ∧ (9 ≤ p.start → p.steps = 1) := by
  induction n with
  | zero =>
    intro s g pg up i hn
    rw [converge_loop_passes_eq, if_neg (by omega)]
    simp
  | succ n ih =>
    intro s g pg up i hn
    rw [converge_loop_passes_eq]
    by_cases hi : i < 100
    · simp only [hi, if_true]
      cases hu : search_direction g pg up i with
      | error e => simp
      | ok u =>
        simp only
        have hcount := line_search_traced_count s u i
        have hlate := line_search_traced_late s u i
        have hone : (line_search_traced s u i).2 ≤ steps_budget i := by
          unfold steps_budget
          split <;> omega
        cases hls : line_search s u i with
        | error e =>
          simp only [List.map_cons, List.map_nil, List.sum_cons, List.sum_nil, add_zero,
            List.mem_singleton]
          refine ⟨hone, ?_⟩
          intro p hp
          subst hp
          exact ⟨le_refl _, hlate⟩
        | ok r =>
          obtain ⟨s1, pc, i1⟩ := r
          have hexit := line_search_traced_exit s u i _ hls
          simp only at hexit
          simp only
          by_cases ht : relative_change_small s1.cost pc
          · simp only [ht, if_true, List.map_cons, List.map_nil, List.sum_cons, List.sum_nil,
              add_zero, List.mem_singleton]
            refine ⟨hone, ?_⟩
            intro p hp
            subst hp
            exact ⟨le_refl _, hlate⟩
          · simp only [ht, if_false, List.map_cons, List.sum_cons, List.mem_cons]
            obtain ⟨h1, h2⟩ := ih s1 g g u (i1 + 1) (by omega)
            constructor
            · have hb : (line_search_traced s u i).2 + steps_budget (i1 + 1) ≤ steps_budget i := by
                rw [hexit]
                unfold steps_budget
                split <;> split <;> omega
              omega
            · intro p hp
              rcases hp with hp | hp
              · subst hp
                exact ⟨le_refl _, hlate⟩
              · have := h2 p hp
                exact ⟨by omega, this.2⟩
    · simp only [hi, if_false]
      simp

/-- The steps recorded pass by pass are the steps that the log of
`converge_loop_traced` records. -/
theorem converge_loop_passes_steps (n : ℕ) :
    ∀ (s : Best_Fitting_Circle) (g pg up : Gradient) (i : ℕ), 100 - i ≤ n →
      (converge_loop_passes s g pg up i).map Pass.steps
        = (converge_loop_traced s g pg up i).2.map Prod.fst := by
  induction n with
  | zero =>
    intro s g pg up i hn
    rw [converge_loop_passes_eq, converge_loop_traced_eq, if_neg (by omega), if_neg (by omega)]
    rfl
  | succ n ih =>
    intro s g pg up i hn
    rw [converge_loop_passes_eq, converge_loop_traced_eq]
    by_cases hi : i < 100
    · simp only [hi, if_true]
      cases hu : search_direction g pg up i with
      | error e => rfl
      | ok u =>
        simp only
        cases hls : line_search s u i with
        | error e => rfl
        | ok r =>
          obtain ⟨s1, pc, i1⟩ := r
          have hc := line_search_counter s u i _ hls
          simp only at hc
          simp only
          by_cases ht : relative_change_small s1.cost pc
          · simp only [ht, if_true]
            rfl
          · simp only [ht, if_false, List.map_cons]
            rw [ih s1 g g u (i1 + 1) (by omega)]
    · simp only [hi, if_false]
      rfl

/-- Along a run that exhausts the budget of `converge` (the hypotheses of
`converge_loop_exhausted`), the first pass makes ten line-search steps and each
of the 45 passes entered at `i = 11, 13, ..., 99` makes one: 55 in all. -/
theorem converge_loop_passes_exhausted (S : ℕ → Best_Fitting_Circle) (g u : Gradient)
    (hstep : ∀ k, k < 55 → line_search_step (S k) u = Except.ok (S (k + 1)))
    (hcont : ∀ k, k < 9 → line_search_continues (S (k + 1)).cost (S k).cost)
    (hnot : ∀ k, 9 ≤ k → k < 55 → ¬ relative_change_small (S (k + 1)).cost (S k).cost)
    (hdir0 : search_direction g g ⟨0, 0⟩ 0 = Except.ok u)
    (hdir : ∀ i, 0 < i → search_direction g g u i = Except.ok u) :
    ((converge_loop_passes (S 0) g g ⟨0, 0⟩ 0).map Pass.steps).sum = 55 := by
  have rest : ∀ j, j ≤ 45 →
      ((converge_loop_passes (S (55 - j)) g g u (101 - 2 * j)).map Pass.steps).sum = j := by
    intro j
    induction j with
    | zero =>
      intro _
      rw [converge_loop_passes_eq]
      simp
    | succ j ih =>
      intro hj
      have hlt : 101 - 2 * (j + 1) < 100 := by omega
      have hk : 55 - (j + 1) + 1 = 55 - j := by omega
      have hi : 101 - 2 * (j + 1) + 1 + 1 = 101 - 2 * j := by omega
      have hs := hstep (55 - (j + 1)) (by omega)
      rw [hk] at hs
      have hn := hnot (55 - (j + 1)) (by omega) (by omega)
      rw [hk] at hn
      rw [converge_loop_passes_eq, if_pos hlt, hdir _ (by omega)]
      simp only [line_search_last (S (55 - (j + 1))) (S (55 - j)) u (101 - 2 * (j + 1))
        (by omega) hs, hn, if_false, hi, List.map_cons, List.sum_cons,
        line_search_traced_late _ u (101 - 2 * (j + 1)) (by omega), ih (by omega)]
      omega
  have hf := line_search_ten_steps S u (fun k hk => hstep k (by omega)) hcont
  have hten := line_search_traced_exit (S 0) u 0 _ hf
  simp only [zero_add] at hten
  have h10 := hnot 9 (le_refl 9) (by norm_num)
  rw [converge_loop_passes_eq, if_pos (by norm_num), hdir0]
  simp only [hf, h10, if_false, List.map_cons, List.sum_cons, ← hten]
  have := rest 45 (le_refl 45)
  simp only [Nat.reduceMul, Nat.reduceSub] at this
  rw [this]

/-- On `exhaust_points` the call of `converge` makes 55 line-search steps. -/
theorem exhaust_points_steps :
    ((converge_passes ⟨4, ⟨0, 0⟩, 34, exhaust_points⟩ ⟨68, 0⟩).map Pass.steps).sum = 55 := by
  have hs0 : (⟨4, ⟨0, 0⟩, 34, exhaust_points⟩ : Best_Fitting_Circle)
      = axis_fitter (axis_state 0) := by
    simp [axis_fitter, axis_state]
  have hsqrt : Real.sqrt ((68 : ℝ) ^ 2 + 0 ^ 2) = 68 :=
    sqrt_eq_of_sq _ _ (by norm_num) (by norm_num)
  rw [converge_passes, if_neg, hs0]
  · apply converge_loop_passes_exhausted (fun k => axis_fitter (axis_state k)) ⟨68, 0⟩ ⟨-68, 0⟩
    · exact axis_step_real
    · intro k hk
      exact axis_continues k (by omega)
    · intro k _ hk
      exact axis_change_not_small k hk
    · norm_num [search_direction]
    · intro i hi
      simp only [search_direction, hi, if_true]
      rw [fdiv_ok _ _ _ (by norm_num)]
      norm_num
  · rw [hsqrt]
    norm_num

/-- C23: the counter `i` is shared by the `for` loop and the `do` loop of
`converge`, so that one call executes the body of the `do` loop, with its call
of `compute_lambda`, at most 55 times in all, and a pass of the `for` loop
entered with `i >= 10` executes it exactly once.  The steps counted are those
of the log of `converge_traced`, and the bound is reached: the call on
`exhaust_points` makes 55 steps. -/
theorem C23_at_most_55_steps (s : Best_Fitting_Circle) (g : Gradient) :
    ((converge_passes s g).map Pass.steps).sum ≤ 55 ∧
    (∀ p ∈ converge_passes s g, 10 ≤ p.start → p.steps = 1) ∧
    (converge_passes s g).map Pass.steps = (converge_traced s g).2.map Prod.fst ∧
    ((converge_passes ⟨4, ⟨0, 0⟩, 34, exhaust_points⟩ ⟨68, 0⟩).map Pass.steps).sum = 55 := by
  refine ⟨?_, ?_, ?_, exhaust_points_steps⟩
  all_goals
    unfold converge_passes
    by_cases h0 : s.cost < 1.0e-10 ∨ Real.sqrt (g.x ^ 2 + g.y ^ 2) < 1.0e-10
  · simp only [h0, if_true]
    simp
  · simp only [h0, if_false]
    exact (converge_loop_passes_budget 100 s g g ⟨0, 0⟩ 0 (by omega)).1
  · simp only [h0, if_true]
    simp
  · simp only [h0, if_false]
    intro p hp h10
    exact ((converge_loop_passes_budget 100 s g g ⟨0, 0⟩ 0 (by omega)).2 p hp).2 (by omega)
  · simp only [converge_traced, h0, if_true]
    simp
  · simp only [converge_traced, h0, if_false]
    exact converge_loop_passes_steps 100 s g g ⟨0, 0⟩ 0 (by omega)

/-! ## The direction of every pass of `converge` -/

theorem compute_radius_estimate_centre (s s1 : Best_Fitting_Circle) (points : List Point)
    (r : ℝ) (h : compute_radius_estimate s points = Except.ok (r, s1)) :
    s1.circle_center_est = s.circle_center_est := by
  unfold compute_radius_estimate at h
  simp only at h
  split at h
  · cases h
  · simp only [Except.ok.injEq, Prod.mk.injEq] at h
    rw [← h.2]

/-- A line-search step moves the centre along the direction `u`. -/
theorem line_search_step_centre (s s1 : Best_Fitting_Circle) (u : Gradient)
    (h : line_search_step s u = Except.ok s1) :
    ∃ t : ℝ, s1.circle_center_est
      = ⟨s.circle_center_est.x + t * u.x, s.circle_center_est.y + t * u.y⟩ := by
  unfold line_search_step at h
  split at h
  · cases h
  · rename_i lambda hl
    simp only at h
    split at h
    · cases h
    · rename_i r s2 hrad
      simp only [Except.ok.injEq] at h
      subst h
      have := compute_radius_estimate_centre _ s2 _ r hrad
      simp only at this
      exact ⟨lambda, this⟩

theorem on_gradient_line_step (c0 c c1 : Circle_Center) (u : Gradient)
    (h : on_gradient_line c0 u c)
    (h1 : ∃ t : ℝ, c1 = ⟨c.x + t * u.x, c.y + t * u.y⟩) : on_gradient_line c0 u c1 := by
  obtain ⟨t0, rfl⟩ := h
  obtain ⟨t, rfl⟩ := h1
  refine ⟨t0 + t, ?_⟩
  congr 1 <;> ring

theorem on_gradient_line_neg (c0 c : Circle_Center) (g : Gradient) :
    on_gradient_line c0 ⟨-g.x, -g.y⟩ c ↔ on_gradient_line c0 g c := by
  constructor
  · rintro ⟨t, rfl⟩
    refine ⟨-t, ?_⟩
    congr 1 <;> ring
  · rintro ⟨t, rfl⟩
    refine ⟨-t, ?_⟩
    congr 1 <;> ring

/-- Every state that the `do` loop passes through has its centre on the line
through the centre at its entry in the direction `u`. -/
theorem line_search_states_line (c0 : Circle_Center) (s : Best_Fitting_Circle) (u : Gradient)
    (i : ℕ) : on_gradient_line c0 u s.circle_center_est →
      ∀ s1 ∈ line_search_states s u i, on_gradient_line c0 u s1.circle_center_est := by
  induction s, u, i using line_search.induct with
  | case1 s u i e he =>
    intro _ s1 h1
    rw [line_search_states, he] at h1
    simp at h1
  | case2 s u i s1 hs hc ih =>
    intro h0 s2 h2
    have hstep := on_gradient_line_step c0 _ _ u h0 (line_search_step_centre s s1 u hs)
    rw [line_search_states, hs] at h2
    simp only [hc, and_self, if_true, List.mem_cons] at h2
    rcases h2 with h2 | h2
    · rw [h2]
      exact hstep
    · exact ih hstep s2 h2
  | case3 s u i s1 hs hc =>
    intro h0 s2 h2
    have hstep := on_gradient_line_step c0 _ _ u h0 (line_search_step_centre s s1 u hs)
    rw [line_search_states, hs] at h2
    simp only [hc, if_false, List.mem_singleton] at h2
    rw [h2]
    exact hstep

theorem line_search_line (c0 : Circle_Center) (s : Best_Fitting_Circle) (u : Gradient)
    (i : ℕ) : on_gradient_line c0 u s.circle_center_est →
      ∀ r, line_search s u i = Except.ok r → on_gradient_line c0 u r.1.circle_center_est := by
  induction s, u, i using line_search.induct with
  | case1 s u i e he =>
    intro _ r h
    rw [line_search, he] at h
    cases h
  | case2 s u i s1 hs hc ih =>
    intro h0 r h
    have hstep := on_gradient_line_step c0 _ _ u h0 (line_search_step_centre s s1 u hs)
    rw [line_search, hs] at h
    simp only [hc, and_self, if_true] at h
    exact ih hstep r h
  | case3 s u i s1 hs hc =>
    intro h0 r h
    have hstep := on_gradient_line_step c0 _ _ u h0 (line_search_step_centre s s1 u hs)
    rw [line_search, hs] at h
    simp only [hc, if_false] at h
    cases h
    exact hstep

/-- With the stored previous gradient equal to the gradient, the numerator of
`beta` is zero, and the direction of a pass is the negated gradient as soon as
the divisor of `beta` is not zero. -/
theorem search_direction_same_gradient (g up : Gradient) (i : ℕ)
    (hden : g.x * g.x + g.y + g.y ≠ 0) :
    search_direction g g up i = Except.ok ⟨-g.x, -g.y⟩ := by
  unfold search_direction
  split
  · rw [fdiv_ok _ _ _ hden]
    simp only
    congr 2 <;> ring
  · simp only
    congr 2 <;> ring

theorem converge_loop_passes_gradient (n : ℕ) :
    ∀ (s : Best_Fitting_Circle) (g up : Gradient) (i : ℕ), 100 - i ≤ n →
      ∀ p ∈ converge_loop_passes s g g up i, p.cost_gradient = g ∧ p.previous = g := by
  induction n with
  | zero =>
    intro s g up i hn
    rw [converge_loop_passes_eq, if_neg (by omega)]
    simp
  | succ n ih =>
    intro s g up i hn
    rw [converge_loop_passes_eq]
    by_cases hi : i < 100
    · simp only [hi, if_true]
      cases hu : search_direction g g up i with
      | error e => simp
      | ok u =>
        simp only
        cases hls : line_search s u i with
        | error e =>
          simp only [List.mem_singleton]
          intro p hp
          subst hp
          exact ⟨rfl, rfl⟩
        | ok r =>
          obtain ⟨s1, pc, i1⟩ := r
          have hc := line_search_counter s u i _ hls
          simp only at hc
          simp only
          by_cases ht : relative_change_small s1.cost pc
          · simp only [ht, if_true, List.mem_singleton]
            intro p hp
            subst hp
            exact ⟨rfl, rfl⟩
          · simp only [ht, if_false, List.mem_cons]
            intro p hp
            rcases hp with hp | hp
            · subst hp
              exact ⟨rfl, rfl⟩
            · exact ih s1 g u (i1 + 1) (by omega) p hp
    · simp only [hi, if_false]
      simp

theorem converge_loop_passes_line (c0 : Circle_Center) (g : Gradient)
    (hden : g.x * g.x + g.y + g.y ≠ 0) (n : ℕ) :
    ∀ (s : Best_Fitting_Circle) (up : Gradient) (i : ℕ), 100 - i ≤ n →
      on_gradient_line c0 g s.circle_center_est →
      (∀ p ∈ converge_loop_passes s g g up i, p.direction = ⟨-g.x, -g.y⟩ ∧
        ∀ s1 ∈ p.states, on_gradient_line c0 g s1.circle_center_est) ∧
      ∀ (b : Bool) (s1 : Best_Fitting_Circle), converge_loop s g g up i = Except.ok (b, s1) →
        on_gradient_line c0 g s1.circle_center_est := by
  induction n with
  | zero =>
    intro s up i hn h0
    rw [converge_loop_passes_eq, converge_loop_eq, if_neg (by omega), if_neg (by omega)]
    refine ⟨by simp, ?_⟩
    intro b s1 h
    simp only [Except.ok.injEq, Prod.mk.injEq] at h
    rw [← h.2]
    exact h0
  | succ n ih =>
    intro s up i hn h0
    rw [converge_loop_passes_eq, converge_loop_eq]
    by_cases hi : i < 100
    · simp only [hi, if_true, search_direction_same_gradient g up i hden]
      have h0n := (on_gradient_line_neg c0 _ g).mpr h0
      have hstates : ∀ s1 ∈ line_search_states s ⟨-g.x, -g.y⟩ i,
          on_gradient_line c0 g s1.circle_center_est := fun s1 h1 =>
        (on_gradient_line_neg c0 _ g).mp (line_search_states_line c0 s _ i h0n s1 h1)
      cases hls : line_search s ⟨-g.x, -g.y⟩ i with
      | error e =>
        simp only [List.mem_singleton]
        refine ⟨?_, fun b s1 h => by cases h⟩
        intro p hp
        subst hp
        exact ⟨rfl, hstates⟩
      | ok r =>
        obtain ⟨s1, pc, i1⟩ := r
        have hc := line_search_counter s _ i _ hls
        have h1 := (on_gradient_line_neg c0 _ g).mp (line_search_line c0 s _ i h0n _ hls)
        simp only at hc h1
        simp only
        by_cases ht : relative_change_small s1.cost pc
        · simp only [ht, if_true, List.mem_singleton]
          constructor
          · intro p hp
            subst hp
            exact ⟨rfl, hstates⟩
          · intro b s2 h
            simp only [Except.ok.injEq, Prod.mk.injEq] at h
            rw [← h.2]
            exact h1
        · simp only [ht, if_false, List.mem_cons]
          obtain ⟨ih1, ih2⟩ := ih s1 ⟨-g.x, -g.y⟩ (i1 + 1) (by omega) h1
          constructor
          · intro p hp
            rcases hp with hp | hp
            · subst hp
              exact ⟨rfl, hstates⟩
            · exact ih1 p hp
          · exact ih2
    · simp only [hi, if_false]
      refine ⟨by simp, ?_⟩
      intro b s1 h
      simp only [Except.ok.injEq, Prod.mk.injEq] at h
      rw [← h.2]
      exact h0

/-- When the `do` loop returns, no step of it has divided by zero, and the
record of its states has one state for every execution of its body. -/
theorem line_search_states_length (s : Best_Fitting_Circle) (u : Gradient) (i : ℕ)
    (r : Best_Fitting_Circle × ℝ × ℕ) (h : line_search s u i = Except.ok r) :
    (line_search_states s u i).length = (line_search_traced s u i).2 := by
  induction s, u, i using line_search.induct with
  | case1 s u i e he =>
    rw [line_search, he] at h
    cases h
  | case2 s u i s1 hs hc ih =>
    rw [line_search, hs] at h
    simp only [hc, and_self, if_true] at h
    rw [line_search_states, line_search_traced, hs]
    simp only [hc, and_self, if_true, List.length_cons]
    rw [ih h]
  | case3 s u i s1 hs hc =>
    rw [line_search_states, line_search_traced, hs]
    simp only [hc, if_false, List.length_singleton]

/-- When the loop of `converge` returns, no division by zero has been executed
in the run, and the record of every pass has one state for every execution of
the body of its `do` loop. -/
theorem converge_loop_passes_complete (n : ℕ) :
    ∀ (s : Best_Fitting_Circle) (g pg up : Gradient) (i : ℕ), 100 - i ≤ n →
      ∀ (b : Bool) (s1 : Best_Fitting_Circle),
        converge_loop s g pg up i = Except.ok (b, s1) →
        ∀ p ∈ converge_loop_passes s g pg up i, p.states.length = p.steps := by
  induction n with
  | zero =>
    intro s g pg up i hn b s1 _
    rw [converge_loop_passes_eq, if_neg (by omega)]
    simp
  | succ n ih =>
    intro s g pg up i hn b s1 h
    rw [converge_loop_eq] at h
    rw [converge_loop_passes_eq]
    by_cases hi : i < 100
    · simp only [hi, if_true] at h ⊢
      cases hu : search_direction g pg up i with
      | error e => simp
      | ok u =>
        rw [hu] at h
        simp only at h ⊢
        cases hls : line_search s u i with
        | error e =>
          rw [hls] at h
          cases h
        | ok r =>
          obtain ⟨s2, pc, i1⟩ := r
          have hc := line_search_counter s u i _ hls
          have hlen := line_search_states_length s u i _ hls
          rw [hls] at h
          simp only at hc h ⊢
          by_cases ht : relative_change_small s2.cost pc
          · simp only [ht, if_true, List.mem_singleton]
            intro p hp
            subst hp
            exact hlen
          · simp only [ht, if_false, List.mem_cons] at h ⊢
            intro p hp
            rcases hp with hp | hp
            · subst hp
              exact hlen
            · exact ih s2 g g u (i1 + 1) (by omega) b s1 h p hp
    · simp only [hi, if_false]
      simp

/-- C22 (counterexample): on the points (0,0), (5,0), (10,0) `converge` is
entered with the centre (0,0), the radius 5, the cost 50 and the gradient
(-100, 0), whose divisor of `beta` is 10000.  The direction of the first pass
is the negated gradient (100, 0), and the first line-search step divides by
the zero distance between the point (0,0) and the centre: the step length and
the centre that it is added to are no longer numbers, and no state with a
centre on the line through (0,0) is reached.  One step is executed and no
state is recorded. -/
theorem C22_axis_points_step_divides_by_zero :
    ((-100 : ℝ) * (-100) + 0 + 0 ≠ 0) ∧
    compute_best_fit_circle (construct axis_points 0) = Except.error Fault.lambda_distance ∧
    search_direction ⟨-100, 0⟩ ⟨-100, 0⟩ ⟨0, 0⟩ 0 = Except.ok ⟨100, 0⟩ ∧
    line_search_step ⟨5, ⟨0, 0⟩, 50, axis_points⟩ ⟨100, 0⟩
      = Except.error Fault.lambda_distance ∧
    converge ⟨5, ⟨0, 0⟩, 50, axis_points⟩ ⟨-100, 0⟩ = Except.error Fault.lambda_distance ∧
    converge_passes ⟨5, ⟨0, 0⟩, 50, axis_points⟩ ⟨-100, 0⟩
      = [⟨0, ⟨-100, 0⟩, ⟨-100, 0⟩, ⟨100, 0⟩, 1, []⟩] := by
  have hu : search_direction ⟨-100, 0⟩ ⟨-100, 0⟩ ⟨0, 0⟩ 0 = Except.ok ⟨100, 0⟩ := by
    norm_num [search_direction]
  have hstep : line_search_step ⟨5, ⟨0, 0⟩, 50, axis_points⟩ ⟨100, 0⟩
      = Except.error Fault.lambda_distance := by
    norm_num [line_search_step, compute_lambda, lambda_loop, axis_points]
  have hls : line_search ⟨5, ⟨0, 0⟩, 50, axis_points⟩ ⟨100, 0⟩ 0
      = Except.error Fault.lambda_distance := by
    rw [line_search, hstep]
  have hs : Real.sqrt ((-100 : ℝ) ^ 2 + 0 ^ 2) = 100 :=
    sqrt_eq_of_sq _ _ (by norm_num) (by norm_num)
  have hentry : ¬ ((50 : ℝ) < 1.0e-10 ∨ Real.sqrt ((-100 : ℝ) ^ 2 + 0 ^ 2) < 1.0e-10) := by
    rw [hs]
    norm_num
  refine ⟨by norm_num, axis_points_reach_line_search, hu, hstep, ?_, ?_⟩
  · rw [converge, if_neg hentry, converge_loop_eq, if_pos (by norm_num), hu]
    simp only [hls]
  · rw [converge_passes, if_neg hentry, converge_loop_passes_eq, if_pos (by norm_num), hu]
    simp only [hls]
    rw [line_search_traced, line_search_states, hstep]

/-- C22 (amended): in every pass of the `for` loop of `converge` the gradient is
the gradient that the call was given and the stored previous gradient is equal
to it, so that the numerator of `beta` is zero.  When the divisor of `beta`,
`g.x * g.x + g.y + g.y`, is not zero, `beta` is zero and the direction of every
pass is the negated initial gradient; every state reached before a division by
zero has its centre on the straight line through the initial centre in the
direction of the initial gradient; and when no division by zero is executed,
so that `converge` returns, every execution of the body of the `do` loop has
its state in the record, all of them with the centre on that line, and so has
the state returned. -/
theorem C22_gradient_is_never_updated (s : Best_Fitting_Circle) (g : Gradient) :
    (∀ p ∈ converge_passes s g, p.cost_gradient = g ∧ p.previous = g ∧
      p.cost_gradient.x * (p.cost_gradient.x - p.previous.x)
        + p.cost_gradient.y * (p.cost_gradient.y - p.previous.y) = 0) ∧
    (g.x * g.x + g.y + g.y ≠ 0 →
      beta_of_converge g g = Except.ok 0 ∧
      (∀ (u_prev : Gradient) (i : ℕ),
        search_direction g g u_prev i = Except.ok ⟨-g.x, -g.y⟩) ∧
      (∀ p ∈ converge_passes s g, p.direction = ⟨-g.x, -g.y⟩ ∧
        ∀ s1 ∈ p.states, on_gradient_line s.circle_center_est g s1.circle_center_est) ∧
      ∀ (b : Bool) (s1 : Best_Fitting_Circle), converge s g = Except.ok (b, s1) →
        (∀ p ∈ converge_passes s g, p.states.length = p.steps ∧
          ∀ s2 ∈ p.states, on_gradient_line s.circle_center_est g s2.circle_center_est) ∧
        on_gradient_line s.circle_center_est g s1.circle_center_est) := by
  have hstart : on_gradient_line s.circle_center_est g s.circle_center_est :=
    ⟨0, by simp⟩
  constructor
  · intro p hp
    have hpg : p.cost_gradient = g ∧ p.previous = g := by
      unfold converge_passes at hp
      split at hp
      · simp at hp
      · exact converge_loop_passes_gradient 100 s g ⟨0, 0⟩ 0 (by omega) p hp
    refine ⟨hpg.1, hpg.2, ?_⟩
    rw [hpg.1, hpg.2]
    ring
  · intro hden
    have hline : ∀ p ∈ converge_passes s g, p.direction = ⟨-g.x, -g.y⟩ ∧
        ∀ s1 ∈ p.states, on_gradient_line s.circle_center_est g s1.circle_center_est := by
      intro p hp
      unfold converge_passes at hp
      split at hp
      · simp at hp
      · exact (converge_loop_passes_line s.circle_center_est g hden 100 s ⟨0, 0⟩ 0 (by omega)
          hstart).1 p hp
    refine ⟨?_, fun u_prev i => search_direction_same_gradient g u_prev i hden, hline, ?_⟩
    · rw [beta_of_converge, fdiv_ok _ _ _ hden]
      congr 1
      rw [div_eq_zero_iff]
      left
      ring
    · intro b s1 h
      constructor
      · intro p hp
        refine ⟨?_, (hline p hp).2⟩
        unfold converge at h
        unfold converge_passes at hp
        split at h
        · rename_i h0
          rw [if_pos h0] at hp
          simp at hp
        · rename_i h0
          rw [if_neg h0] at hp
          exact converge_loop_passes_complete 100 s g g ⟨0, 0⟩ 0 (by omega) b s1 h p hp
      · unfold converge at h
        split at h
        · simp only [Except.ok.injEq, Prod.mk.injEq] at h
          rw [← h.2]
          exact hstart
        · exact (converge_loop_passes_line s.circle_center_est g hden 100 s ⟨0, 0⟩ 0
            (by omega) hstart).2 b s1 h

/-- C22 (amended) at the state in which `compute_best_fit_circle` enters
`converge` on `exhaust_points`, with the gradient (68, 0), whose divisor of
`beta` is 4624: the run executes no division by zero, makes 55 steps and
returns the state `axis_state 55`, whose centre is on the line through (0,0)
in the direction (68, 0). -/
theorem C22_gradient_is_never_updated_witness :
    ((68 : ℝ) * 68 + 0 + 0 ≠ 0) ∧
    converge ⟨4, ⟨0, 0⟩, 34, exhaust_points⟩ ⟨68, 0⟩
      = Except.ok (false, axis_fitter (axis_state 55)) ∧
    (∀ p ∈ converge_passes ⟨4, ⟨0, 0⟩, 34, exhaust_points⟩ ⟨68, 0⟩,
      p.states.length = p.steps ∧
      ∀ s2 ∈ p.states, on_gradient_line ⟨0, 0⟩ ⟨68, 0⟩ s2.circle_center_est) ∧
    on_gradient_line ⟨0, 0⟩ ⟨68, 0⟩ (axis_fitter (axis_state 55)).circle_center_est :=
  ⟨by norm_num, exhaust_points_converge,
    ((C22_gradient_is_never_updated ⟨4, ⟨0, 0⟩, 34, exhaust_points⟩ ⟨68, 0⟩).2
      (by norm_num)).2.2.2 false (axis_fitter (axis_state 55)) exhaust_points_converge⟩

/-! ## The colour of a grid point -/

theorem toggle_fields (g : Grid_Points) :
    g.toggle.is_selected = !g.is_selected ∧ g.toggle.point = g.point ∧
    g.toggle.grid_offset = g.grid_offset ∧
    g.toggle.color = (if g.toggle.is_selected then Scalar.of_three 255 0 0
      else Scalar.of_three 128 128 128) := by
  unfold Grid_Points.toggle
  cases h : g.is_selected <;> simp

/-- After `set_params(p, sel)` and any number of calls of `toggle`, the colour
is the colour of the selection state, the point and the offset are those that
`set_params` stored, and the selection state has been flipped once by every
call. -/
theorem toggle_iterate (g0 : Grid_Points) (p : Point) (sel : Bool) (n : ℕ) :
    (Grid_Points.toggle^[n] (g0.set_params p sel)).color
      = (if (Grid_Points.toggle^[n] (g0.set_params p sel)).is_selected
          then Scalar.of_three 255 0 0 else Scalar.of_three 128 128 128) ∧
    (Grid_Points.toggle^[n] (g0.set_params p sel)).point = p ∧
    (Grid_Points.toggle^[n] (g0.set_params p sel)).grid_offset = ⟨p.x + 5, p.y + 5⟩ ∧
    (Grid_Points.toggle^[n] (g0.set_params p sel)).is_selected = (sel != decide (n % 2 = 1)) := by
  induction n with
  | zero =>
    cases sel <;> simp [Grid_Points.set_params]
  | succ n ih =>
    rw [Function.iterate_succ_apply']
    obtain ⟨-, h2, h3, h4⟩ := ih
    obtain ⟨t1, t2, t3, t4⟩ := toggle_fields (Grid_Points.toggle^[n] (g0.set_params p sel))
    refine ⟨t4, by rw [t2, h2], by rw [t3, h3], ?_⟩
    rw [t1, h4]
    rcases Nat.mod_two_eq_zero_or_one n with h | h
    · have : (n + 1) % 2 = 1 := by omega
      simp [h, this]
    · have : (n + 1) % 2 = 0 := by omega
      simp [h, this]

/-- C25: after `set_params(p, sel)` and any number `n` of calls of `toggle`, the
colour is blue (255,0,0) exactly when `is_selected` is true and gray
(128,128,128) exactly when it is false; the point is `p` and the offset is
`p + (5,5)`; one more `toggle` flips `is_selected` and leaves the point and the
offset as they are, and two more restore the state. -/
theorem C25_colour_follows_selection (g0 : Grid_Points) (p : Point) (sel : Bool) (n : ℕ) :
    ((Grid_Points.toggle^[n] (g0.set_params p sel)).color = Scalar.of_three 255 0 0
      ↔ (Grid_Points.toggle^[n] (g0.set_params p sel)).get_is_selected = true) ∧
    ((Grid_Points.toggle^[n] (g0.set_params p sel)).color = Scalar.of_three 128 128 128
      ↔ (Grid_Points.toggle^[n] (g0.set_params p sel)).get_is_selected = false) ∧
    (Grid_Points.toggle^[n] (g0.set_params p sel)).point = p ∧
    (Grid_Points.toggle^[n] (g0.set_params p sel)).grid_offset = ⟨p.x + 5, p.y + 5⟩ ∧
    (Grid_Points.toggle^[n] (g0.set_params p sel)).toggle.is_selected
      = !(Grid_Points.toggle^[n] (g0.set_params p sel)).is_selected ∧
    (Grid_Points.toggle^[n] (g0.set_params p sel)).toggle.point
      = (Grid_Points.toggle^[n] (g0.set_params p sel)).point ∧
    (Grid_Points.toggle^[n] (g0.set_params p sel)).toggle.grid_offset
      = (Grid_Points.toggle^[n] (g0.set_params p sel)).grid_offset ∧
    (Grid_Points.toggle^[n] (g0.set_params p sel)).toggle.toggle
      = Grid_Points.toggle^[n] (g0.set_params p sel) := by
  obtain ⟨h1, h2, h3, -⟩ := toggle_iterate g0 p sel n
  obtain ⟨t1, t2, t3, -⟩ := toggle_fields (Grid_Points.toggle^[n] (g0.set_params p sel))
  have hne : Scalar.of_three 255 0 0 ≠ Scalar.of_three 128 128 128 := by decide
  refine ⟨?_, ?_, h2, h3, t1, t2, t3, ?_⟩
  · rw [h1, Grid_Points.get_is_selected]
    cases (Grid_Points.toggle^[n] (g0.set_params p sel)).is_selected
    · simpa using hne.symm
    · simp
  · rw [h1, Grid_Points.get_is_selected]
    cases (Grid_Points.toggle^[n] (g0.set_params p sel)).is_selected
    · simp
    · simpa using hne
  · generalize Grid_Points.toggle^[n] (g0.set_params p sel) = g at h1
    obtain ⟨pt, off, selected, col⟩ := g
    simp only at h1
    cases selected <;> simp [Grid_Points.toggle, h1]

/-! ## The grid indices of the radius-drag tool -/

theorem double_to_int_range (r : ℝ) (h0 : 0 ≤ r) (h1 : r ≤ 2000) :
    0 ≤ double_to_int r ∧ double_to_int r ≤ 2000 := by
  unfold double_to_int
  rw [if_pos h0]
  constructor
  · exact Int.floor_nonneg.mpr h0
  · have : ⌊r⌋ ≤ ⌊(2000 : ℝ)⌋ := Int.floor_mono h1
    simpa using this

theorem to_unsigned_of_nonneg (v : ℤ) (h0 : 0 ≤ v) (h1 : v < 4294967296) : to_unsigned v = v := by
  unfold to_unsigned
  omega

theorem to_unsigned_of_neg (v : ℤ) (h0 : v < 0) (h1 : -4294967296 ≤ v) :
    to_unsigned v = v + 4294967296 := by
  unfold to_unsigned
  omega

theorem to_int_of_small (u : ℤ) (h0 : 0 ≤ u) (h1 : u < 2147483648) : to_int u = u := by
  unfold to_int
  split <;> omega

theorem to_int_of_large (u : ℤ) (h0 : 2147483648 ≤ u) (h1 : u < 4294967296) :
    to_int u = u - 4294967296 := by
  unfold to_int
  split <;> omega

/-- The value of `get_start_indx` for the spacing 40: the multiple of 40 at or
below `center_coordinate - radius`, and 40 when that is below 40. -/
theorem get_start_indx_eq (c R : ℤ) (h0 : -2147483000 ≤ c - R) (h1 : c - R < 2147483648) :
    Radius_Drag.get_start_indx c R 40
      = if c - R - (c - R) % 40 < 40 then 40 else c - R - (c - R) % 40 := by
  simp only [Radius_Drag.get_start_indx, Nat.cast_ofNat]
  by_cases hv : 0 ≤ c - R
  · rw [to_unsigned_of_nonneg _ hv (by omega),
      to_unsigned_of_nonneg _ (by omega) (by omega), to_int_of_small _ (by omega) (by omega)]
  · have hneg : c - R < 0 := by omega
    rw [to_unsigned_of_neg _ hneg (by omega),
      to_unsigned_of_nonneg _ (by omega) (by omega), to_int_of_large _ (by omega) (by omega)]
    rw [if_pos (by omega), if_pos (by omega)]

theorem start_indx_bounds (c R : ℤ) (hc0 : 0 ≤ c) (hc : c < 850) (hR0 : 0 ≤ R)
    (hR : R ≤ 2000) :
    40 ≤ Radius_Drag.get_start_indx (to_int c) R Radius_Drag.grid_spacing ∧
    Radius_Drag.get_start_indx (to_int c) R Radius_Drag.grid_spacing ≤ 840 := by
  rw [to_int_of_small c hc0 (by omega)]
  have h := get_start_indx_eq c R (by omega) (by omega)
  simp only [Radius_Drag.grid_spacing]
  rw [h]
  split <;> omega

/-- The value of `get_end_indx` for the spacing 40 and a sum
`start_indx + 2 * radius` that is not negative: the multiple of 40 above the
sum, and 800 when that is above 800. -/
theorem get_end_indx_eq (s R : ℤ) (h0 : 0 ≤ s + R * 2) (h1 : s + R * 2 < 2147483000) :
    Radius_Drag.get_end_indx s R 40
      = if s + R * 2 + (40 - (s + R * 2) % 40) > 800 then 800
        else s + R * 2 + (40 - (s + R * 2) % 40) := by
  simp only [Radius_Drag.get_end_indx, Nat.cast_ofNat]
  rw [to_unsigned_of_nonneg _ h0 (by omega), to_unsigned_of_nonneg (40 - _) (by omega) (by omega),
    to_unsigned_of_nonneg _ (by omega) (by omega), to_int_of_small _ (by omega) (by omega)]

theorem end_indx_bounds (s R : ℤ) (hs0 : 40 ≤ s) (hs : s ≤ 840) (hR0 : 0 ≤ R)
    (hR : R ≤ 2000) :
    40 ≤ Radius_Drag.get_end_indx s R Radius_Drag.grid_spacing ∧
    Radius_Drag.get_end_indx s R Radius_Drag.grid_spacing ≤ 800 := by
  have h := get_end_indx_eq s R (by omega) (by omega)
  simp only [Radius_Drag.grid_spacing]
  rw [h]
  split <;> omega

theorem mem_unsigned_loop (lo hi i : ℤ) (h : i ∈ unsigned_loop lo hi) : lo ≤ i ∧ i ≤ hi := by
  unfold unsigned_loop at h
  simp only [List.mem_map, List.mem_range] at h
  obtain ⟨k, hk, rfl⟩ := h
  have := Int.lt_toNat.mp hk
  omega

/-- A loop variable between the quotients by 40 of a start index from 40 to
840 and of an end index from 40 to 800 is between 1 and 20, and the index
`i - 1` computed in `unsigned int` is between 0 and 19. -/
theorem loop_index_in_grid (s e i : ℤ) (hs : 40 ≤ s) (hs2 : s ≤ 840) (he : 40 ≤ e)
    (he2 : e ≤ 800)
    (hi : i ∈ unsigned_loop (to_unsigned s / (Radius_Drag.grid_spacing : ℤ))
      (to_unsigned e / (Radius_Drag.grid_spacing : ℤ))) :
    0 ≤ to_unsigned (i - 1) ∧ to_unsigned (i - 1) ≤ 19 := by
  have h := mem_unsigned_loop _ _ _ hi
  rw [to_unsigned_of_nonneg s (by omega) (by omega),
    to_unsigned_of_nonneg e (by omega) (by omega)] at h
  simp only [Radius_Drag.grid_spacing, Nat.cast_ofNat] at h
  have h1 : 1 ≤ i := by omega
  have h2 : i ≤ 20 := by omega
  rw [to_unsigned_of_nonneg (i - 1) (by omega) (by omega)]
  omega

/-- C26: in the radius-drag tool, for a centre with coordinates in 0..849 and a
radius from 0 to 2000, `get_start_indx` returns at least 40 and `get_end_indx`
at most 800 for both coordinates, and every index pair `[i - 1][j - 1]` at
which `get_best_fit_distances` reads `grid_coordinates` has both indices in
0..19. -/
theorem C26_reads_inside_grid (center_x center_y : ℕ) (radius : ℝ)
    (hx : center_x < 850) (hy : center_y < 850) (hr0 : 0 ≤ radius) (hr : radius ≤ 2000) :
    40 ≤ Radius_Drag.get_start_indx (to_int center_x) (double_to_int radius)
      Radius_Drag.grid_spacing ∧
    40 ≤ Radius_Drag.get_start_indx (to_int center_y) (double_to_int radius)
      Radius_Drag.grid_spacing ∧
    Radius_Drag.get_end_indx
      (Radius_Drag.get_start_indx (to_int center_x) (double_to_int radius)
        Radius_Drag.grid_spacing) (double_to_int radius) Radius_Drag.grid_spacing ≤ 800 ∧
    Radius_Drag.get_end_indx
      (Radius_Drag.get_start_indx (to_int center_y) (double_to_int radius)
        Radius_Drag.grid_spacing) (double_to_int radius) Radius_Drag.grid_spacing ≤ 800 ∧
    ∀ ij ∈ Radius_Drag.get_best_fit_distances_reads center_x center_y radius,
      0 ≤ ij.1 ∧ ij.1 ≤ 19 ∧ 0 ≤ ij.2 ∧ ij.2 ≤ 19 := by
  obtain ⟨hR0, hR⟩ := double_to_int_range radius hr0 hr
  have hsx := start_indx_bounds center_x (double_to_int radius) (by omega) (by omega) hR0 hR
  have hsy := start_indx_bounds center_y (double_to_int radius) (by omega) (by omega) hR0 hR
  have hex := end_indx_bounds _ (double_to_int radius) hsx.1 hsx.2 hR0 hR
  have hey := end_indx_bounds _ (double_to_int radius) hsy.1 hsy.2 hR0 hR
  refine ⟨hsx.1, hsy.1, hex.2, hey.2, ?_⟩
  intro ij hij
  simp only [Radius_Drag.get_best_fit_distances_reads, List.mem_flatMap, List.mem_map] at hij
  obtain ⟨i, hi, j, hj, rfl⟩ := hij
  have h1 := loop_index_in_grid _ _ i hsx.1 hsx.2 hex.1 hex.2 hi
  have h2 := loop_index_in_grid _ _ j hsy.1 hsy.2 hey.1 hey.2 hj
  exact ⟨h1.1, h1.2, h2.1, h2.2⟩

/-- C26 at the centre (400, 400) and the radius 100. -/
theorem C26_reads_inside_grid_witness :
    (400 < 850 ∧ 400 < 850 ∧ (0 : ℝ) ≤ 100 ∧ (100 : ℝ) ≤ 2000) ∧
    40 ≤ Radius_Drag.get_start_indx (to_int (400 : ℕ)) (double_to_int 100)
      Radius_Drag.grid_spacing ∧
    40 ≤ Radius_Drag.get_start_indx (to_int (400 : ℕ)) (double_to_int 100)
      Radius_Drag.grid_spacing ∧
    Radius_Drag.get_end_indx
      (Radius_Drag.get_start_indx (to_int (400 : ℕ)) (double_to_int 100)
        Radius_Drag.grid_spacing) (double_to_int 100) Radius_Drag.grid_spacing ≤ 800 ∧
    Radius_Drag.get_end_indx
      (Radius_Drag.get_start_indx (to_int (400 : ℕ)) (double_to_int 100)
        Radius_Drag.grid_spacing) (double_to_int 100) Radius_Drag.grid_spacing ≤ 800 ∧
    ∀ ij ∈ Radius_Drag.get_best_fit_distances_reads 400 400 100,
      0 ≤ ij.1 ∧ ij.1 ≤ 19 ∧ 0 ≤ ij.2 ∧ ij.2 ≤ 19 :=
  ⟨⟨by norm_num, by norm_num, by norm_num, by norm_num⟩,
    C26_reads_inside_grid 400 400 100 (by norm_num) (by norm_num) (by norm_num) (by norm_num)⟩

/-! ## The grid indices of the toggle tool -/

/-- For a click coordinate from 0 to 849 the index computed by `mouse_activity`
is the quotient of the coordinate by 40. -/
theorem toggle_index_eq (x : ℤ) (h0 : 0 ≤ x) (h1 : x < 850) :
    to_int (to_unsigned (to_unsigned x - to_unsigned x % (Toggle_Points.grid_spacing : ℤ)) / 40)
      = x / 40 := by
  simp only [Toggle_Points.grid_spacing, Nat.cast_ofNat]
  rw [to_unsigned_of_nonneg x h0 (by omega), to_unsigned_of_nonneg _ (by omega) (by omega),
    to_int_of_small _ (by omega) (by omega)]
  omega

/-- C27 (the code at the failing input): a click at (2, 2) passes the hit test
of `mouse_activity`, and the indices computed are (-1, -1); a click at
(842, 44) passes it with the indices (20, 0).  Both are outside 0..19.  For a
click with coordinates in 0..849 that passes the hit test, both indices are
in 0..19 exactly when both coordinates are in 40..839. -/
theorem C27_click_at_border_out_of_grid :
    Toggle_Points.mouse_activity_toggle 2 2 = some (-1, -1) ∧
    Toggle_Points.mouse_activity_toggle 842 44 = some (20, 0) ∧
    ∀ (x y : ℤ) (ij : ℤ × ℤ), 0 ≤ x → x < 850 → 0 ≤ y → y < 850 →
      Toggle_Points.mouse_activity_toggle x y = some ij →
      ((0 ≤ ij.1 ∧ ij.1 ≤ 19 ∧ 0 ≤ ij.2 ∧ ij.2 ≤ 19) ↔
        (40 ≤ x ∧ x < 840 ∧ 40 ≤ y ∧ y < 840)) := by
  refine ⟨by decide, by decide, ?_⟩
  intro x y ij hx0 hx hy0 hy h
  unfold Toggle_Points.mouse_activity_toggle at h
  split at h
  · simp only [toggle_index_eq x hx0 hx, toggle_index_eq y hy0 hy, Option.some.injEq] at h
    rw [← h]
    simp only
    omega
  · cases h

end BestFit

end
